import Mathlib

/-!
The pyhandler bridge.

A shallow embedding of the C++ headers `pyhandler/base64.hpp`, `pyhandler/pyhandler.hpp`
and `pyhandler/concurrent.hpp`, followed by theorems about the value codec, the binary-to-text
codec, the framed buffers and the task executor.

Conventions of the embedding:

* `std::vector<uint8_t>` is a `List Nat` whose entries are below 256; every value stored into a
  `uint8_t` is reduced `% 256`;
* `std::string` is a `String` (a `List Char` inside the loops that scan it);
* a function that can throw returns `Except Err`; the error carries the message of the
  `std::runtime_error`, or the id of the `nlohmann::json` exception;
* the C++ template argument that selects a `Cast` specialisation is a value of `Ty`.
-/

namespace PyHandler

/-! ## Errors -/

/-- Everything the embedded code can throw. -/
inductive Err where
  /-- A `std::runtime_error` thrown by the headers, with its message. -/
  | runtime_error (what : String)
  /-- A `nlohmann::json::type_error` with its numeric id (302: wrong type for a conversion,
  305: `operator[]` on a value of the wrong type, 316: invalid UTF-8 in `dump`). -/
  | type_error (id : Nat)
  /-- A `nlohmann::json::parse_error` raised by `json::parse`. -/
  | parse_error
  /-- A `std::invalid_argument` raised by `std::stoi`. -/
  | invalid_argument
  /-- A `std::out_of_range` raised by `std::stoi`. -/
  | out_of_range
  /-- A library precondition is violated (a failed assertion, behaviour undefined). -/
  | undefined
  deriving DecidableEq, Repr

/-- The error kinds of the design's taxonomy. -/
inductive ErrorKind where
  | IOError | ProcessDied | ProtocolError | TypeMismatch | SizeMismatch | ExecutionError
  deriving DecidableEq, Repr

/-- The taxonomy kind of each error the headers throw, read off the message of the throw site:
a conversion between incompatible native types is a type mismatch, a tag no branch handles is a
protocol error, a tuple of the wrong arity is a size mismatch. -/
def Err.kind : Err → Option ErrorKind
  | .runtime_error what =>
    if what = "Unknown conversion" then some .TypeMismatch
    else if what = "Unknown result type" then some .ProtocolError
    else if what = "Inconsistent between tuple and value size" then some .SizeMismatch
    else if what = "message can not be decoded" then some .ProtocolError
    else if what = "Process failed" then some .ProcessDied
    else if what = "execute task failed" then some .ExecutionError
    else if what = "read_from_fd failed" ∨ what = "write buffer failed"
        ∨ what = "create pipe failed" ∨ what = "fcntl failed" ∨ what = "wait pid failed" then
      some .IOError
    else none
  | .parse_error => some .ProtocolError
  | _ => none

/-! ## base64.hpp -/

/-- The alphabet `base64_chars`. -/
def base64_chars : List Char :=
  "ABCDEFGHIJKLMNOPQRSTUVWXYZabcdefghijklmnopqrstuvwxyz0123456789+/".toList

/-- The value of `std::string::npos` on a 64-bit platform. -/
def npos : Nat := 2 ^ 64 - 1

/-- The test `is_base64`: `std::isalnum` in the C locale, or one of the two extra characters. -/
def is_base64 (c : Char) : Bool :=
  c.isAlphanum || c == '+' || c == '/'

/-- The character `base64_chars[n]`. -/
def base64_at (n : Nat) : Char :=
  base64_chars.getD n '\x00'

/-- The index `base64_chars.find(c)` of the byte `c`, `npos` when it is absent. -/
def base64_find (c : Nat) : Nat :=
  let i := base64_chars.findIdx (fun x => x.toNat == c)
  if i < base64_chars.length then i else npos

/-- The four-element array `c4` computed from `c3` inside the loop of `base64_encode`. -/
def encode_c4 (c3 : Nat → Nat) : Nat → Nat
  | 0 => ((c3 0 &&& 0xfc) >>> 2) % 256
  | 1 => (((c3 0 &&& 0x03) <<< 4) + ((c3 1 &&& 0xf0) >>> 4)) % 256
  | 2 => (((c3 1 &&& 0x0f) <<< 2) + ((c3 2 &&& 0xc0) >>> 6)) % 256
  | 3 => (c3 2 &&& 0x3f) % 256
  | _ => 0

/-- The assignments to `c4[0..2]` after the loop of `base64_encode`; `c4[3]` keeps its value. -/
def encode_c4_tail (c3 c4 : Nat → Nat) : Nat → Nat
  | 0 => ((c3 0 &&& 0xfc) >>> 2) % 256
  | 1 => (((c3 0 &&& 0x03) <<< 4) + ((c3 1 &&& 0xf0) >>> 4)) % 256
  | 2 => (((c3 1 &&& 0x0f) <<< 2) + ((c3 2 &&& 0xc0) >>> 6)) % 256
  | j => c4 j

/-- The state of `base64_encode` between two iterations: `i`, `c3`, `c4` and `ret`. -/
structure EncodeState where
  i : Nat
  c3 : Nat → Nat
  c4 : Nat → Nat
  ret : List Char

/-- The loop `while (n--)` of `base64_encode`, over the bytes not yet consumed. -/
def base64_encode_loop : List Nat → EncodeState → EncodeState
  | [], st => st
  | b :: data, st =>
    let c3 := Function.update st.c3 st.i b
    let i := st.i + 1
    if i = 3 then
      let c4 := encode_c4 c3
      base64_encode_loop data
        { i := 0, c3 := c3, c4 := c4, ret := st.ret ++ (List.range 4).map (fun j => base64_at (c4 j)) }
    else
      base64_encode_loop data { st with i := i, c3 := c3 }

/-- The code after the loop of `base64_encode`: the padded last group. -/
def base64_encode_tail (st : EncodeState) : List Char :=
  if st.i ≠ 0 then
    let c3 := fun j => if st.i ≤ j ∧ j < 3 then 0 else st.c3 j
    let c4 := encode_c4_tail c3 st.c4
    st.ret ++ (List.range (st.i + 1)).map (fun j => base64_at (c4 j))
      ++ List.replicate (3 - st.i) '='
  else st.ret

/-- The function `base64_encode`. The local arrays start with indeterminate contents in C++;
every entry that reaches the output is written first, and they start as zeros here. -/
def base64_encode (data : List Nat) : String :=
  ⟨base64_encode_tail (base64_encode_loop data ⟨0, fun _ => 0, fun _ => 0, []⟩)⟩

/-- The three bytes `c3` computed from the four indices `c4` in `base64_decode`. -/
def decode_c3 (c4 : Nat → Nat) : Nat → Nat
  | 0 => ((c4 0 <<< 2) + ((c4 1 &&& 0x30) >>> 4)) % 256
  | 1 => (((c4 1 &&& 0xf) <<< 4) + ((c4 2 &&& 0x3c) >>> 2)) % 256
  | 2 => (((c4 2 &&& 0x3) <<< 6) + c4 3) % 256
  | _ => 0

/-- The assignments to `c3[0..1]` after the loop of `base64_decode`; `c3[2]` keeps its value. -/
def decode_c3_tail (c4 c3 : Nat → Nat) : Nat → Nat
  | 0 => ((c4 0 <<< 2) + ((c4 1 &&& 0x30) >>> 4)) % 256
  | 1 => (((c4 1 &&& 0xf) <<< 4) + ((c4 2 &&& 0x3c) >>> 2)) % 256
  | j => c3 j

/-- The state of `base64_decode` between two iterations: `i`, `c4`, `c3` and `ret`. -/
structure DecodeState where
  i : Nat
  c4 : Nat → Nat
  c3 : Nat → Nat
  ret : List Nat

/-- The loop of `base64_decode` over the characters not yet consumed; it stops at the first
character that is `=` or not in the alphabet. -/
def base64_decode_loop : List Char → DecodeState → DecodeState
  | [], st => st
  | ch :: encoded, st =>
    if ch != '=' && is_base64 ch then
      let c4 := Function.update st.c4 st.i ch.toNat
      let i := st.i + 1
      if i = 4 then
        let c4 := fun j => if j < 4 then base64_find (c4 j) % 256 else c4 j
        let c3 := decode_c3 c4
        base64_decode_loop encoded
          { i := 0, c4 := c4, c3 := c3, ret := st.ret ++ (List.range 3).map c3 }
      else
        base64_decode_loop encoded { st with i := i, c4 := c4 }
    else st

/-- The code after the loop of `base64_decode`: the bytes of an incomplete last group. -/
def base64_decode_tail (st : DecodeState) : List Nat :=
  if st.i ≠ 0 then
    let c4 := fun j => if j < st.i then base64_find (st.c4 j) % 256 else st.c4 j
    let c3 := decode_c3_tail c4 st.c3
    st.ret ++ (List.range (st.i - 1)).map c3
  else st.ret

/-- The function `base64_decode`, with the same convention on the local arrays as
`base64_encode`. -/
def base64_decode (encoded : String) : List Nat :=
  base64_decode_tail (base64_decode_loop encoded.data ⟨0, fun _ => 0, fun _ => 0, []⟩)

/-- The padded text standard Base64 assigns to a byte sequence, group by group: the reference
the loops of `base64_encode` are compared with. -/
def base64_spec : List Nat → List Char
  | [] => []
  | [a] => [base64_at (a / 4), base64_at (a % 4 * 16), '=', '=']
  | [a, b] => [base64_at (a / 4), base64_at (a % 4 * 16 + b / 16), base64_at (b % 16 * 4), '=']
  | a :: b :: c :: rest =>
    [base64_at (a / 4), base64_at (a % 4 * 16 + b / 16), base64_at (b % 16 * 4 + c / 64),
      base64_at (c % 64)] ++ base64_spec rest

/-! ## Loops over containers -/

/-- A range-based `for` whose body pushes `f el` onto a vector: the results in order, or the
first throw. -/
def push_back_each {α β : Type} (f : α → Except Err β) : List α → Except Err (List β)
  | [] => .ok []
  | el :: rest => do
    let x ← f el
    let xs ← push_back_each f rest
    .ok (x :: xs)

/-! ## The JSON values of `nlohmann::json` -/

/-- A `double`, carried as an uninterpreted bit pattern: no arithmetic on doubles is embedded. -/
structure Double where
  bits : Nat
  deriving DecidableEq, Repr

/-- What the platform and the JSON library supply for doubles: `static_cast<double>` of an
integer, `static_cast` of a double to `long long` and to `size_t`, the text `dump` writes for a
double, which holds no newline, and the double `strtod` reads from the text of a number. -/
structure NumCast where
  to_double : Int → Double
  to_long_long : Double → Int
  to_size_t : Double → Nat
  float_text : Double → List Char
  strtod : List Char → Double
  float_text_line : ∀ d, '\n' ∉ float_text d

/-- A value of type `nlohmann::json`. An object lists its members in key order. -/
inductive Json where
  | null
  | boolean (b : Bool)
  | number_integer (n : Int)
  | number_unsigned (n : Nat)
  | number_float (d : Double)
  | string (s : String)
  | array (xs : List Json)
  | object (kvs : List (String × Json))

namespace Json

/-- The member `j[key]` of a `const json`: a type error 305 unless `j` is an object, and a
failed assertion when the key is absent. -/
def at_key (j : Json) (key : String) : Except Err Json :=
  match j with
  | object kvs =>
    match kvs.lookup key with
    | some v => .ok v
    | none => .error .undefined
  | _ => .error (.type_error 305)

/-- The element `j[idx]` of a `const json`: a type error 305 unless `j` is an array, and
undefined behaviour when the index is out of range. -/
def at_index (j : Json) (idx : Nat) : Except Err Json :=
  match j with
  | array xs =>
    match xs[idx]? with
    | some v => .ok v
    | none => .error .undefined
  | _ => .error (.type_error 305)

/-- The result of `j.size()`: 0 for null, the number of elements or members of a container, 1 for
every other value. -/
def size : Json → Nat
  | null => 0
  | array xs => xs.length
  | object kvs => kvs.length
  | _ => 1

/-- The values a range-based `for` over `j` visits: the elements of an array, the member values
of an object, nothing for null, and the value itself otherwise. -/
def iter : Json → List Json
  | null => []
  | array xs => xs
  | object kvs => kvs.map Prod.snd
  | j => [j]

/-- The key and value pairs `j.items()` visits: the members of an object, the elements of an
array under their decimal index, and a primitive value under the empty key. -/
def items : Json → List (String × Json)
  | null => []
  | array xs => xs.enum.map (fun p => (toString p.1, p.2))
  | object kvs => kvs
  | j => [("", j)]

/-- The conversion of a `json` to `std::string`: a type error 302 unless it is a string. -/
def get_string : Json → Except Err String
  | string s => .ok s
  | _ => .error (.type_error 302)

/-- The value of a signed 64-bit integer with the bit pattern of `n`. -/
def wrap_int64 (n : Int) : Int :=
  (n + 2 ^ 63) % 2 ^ 64 - 2 ^ 63

/-- The conversion of a `json` to `long long`: every number is cast, a boolean counts as 0 or 1
(`long long` is not the library's own integer type on LP64), anything else is a type error
302. -/
def get_long_long (nc : NumCast) : Json → Except Err Int
  | number_integer n => .ok n
  | number_unsigned n => .ok (wrap_int64 n)
  | number_float d => .ok (nc.to_long_long d)
  | boolean b => .ok (if b then 1 else 0)
  | _ => .error (.type_error 302)

/-- The conversion of a `json` to `double`: every number is cast, anything else is a type error
302. -/
def get_double (nc : NumCast) : Json → Except Err Double
  | number_integer n => .ok (nc.to_double n)
  | number_unsigned n => .ok (nc.to_double n)
  | number_float d => .ok d
  | _ => .error (.type_error 302)

/-- The conversion of a `json` to `size_t`: every number is cast, anything else is a type error
302. -/
def get_size_t (nc : NumCast) : Json → Except Err Nat
  | number_integer n => .ok (n % 2 ^ 64).toNat
  | number_unsigned n => .ok n
  | number_float d => .ok (nc.to_size_t d)
  | _ => .error (.type_error 302)

/-- The conversion of a `json` to `std::vector<size_t>`: a type error 302 unless it is an array,
then the conversion of each element in order. -/
def get_vector_size_t (nc : NumCast) : Json → Except Err (List Nat)
  | array xs => push_back_each (get_size_t nc) xs
  | _ => .error (.type_error 302)

end Json

/-! ## pyhandler.hpp: `NDArray` -/

/-- The class `NDArray`: the raw bytes, the shape and the element type name. -/
structure NDArray where
  data : List Nat
  shape : List Nat
  dtype : String
  deriving DecidableEq, Repr

/-- The method `NDArray::nr_elem`, with the `size_t` product taken modulo `2 ^ 64`. -/
def NDArray.nr_elem (a : NDArray) : Nat :=
  if a.shape.isEmpty then 0
  else a.shape.foldl (fun cnt s => cnt * s % 2 ^ 64) 1

/-- The element size the typed constructors of `NDArray` pair with each `dtype`:
`sizeof(int)`, `sizeof(float)`, `sizeof(uint16_t)` and `sizeof(uint8_t)`. -/
def dtype_size (dtype : String) : Option Nat :=
  if dtype = "int32" then some 4
  else if dtype = "float32" then some 4
  else if dtype = "uint16" then some 2
  else if dtype = "uint8" then some 1
  else none

/-! ## pyhandler.hpp: native values and target types -/

/-- The native types a template argument of `Cast<json, T>` ranges over. -/
inductive Ty where
  | void
  | long_long
  | double
  | string
  | ndarray
  | vector (V : Ty)
  | map (V : Ty)
  | tuple (Vs : List Ty)

/-- A native value of one of the types of `Ty`. A `std::map` lists its entries in key order. -/
inductive Val where
  | void
  | long_long (n : Int)
  | double (d : Double)
  | string (s : String)
  | ndarray (a : NDArray)
  | vector (xs : List Val)
  | map (kvs : List (String × Val))
  | tuple (xs : List Val)

/-- The assignment `m[key] = v` on a `std::map<std::string, V>` kept in key order. -/
def map_assign (m : List (String × Val)) (key : String) (v : Val) : List (String × Val) :=
  match m with
  | [] => [(key, v)]
  | (k, x) :: rest =>
    if key.data < k.data then (key, v) :: (k, x) :: rest
    else if key = k then (k, v) :: rest
    else (k, x) :: map_assign rest key v

/-- A loop over `items()` whose body assigns `m[el.key()] = f(el.value())`: the final map, or
the first throw. -/
def assign_each (f : Json → Except Err Val) :
    List (String × Json) → List (String × Val) → Except Err (List (String × Val))
  | [], m => .ok m
  | el :: rest, m => do
    let x ← f el.2
    assign_each f rest (map_assign m el.1 x)

/-! ## pyhandler.hpp: `ParamEncoder` -/

mutual

/-- The encoders `ParamEncoder<T>::impl`: `int` for `long long`, `float` for `double`, `ndarray`
for `NDArray`, `string` for `std::string`, `list` for `std::vector<T>` and for `std::tuple<T...>`;
the primary template, which every other type reaches, throws. -/
def ParamEncoder : Val → Except Err Json
  | .long_long param =>
    .ok (.object [("class", .string "int"), ("value", .number_integer param)])
  | .double param =>
    .ok (.object [("class", .string "float"), ("value", .number_float param)])
  | .ndarray param =>
    .ok (.object [("class", .string "ndarray"), ("data", .string (base64_encode param.data)),
      ("dtype", .string param.dtype), ("shape", .array (param.shape.map .number_unsigned))])
  | .string param =>
    .ok (.object [("class", .string "string"), ("value", .string param)])
  | .vector param => do
    let j ← VectorEncoder param
    .ok (.object [("class", .string "list"), ("value", .array j)])
  | .tuple param => do
    let j ← TupleEncoder param
    .ok (.object [("class", .string "list"), ("value", .array j)])
  | .map _ => .error (.runtime_error "Unknown param type")
  | .void => .error (.runtime_error "Unknown param type")

/-- The loop of `ParamEncoder<std::vector<T>>::impl`, which pushes the encoding of each item. -/
def VectorEncoder : List Val → Except Err (List Json)
  | [] => .ok []
  | item :: rest => do
    let x ← ParamEncoder item
    let xs ← VectorEncoder rest
    .ok (x :: xs)

/-- The recursion `TupleEncoder<I, N>::impl` over the components from `I` on. -/
def TupleEncoder : List Val → Except Err (List Json)
  | [] => .ok []
  | item :: rest => do
    let x ← ParamEncoder item
    let xs ← TupleEncoder rest
    .ok (x :: xs)

end

/-! ## pyhandler.hpp: `Cast` -/

/-- The conversions `Cast<long long, D>::impl`: the identity, the implicit conversion to
`double`, and a throw for a target `long long` does not convert to. -/
def Cast_long_long (nc : NumCast) (D : Ty) (src : Int) : Except Err Val :=
  match D with
  | .long_long => .ok (.long_long src)
  | .double => .ok (.double (nc.to_double src))
  | _ => .error (.runtime_error "Unknown conversion")

/-- The conversions `Cast<double, D>::impl`. -/
def Cast_double (nc : NumCast) (D : Ty) (src : Double) : Except Err Val :=
  match D with
  | .long_long => .ok (.long_long (nc.to_long_long src))
  | .double => .ok (.double src)
  | _ => .error (.runtime_error "Unknown conversion")

/-- The conversions `Cast<NDArray, D>::impl`. -/
def Cast_NDArray (D : Ty) (src : NDArray) : Except Err Val :=
  match D with
  | .ndarray => .ok (.ndarray src)
  | _ => .error (.runtime_error "Unknown conversion")

/-- The conversions `Cast<std::string, D>::impl`. -/
def Cast_string (D : Ty) (src : String) : Except Err Val :=
  match D with
  | .string => .ok (.string src)
  | _ => .error (.runtime_error "Unknown conversion")

/-- The primary template `Cast<json, T>::impl`, which dispatches on the class tag. The three
arguments of the `NDArray` constructor are converted from left to right. -/
def Cast_json_scalar (nc : NumCast) (T : Ty) (result : Json) : Except Err Val := do
  let cls ← (← result.at_key "class").get_string
  if cls = "int" then
    Cast_long_long nc T (← (← result.at_key "value").get_long_long nc)
  else if cls = "float" then
    Cast_double nc T (← (← result.at_key "value").get_double nc)
  else if cls = "ndarray" then
    let data ← (← result.at_key "data").get_string
    let shape ← (← result.at_key "shape").get_vector_size_t nc
    let dtype ← (← result.at_key "dtype").get_string
    Cast_NDArray T ⟨base64_decode data, shape, dtype⟩
  else if cls = "string" then
    Cast_string T (← (← result.at_key "value").get_string)
  else
    .error (.runtime_error "Unknown result type")

mutual

/-- The decoders `Cast<json, T>::impl`: the specialisations for `void`, `std::vector<V>`,
`std::map<std::string, V>` and `std::tuple<V...>`, and the primary template for the rest. -/
def Cast_json (nc : NumCast) : Ty → Json → Except Err Val
  | .void, _ => .ok .void
  | .vector V, result => do
    let cls ← (← result.at_key "class").get_string
    if cls = "list" then
      let v ← push_back_each (Cast_json nc V) (← result.at_key "value").iter
      .ok (.vector v)
    else
      .error (.runtime_error "Unknown result type")
  | .map V, result => do
    let cls ← (← result.at_key "class").get_string
    if cls = "dict" then
      let m ← assign_each (Cast_json nc V) (← result.at_key "value").items []
      .ok (.map m)
    else
      .error (.runtime_error "Unknown result type")
  | .tuple Vs, result => do
    let cls ← (← result.at_key "class").get_string
    if cls = "list" then
      let value ← result.at_key "value"
      if Vs.length ≠ value.size then
        .error (.runtime_error "Inconsistent between tuple and value size")
      else
        let t ← TupleAssigner nc Vs 0 value
        .ok (.tuple t)
    else
      .error (.runtime_error "Unknown result type")
  | .long_long, result => Cast_json_scalar nc .long_long result
  | .double, result => Cast_json_scalar nc .double result
  | .string, result => Cast_json_scalar nc .string result
  | .ndarray, result => Cast_json_scalar nc .ndarray result

/-- The recursion `TupleAssigner<I, N>::impl`: component `I` is the decoding of `v[I]`, then the
components after it; the first argument lists the component types from `I` on. -/
def TupleAssigner (nc : NumCast) : List Ty → Nat → Json → Except Err (List Val)
  | [], _, _ => .ok []
  | V :: Vs, I, v => do
    let x ← Cast_json nc V (← v.at_index I)
    let xs ← TupleAssigner nc Vs (I + 1) v
    .ok (x :: xs)

end

/-- Conversions for closed examples in which no double takes part. -/
def no_double : NumCast :=
  ⟨fun _ => ⟨0⟩, fun _ => 0, fun _ => 0, fun _ => ['0'], fun _ => ⟨0⟩, fun _ => by simp⟩

/-! ## Typing of native values -/

mutual

/-- Whether a native value is a value of the C++ type `T`: a `long long` is within 64 bits, the
bytes of an `NDArray` are below 256 and its sizes within `size_t`, a vector holds values of one
type, a tuple holds one value of each component type. -/
def has_type : Ty → Val → Bool
  | .void, .void => true
  | .long_long, .long_long n => decide (-2 ^ 63 ≤ n ∧ n < 2 ^ 63)
  | .double, .double _ => true
  | .string, .string _ => true
  | .ndarray, .ndarray a => a.data.all (fun b => decide (b < 256))
      && a.shape.all (fun s => decide (s < 2 ^ 64))
  | .vector V, .vector xs => xs.all (has_type V)
  | .map V, .map kvs => kvs.all (fun kv => has_type V kv.2)
  | .tuple Vs, .tuple xs => has_types Vs xs
  | _, _ => false

/-- Whether the values are, position by position, values of the listed types. -/
def has_types : List Ty → List Val → Bool
  | [], [] => true
  | V :: Vs, x :: xs => has_type V x && has_types Vs xs
  | _, _ => false

end

mutual

/-- The types built from `long long`, `std::string`, `std::vector` and `std::tuple`. -/
def Ty.basic : Ty → Bool
  | .long_long => true
  | .string => true
  | .vector V => V.basic
  | .tuple Vs => Ty.all_basic Vs
  | _ => false

/-- Whether every listed type is built from `long long`, `std::string`, `std::vector` and
`std::tuple`. -/
def Ty.all_basic : List Ty → Bool
  | [] => true
  | V :: Vs => V.basic && Ty.all_basic Vs

end

mutual

/-- The types `ParamEncoder` has a specialisation for, at every level: all but `void` and
`std::map`. -/
def Ty.encodable : Ty → Bool
  | .long_long => true
  | .double => true
  | .string => true
  | .ndarray => true
  | .vector V => V.encodable
  | .tuple Vs => Ty.all_encodable Vs
  | _ => false

/-- Whether `ParamEncoder` has a specialisation for every listed type. -/
def Ty.all_encodable : List Ty → Bool
  | [] => true
  | V :: Vs => V.encodable && Ty.all_encodable Vs

end

/-- The wire object of class `cls` whose payload is `value`. -/
def wire (cls : String) (value : Json) : Json :=
  .object [("class", .string cls), ("value", value)]

/-! ## concurrent.hpp: `ReadBuffer` and `WriteBuffer` -/

/-- One outcome of the system call `read` on a non-blocking descriptor. -/
inductive ReadResult where
  /-- A positive count, with the bytes read. -/
  | bytes (data : List Char)
  /-- The result -1 with `EAGAIN` or `EWOULDBLOCK`. -/
  | would_block
  /-- The result 0. -/
  | eof
  /-- The result -1 with any other `errno`. -/
  | failed

/-- The class `ReadBuffer`: the bytes buffered so far and the scan position. -/
structure ReadBuffer where
  str_buf : List Char
  pos : Nat
  deriving DecidableEq, Repr

namespace ReadBuffer

/-- The constructor `ReadBuffer()`. -/
def init : ReadBuffer := ⟨[], 0⟩

/-- The loop of `read_from_fd` over the outcomes of its successive `read` calls: it appends
what arrives and adds up the count until a call would block or returns 0; a descriptor with no
further outcome listed would block. -/
def read_from_fd_loop (b : ReadBuffer) (tot_bytes : Nat) :
    List ReadResult → Except Err (Nat × ReadBuffer)
  | [] => .ok (tot_bytes, b)
  | .failed :: _ => .error (.runtime_error "read_from_fd failed")
  | .would_block :: _ => .ok (tot_bytes, b)
  | .eof :: _ => .ok (tot_bytes, b)
  | .bytes data :: reads =>
    if data.length = 0 then .ok (tot_bytes, b)
    else read_from_fd_loop { b with str_buf := b.str_buf ++ data } (tot_bytes + data.length) reads

/-- The method `read_from_fd`. -/
def read_from_fd (b : ReadBuffer) (reads : List ReadResult) : Except Err (Nat × ReadBuffer) :=
  read_from_fd_loop b 0 reads

/-- The loop of `has_line` over the bytes from `pos` on: `pos` moves forward while the byte
under it is not a newline. -/
def has_line_loop : List Char → Nat → Nat
  | [], pos => pos
  | c :: rest, pos => if c ≠ '\n' then has_line_loop rest (pos + 1) else pos

/-- The method `has_line`: its result and the buffer it leaves. -/
def has_line (b : ReadBuffer) : Bool × ReadBuffer :=
  let pos := has_line_loop (b.str_buf.drop b.pos) b.pos
  (decide (pos < b.str_buf.length), { b with pos := pos })

/-- The method `read_line`: the line returned and the buffer it leaves. -/
def read_line (b : ReadBuffer) : List Char × ReadBuffer :=
  let (found, b) := b.has_line
  if !found then ([], b)
  else (b.str_buf.take b.pos, { str_buf := b.str_buf.drop (b.pos + 1), pos := 0 })

/-- The buffers a `ReadBuffer` goes through from its construction, under any sequence of
calls of `read_from_fd`, `has_line` and `read_line`. -/
inductive Reachable : ReadBuffer → Prop where
  | init : Reachable init
  | read_from_fd (b b1 : ReadBuffer) (reads : List ReadResult) (n : Nat) :
      Reachable b → b.read_from_fd reads = .ok (n, b1) → Reachable b1
  | has_line (b : ReadBuffer) : Reachable b → Reachable b.has_line.2
  | read_line (b : ReadBuffer) : Reachable b → Reachable b.read_line.2

/-- The invariant of a `ReadBuffer`: the scan position is within the buffer, and no newline
stands before it. -/
def Inv (b : ReadBuffer) : Prop :=
  b.pos ≤ b.str_buf.length ∧ '\n' ∉ b.str_buf.take b.pos

end ReadBuffer

/-- The constructor `WriteBuffer(fd, msg)`: the bytes to write are the message and one
newline, and none is written yet. -/
structure WriteBuffer where
  str_buf : List Char
  pos : Nat
  deriving DecidableEq, Repr

/-- The constructor of `WriteBuffer`. -/
def WriteBuffer.init (msg : List Char) : WriteBuffer := ⟨msg ++ ['\n'], 0⟩

/-- The method `WriteBuffer::remain`. -/
def WriteBuffer.remain (w : WriteBuffer) : Nat := w.str_buf.length - w.pos

/-! ## Text of integers: `std::to_string` and `std::stoi` -/

/-- The character of the decimal digit `d`. -/
def digit_char (d : Nat) : Char := Char.ofNat (48 + d)

/-- The decimal digits of `n` in front of `acc`, produced from the least significant one; the
first argument bounds the number of digits. -/
def decimal_loop : Nat → Nat → List Char → List Char
  | 0, _, acc => acc
  | fuel + 1, n, acc =>
    if n < 10 then digit_char n :: acc
    else decimal_loop fuel (n / 10) (digit_char (n % 10) :: acc)

/-- The decimal text of a natural number. -/
def decimal (n : Nat) : List Char := decimal_loop (n + 1) n []

/-- The decimal text of an integer, as `std::to_string` and `json::dump` write it. -/
def to_string (n : Int) : List Char :=
  if n < 0 then '-' :: decimal n.natAbs else decimal n.toNat

/-- The test `std::isspace` in the C locale. -/
def isspace (c : Char) : Bool :=
  c = ' ' || c = '\t' || c = '\n' || c = '\x0b' || c = '\x0c' || c = '\r'

/-- The value of the longest run of decimal digits at the head of the text, starting from
`value`, with the number of digits consumed. -/
def stoi_digits : List Char → Nat → Nat → Nat × Nat
  | [], value, count => (value, count)
  | c :: rest, value, count =>
    if c.isDigit then stoi_digits rest (value * 10 + (c.toNat - 48)) (count + 1)
    else (value, count)

/-- The text left once the leading white space is skipped, as `strtol` does. -/
def skip_isspace : List Char → List Char
  | [] => []
  | c :: rest => if isspace c then skip_isspace rest else c :: rest

/-- The function `std::stoi` in base 10: leading white space and one sign are skipped, the
longest run of digits is converted, and what follows is ignored; no digit is an invalid
argument, a value outside `int` is out of range. -/
def stoi (str : List Char) : Except Err Int :=
  let (negative, digits) :=
    match skip_isspace str with
    | [] => (false, [])
    | c :: rest => if c = '-' then (true, rest) else if c = '+' then (false, rest)
      else (false, c :: rest)
  let (value, count) := stoi_digits digits 0 0
  if count = 0 then .error .invalid_argument
  else
    let n : Int := if negative then - (value : Int) else value
    if n < -2 ^ 31 ∨ 2 ^ 31 ≤ n then .error .out_of_range else .ok n

/-- The conversion of a `size_t` to `int`: the low 32 bits, read as a signed number. -/
def to_int (n : Nat) : Int :=
  ((n : Int) + 2 ^ 31) % 2 ^ 32 - 2 ^ 31

/-- The conversion of an `int` to `size_t`: the value modulo `2 ^ 64`. -/
def int_to_size_t (n : Int) : Nat :=
  (n % 2 ^ 64).toNat

/-! ## The text of JSON values: `json::dump` and `json::parse` -/

/-- The lower-case hexadecimal digit of `d`. -/
def hex_char (d : Nat) : Char :=
  "0123456789abcdef".toList.getD d '0'

/-- The text `dump` writes for one character of a string: a short escape for backspace, tab,
newline, form feed, carriage return, the quote and the backslash, a `\u00xx` escape for the
other characters up to 0x1f, and the character itself otherwise. -/
def dump_escaped_char (c : Char) : List Char :=
  if c = '\x08' then ['\\', 'b']
  else if c = '\t' then ['\\', 't']
  else if c = '\n' then ['\\', 'n']
  else if c = '\x0c' then ['\\', 'f']
  else if c = '\r' then ['\\', 'r']
  else if c = '"' then ['\\', '"']
  else if c = '\\' then ['\\', '\\']
  else if c.toNat ≤ 0x1f then
    ['\\', 'u', '0', '0', hex_char (c.toNat / 16), hex_char (c.toNat % 16)]
  else [c]

/-- The text `dump` writes for the characters of a string, without the quotes around them. -/
def dump_escaped : List Char → List Char
  | [] => []
  | c :: rest => dump_escaped_char c ++ dump_escaped rest

mutual

/-- The compact text `j.dump()`. -/
def dump (nc : NumCast) : Json → List Char
  | .null => ['n', 'u', 'l', 'l']
  | .boolean b => if b then ['t', 'r', 'u', 'e'] else ['f', 'a', 'l', 's', 'e']
  | .number_integer n => to_string n
  | .number_unsigned n => decimal n
  | .number_float d => nc.float_text d
  | .string s => '"' :: dump_escaped s.data ++ ['"']
  | .array xs => '[' :: dump_elements nc xs ++ [']']
  | .object kvs => '{' :: dump_members nc kvs ++ ['}']

/-- The elements of an array, separated by commas. -/
def dump_elements (nc : NumCast) : List Json → List Char
  | [] => []
  | x :: rest =>
    match rest with
    | [] => dump nc x
    | _ :: _ => dump nc x ++ ',' :: dump_elements nc rest

/-- The members of an object, each a quoted key, a colon and a value, separated by commas. -/
def dump_members (nc : NumCast) : List (String × Json) → List Char
  | [] => []
  | (k, x) :: rest =>
    match rest with
    | [] => '"' :: dump_escaped k.data ++ '"' :: ':' :: dump nc x
    | _ :: _ => '"' :: dump_escaped k.data ++ '"' :: ':' :: dump nc x ++ ',' :: dump_members nc rest

end

/-- The text left once the white space the lexer skips (space, tab, newline, carriage return)
is removed from its head. -/
def skip_whitespace : List Char → List Char
  | [] => []
  | c :: rest =>
    if c = ' ' ∨ c = '\t' ∨ c = '\n' ∨ c = '\r' then skip_whitespace rest else c :: rest

/-- The value of a hexadecimal digit, in either case. -/
def hex_value (c : Char) : Option Nat :=
  if '0' ≤ c ∧ c ≤ '9' then some (c.toNat - 48)
  else if 'A' ≤ c ∧ c ≤ 'F' then some (c.toNat - 55)
  else if 'a' ≤ c ∧ c ≤ 'f' then some (c.toNat - 87)
  else none

/-- The code point of the four hexadecimal digits of a `\u` escape. -/
def get_codepoint (a b c d : Char) : Option Nat :=
  match hex_value a, hex_value b, hex_value c, hex_value d with
  | some a, some b, some c, some d => some (a * 4096 + b * 256 + c * 16 + d)
  | _, _, _, _ => none

/-- The character a `\u` escape stands for, entered after the `u`, and the text after the
escape: the code point of four hexadecimal digits, or of a high surrogate followed by the escape
of a low surrogate; a surrogate on its own is refused. -/
def scan_unicode (input : List Char) : Except Err (Char × List Char) :=
  match input with
  | h1 :: h2 :: h3 :: h4 :: rest =>
    match get_codepoint h1 h2 h3 h4 with
    | none => .error .parse_error
    | some cp1 =>
      if 0xD800 ≤ cp1 ∧ cp1 ≤ 0xDBFF then
        match rest with
        | b1 :: u1 :: l1 :: l2 :: l3 :: l4 :: rest1 =>
          if b1 = '\\' ∧ u1 = 'u' then
            match get_codepoint l1 l2 l3 l4 with
            | none => .error .parse_error
            | some cp2 =>
              if 0xDC00 ≤ cp2 ∧ cp2 ≤ 0xDFFF then
                .ok (Char.ofNat ((cp1 <<< 10) + cp2 - 0x35FDC00), rest1)
              else .error .parse_error
          else .error .parse_error
        | _ => .error .parse_error
      else if 0xDC00 ≤ cp1 ∧ cp1 ≤ 0xDFFF then .error .parse_error
      else .ok (Char.ofNat cp1, rest)
  | _ => .error .parse_error

/-- The character an escape stands for, entered after the backslash, and the text after the
escape. -/
def scan_escape (input : List Char) : Except Err (Char × List Char) :=
  match input with
  | [] => .error .parse_error
  | e :: rest =>
    if e = '"' then .ok ('"', rest)
    else if e = '\\' then .ok ('\\', rest)
    else if e = '/' then .ok ('/', rest)
    else if e = 'b' then .ok ('\x08', rest)
    else if e = 'f' then .ok ('\x0c', rest)
    else if e = 'n' then .ok ('\n', rest)
    else if e = 'r' then .ok ('\r', rest)
    else if e = 't' then .ok ('\t', rest)
    else if e = 'u' then scan_unicode rest
    else .error .parse_error

/-- The lexer's `scan_string`, entered after the opening quote: the characters of the string
collected so far, then the string and the text after its closing quote. An escape stands for
its character and a raw character below 0x20 is refused. The first argument bounds the number
of iterations; the length of the text is enough for every text. -/
def scan_string : Nat → List Char → List Char → Except Err (List Char × List Char)
  | 0, _, _ => .error .parse_error
  | fuel + 1, input, acc =>
    match input with
    | [] => .error .parse_error
    | c :: rest =>
      if c = '"' then .ok (acc, rest)
      else if c = '\\' then
        match scan_escape rest with
        | .error e => .error e
        | .ok (ch, rest1) => scan_string fuel rest1 (acc ++ [ch])
      else if c.toNat < 0x20 then .error .parse_error
      else scan_string fuel rest (acc ++ [c])

/-- The longest run of decimal digits at the head of the text, and the text after it. -/
def span_digits : List Char → List Char × List Char
  | [] => ([], [])
  | c :: rest =>
    if c.isDigit then
      let (ds, tl) := span_digits rest
      (c :: ds, tl)
    else ([], c :: rest)

/-- The value of a run of decimal digits. -/
def digits_value (ds : List Char) : Nat :=
  ds.foldl (fun v c => v * 10 + (c.toNat - 48)) 0

/-- The fraction of a number token: the point and the digits after it, the text after them,
and whether the fraction is well formed (a point is followed by a digit). -/
def scan_fraction (input : List Char) : List Char × List Char × Bool :=
  match input with
  | [] => ([], [], true)
  | c :: tl =>
    if c = '.' then ('.' :: (span_digits tl).1, (span_digits tl).2, decide ((span_digits tl).1 ≠ []))
    else ([], c :: tl, true)

/-- The exponent of a number token: the mark, an optional sign and the digits after it, the
text after them, and whether the exponent is well formed (its digits are not missing). -/
def scan_exponent (input : List Char) : List Char × List Char × Bool :=
  match input with
  | [] => ([], [], true)
  | e :: tl =>
    if e = 'e' ∨ e = 'E' then
      match tl with
      | [] => ([e], [], false)
      | s :: tl1 =>
        if s = '+' ∨ s = '-' then
          (e :: s :: (span_digits tl1).1, (span_digits tl1).2, decide ((span_digits tl1).1 ≠ []))
        else (e :: (span_digits tl).1, (span_digits tl).2, decide ((span_digits tl).1 ≠ []))
    else ([], e :: tl, true)

/-- The lexer's `scan_number` with the conversion of the token: an optional minus, an integer
part without a superfluous leading zero, an optional fraction and an optional exponent. A token
with neither fraction nor exponent is an unsigned integer when it has no minus and fits 64
bits, a signed integer when it has a minus and fits 64 bits; every other token is a double. -/
def scan_number (nc : NumCast) (input : List Char) : Except Err (Json × List Char) :=
  let negative := decide (input.head? = some '-')
  let body := if negative then input.tail else input
  match body with
  | [] => .error .parse_error
  | c :: rest =>
    if ¬ c.isDigit then .error .parse_error
    else
      let int_part := if c = '0' then (['0'], rest) else span_digits (c :: rest)
      let sign := if negative then ['-'] else []
      let frac := scan_fraction int_part.2
      let expo := scan_exponent frac.2.1
      if ¬ (frac.2.2 = true ∧ expo.2.2 = true) then .error .parse_error
      else if frac.1 = [] ∧ expo.1 = [] then
        if negative then
          if digits_value int_part.1 ≤ 2 ^ 63 then
            .ok (.number_integer (- (digits_value int_part.1 : Int)), expo.2.1)
          else .ok (.number_float (nc.strtod (sign ++ int_part.1)), expo.2.1)
        else
          if digits_value int_part.1 < 2 ^ 64 then
            .ok (.number_unsigned (digits_value int_part.1), expo.2.1)
          else .ok (.number_float (nc.strtod int_part.1), expo.2.1)
      else .ok (.number_float (nc.strtod (sign ++ int_part.1 ++ frac.1 ++ expo.1)), expo.2.1)

/-- A text that cannot continue a number token: it is empty, or starts with a character that
is neither a digit, nor a point, nor an exponent mark. -/
def ends_number (tail : List Char) : Prop :=
  ∀ c tl, tail = c :: tl → c.isDigit = false ∧ c ≠ '.' ∧ c ≠ 'e' ∧ c ≠ 'E'

/-- The assignment `object[key] = value` on the members of an object kept in key order: the
value of a key that is already present is replaced. -/
def object_assign (kvs : List (String × Json)) (key : String) (value : Json) :
    List (String × Json) :=
  match kvs with
  | [] => [(key, value)]
  | (k, x) :: rest =>
    if key.data < k.data then (key, value) :: (k, x) :: rest
    else if key = k then (k, value) :: rest
    else (k, x) :: object_assign rest key value

/-- The text after a literal name when the text starts with it. -/
def scan_literal : List Char → List Char → Option (List Char)
  | [], input => some input
  | _ :: _, [] => none
  | l :: literal, c :: input => if l = c then scan_literal literal input else none

mutual

/-- The parser on one value: the value and the text after it. The first argument bounds the
number of nested calls; the length of the text, plus one, is enough for every text. -/
def parse_value (nc : NumCast) : Nat → List Char → Except Err (Json × List Char)
  | 0, _ => .error .parse_error
  | fuel + 1, input =>
    match skip_whitespace input with
    | [] => .error .parse_error
    | c :: rest =>
      if c = '{' then
        match skip_whitespace rest with
        | [] => .error .parse_error
        | c1 :: rest1 =>
          if c1 = '}' then .ok (.object [], rest1)
          else parse_members nc fuel (c1 :: rest1) []
      else if c = '[' then
        match skip_whitespace rest with
        | [] => .error .parse_error
        | c1 :: rest1 =>
          if c1 = ']' then .ok (.array [], rest1)
          else parse_elements nc fuel (c1 :: rest1) []
      else if c = '"' then
        match scan_string rest.length rest [] with
        | .error e => .error e
        | .ok (s, rest1) => .ok (.string ⟨s⟩, rest1)
      else if c = 't' then
        match scan_literal ['r', 'u', 'e'] rest with
        | some rest1 => .ok (.boolean true, rest1)
        | none => .error .parse_error
      else if c = 'f' then
        match scan_literal ['a', 'l', 's', 'e'] rest with
        | some rest1 => .ok (.boolean false, rest1)
        | none => .error .parse_error
      else if c = 'n' then
        match scan_literal ['u', 'l', 'l'] rest with
        | some rest1 => .ok (.null, rest1)
        | none => .error .parse_error
      else if c = '-' ∨ c.isDigit then scan_number nc (c :: rest)
      else .error .parse_error

/-- The parser inside an array, before an element: the elements collected so far, then the
array and the text after its closing bracket. -/
def parse_elements (nc : NumCast) : Nat → List Char → List Json → Except Err (Json × List Char)
  | 0, _, _ => .error .parse_error
  | fuel + 1, input, acc =>
    match parse_value nc fuel input with
    | .error e => .error e
    | .ok (v, rest) =>
      match skip_whitespace rest with
      | [] => .error .parse_error
      | c :: rest1 =>
        if c = ',' then parse_elements nc fuel rest1 (acc ++ [v])
        else if c = ']' then .ok (.array (acc ++ [v]), rest1)
        else .error .parse_error

/-- The parser inside an object, before a key: the members collected so far, then the object
and the text after its closing brace. -/
def parse_members (nc : NumCast) :
    Nat → List Char → List (String × Json) → Except Err (Json × List Char)
  | 0, _, _ => .error .parse_error
  | fuel + 1, input, acc =>
    match skip_whitespace input with
    | [] => .error .parse_error
    | q :: rest =>
      if q = '"' then
        match scan_string rest.length rest [] with
        | .error e => .error e
        | .ok (key, rest1) =>
          match skip_whitespace rest1 with
          | [] => .error .parse_error
          | c :: rest2 =>
            if c = ':' then
              match parse_value nc fuel rest2 with
              | .error e => .error e
              | .ok (v, rest3) =>
                match skip_whitespace rest3 with
                | [] => .error .parse_error
                | c1 :: rest4 =>
                  if c1 = ',' then parse_members nc fuel rest4 (object_assign acc ⟨key⟩ v)
                  else if c1 = '}' then .ok (.object (object_assign acc ⟨key⟩ v), rest4)
                  else .error .parse_error
            else .error .parse_error
      else .error .parse_error

end

/-- The function `json::parse` on the text of one line: a value, then nothing but white space. -/
def parse (nc : NumCast) (input : List Char) : Except Err Json :=
  match parse_value nc (input.length + 1) input with
  | .error e => .error e
  | .ok (j, rest) =>
    match skip_whitespace rest with
    | [] => .ok j
    | _ :: _ => .error .parse_error

/-! ## concurrent.hpp: `TaskExecutor` -/

mutual

/-- The conversion `json jret = ret` of a task result, for the result types the JSON library
converts by itself: `long long`, `double`, `std::string` and `std::vector`. The other types of
`Ty` are not used as a result type here and give null. -/
def to_json : Val → Json
  | .long_long n => .number_integer n
  | .double d => .number_float d
  | .string s => .string s
  | .vector xs => .array (to_json_each xs)
  | _ => .null

/-- The conversion of the elements of a vector, in order. -/
def to_json_each : List Val → List Json
  | [] => []
  | x :: xs => to_json x :: to_json_each xs

end

/-- The implicit conversion of a `json` to the result type `R`, for the same result types: a
number for `long long` and `double`, a string for `std::string`, and an array whose elements
convert for `std::vector`; anything else is a type error 302. -/
def from_json (nc : NumCast) : Ty → Json → Except Err Val
  | .long_long, j => do
    let n ← j.get_long_long nc
    .ok (.long_long n)
  | .double, j => do
    let d ← j.get_double nc
    .ok (.double d)
  | .string, j => do
    let s ← j.get_string
    .ok (.string s)
  | .vector V, j =>
    match j with
    | .array xs => do
      let v ← push_back_each (from_json nc V) xs
      .ok (.vector v)
    | _ => .error (.type_error 302)
  | _, _ => .error (.type_error 302)

/-- The result types built from `long long`, `std::string` and `std::vector`. -/
def Ty.json_native : Ty → Bool
  | .long_long => true
  | .string => true
  | .vector V => V.json_native
  | _ => false

/-- The value of the local `int selected_idx` of `control_worker` after the first block: -1 when
the queue was empty, the front of the queue converted to `int` otherwise. -/
def selected_idx : Option Nat → Int
  | none => -1
  | some front => to_int front

/-- What one iteration of the loop of `execute_on_child` does. -/
inductive ChildStep where
  /-- The function returns, and the process exits with this code. -/
  | exit (code : Int)
  /-- An exception leaves the function, and the process terminates abnormally. -/
  | throw (e : Err)
  /-- The bytes of one response are written, and the loop goes on. -/
  | respond (bytes : List Char)
  deriving DecidableEq, Repr

/-- One iteration of the loop of `execute_on_child`, on the bytes of the request pipe:
`block_readline` takes the first line from a fresh `ReadBuffer`, `std::stoi` reads the index,
-1 ends the loop, an index out of bounds throws, and any other index is answered with the text
of `func(args[idx])` in a `WriteBuffer`. -/
def execute_on_child {α : Type} (nc : NumCast) (func : α → Val) (args : List α)
    (request : List Char) : ChildStep :=
  match stoi (ReadBuffer.mk request 0).read_line.1 with
  | .error e => .throw e
  | .ok idx =>
    if idx = -1 then .exit 0
    else if idx < 0 ∨ idx ≥ to_int args.length then
      .throw (.runtime_error "message can not be decoded")
    else
      match args[idx.toNat]? with
      | none => .throw .undefined
      | some a => .respond (WriteBuffer.init (dump nc (to_json (func a)))).str_buf

/-- The message `read_from_proc` returns once the bytes of the response pipe hold a line: the
first line of a fresh `ReadBuffer`; none while no line is complete. -/
def read_from_proc (response : List Char) : Option (List Char) :=
  if (ReadBuffer.mk response 0).has_line.1 then some (ReadBuffer.mk response 0).read_line.1
  else none

/-- The arguments of `callback(selected_idx, json::parse(msg))`: the index converted to
`size_t`, and the message parsed and converted to the result type `R`. -/
def callback_arguments (nc : NumCast) (R : Ty) (front : Option Nat) (msg : List Char) :
    Except Err (Nat × Val) := do
  let j ← parse nc msg
  let r ← from_json nc R j
  .ok (int_to_size_t (selected_idx front), r)

mutual

/-- A bound on the nested calls the parser makes on the text of a value: one for a scalar, and
for a vector one more than the sum over its elements of their bound plus one. -/
def Val.weight : Val → Nat
  | .vector xs => Val.weight_each xs + 1
  | _ => 1

/-- The sum, over the values, of their bound plus one. -/
def Val.weight_each : List Val → Nat
  | [] => 0
  | x :: xs => x.weight + 1 + Val.weight_each xs

end

/-! ## concurrent.hpp: the worker pool of `TaskExecutor::execute` -/

/-- The parameters of `execute_tasks`: the result type `R`, the function, the arguments and
the number of workers. -/
structure Executor (α : Type) where
  nc : NumCast
  R : Ty
  func : α → Val
  args : List α
  num_workers : Nat

/-- Where a worker thread stands in `control_worker`. The front of the queue is kept as the
`size_t` that was popped; `selected_idx` is its conversion to `int`. -/
inductive Pc where
  /-- At the top of the loop, before the first `lock_guard`. -/
  | idle
  /-- Inside the first `lock_guard`, holding `task_mutex`. -/
  | locked
  /-- After the first block: the queue was empty, or its front was popped. -/
  | popped (front : Option Nat)
  /-- After the check that makes sure the child is alive. -/
  | ready (front : Option Nat)
  /-- After `write_to_proc` of the index, with its result. -/
  | written (front : Nat) (write_success : Bool)
  /-- After a successful `read_from_proc`, with the message. -/
  | received (front : Nat) (msg : List Char)
  /-- Inside the second `lock_guard`, holding `task_mutex`, before the callback. -/
  | locked_callback (front : Nat) (msg : List Char)
  /-- Inside the callback, still holding `task_mutex`. -/
  | in_callback (front : Nat)
  /-- In `child->join()` after the request to stop was written. -/
  | joining (front : Option Nat)
  /-- Returned from `control_worker`. -/
  | done (front : Option Nat)
  /-- Left `control_worker` by an exception. -/
  | failed
  deriving DecidableEq, Repr

/-- Whether the worker holds `task_mutex` at this point. -/
def Pc.holds : Pc → Bool
  | .locked => true
  | .locked_callback _ _ => true
  | .in_callback _ => true
  | _ => false

/-- The queue entry the worker has popped and not yet passed to the callback. -/
def Pc.front : Pc → Option Nat
  | .popped front => front
  | .ready front => front
  | .written front _ => some front
  | .received front _ => some front
  | .locked_callback front _ => some front
  | .joining front => front
  | .done front => front
  | _ => none

/-- Whether the worker has returned from `control_worker`. -/
def Pc.is_done : Pc → Bool
  | .done _ => true
  | _ => false

/-- The child process of a worker, with what its pipes hold. -/
inductive Child where
  /-- No process yet: the pointer is null. -/
  | none
  /-- Alive and blocked in `block_readline`, both pipes empty. -/
  | waiting
  /-- Alive, with the bytes of a request in its pipe. -/
  | requested (bytes : List Char)
  /-- Alive and back in `block_readline`, with the bytes of its response in the other pipe. -/
  | responded (bytes : List Char)
  /-- Exited with code 0 after the request to stop. -/
  | exited
  /-- Terminated abnormally: killed, or left by an exception. -/
  | dead
  deriving DecidableEq, Repr

/-- The result of `Process::is_alive` on the child. -/
def Child.alive : Child → Bool
  | .waiting => true
  | .requested _ => true
  | .responded _ => true
  | _ => false

/-- What a run of the pool lets one observe. -/
inductive Event where
  /-- A worker went through the first block: it found the queue empty, or popped its front. -/
  | pop (worker : Nat) (front : Option Nat)
  /-- A worker entered the callback for the entry `front`, with these two arguments. -/
  | callback_begin (worker : Nat) (front : Nat) (index : Nat) (result : Val)
  /-- A worker left the callback. -/
  | callback_end (worker : Nat)

/-- The state of a run of `TaskExecutor::execute`: the shared queue, the holder of
`task_mutex`, every worker with its child, and the events so far. -/
structure Pool where
  queue : List Nat
  mutex : Option Nat
  pc : Nat → Pc
  child : Nat → Child
  log : List Event

/-- What the scheduler can let happen next: a step of a worker thread, a step of the child
process of a worker, or the death of that child from outside. -/
inductive Action where
  | worker (w : Nat)
  | child (w : Nat)
  | kill (w : Nat)
  deriving DecidableEq, Repr

/-- The bytes `write_to_proc` puts in the request pipe for the index `idx`. -/
def request_bytes (idx : Int) : List Char :=
  (WriteBuffer.init (to_string idx)).str_buf

/-- One step of the worker `w` in `control_worker`. A step that has to wait, for the mutex, for
a response or for the exit of the child, leaves the state unchanged. An exception that leaves
the function releases the mutex it held. -/
def worker_step {α : Type} (cfg : Executor α) (s : Pool) (w : Nat) : Pool :=
  match s.pc w with
  | .idle =>
    if s.mutex = none then { s with mutex := some w, pc := Function.update s.pc w .locked }
    else s
  | .locked =>
    match s.queue with
    | [] =>
      { s with mutex := none, pc := Function.update s.pc w (.popped none),
               log := s.log ++ [.pop w none] }
    | front :: rest =>
      { s with queue := rest, mutex := none, pc := Function.update s.pc w (.popped (some front)),
               log := s.log ++ [.pop w (some front)] }
  | .popped front =>
    if (s.child w).alive then { s with pc := Function.update s.pc w (.ready front) }
    else { s with child := Function.update s.child w .waiting,
                  pc := Function.update s.pc w (.ready front) }
  | .ready front =>
    if selected_idx front = -1 then
      if (s.child w).alive then
        { s with child := Function.update s.child w (.requested (request_bytes (-1))),
                 pc := Function.update s.pc w (.joining front) }
      else { s with pc := Function.update s.pc w (.joining front) }
    else
      match front with
      | none => s
      | some i =>
        if (s.child w).alive then
          { s with child := Function.update s.child w (.requested (request_bytes (to_int i))),
                   pc := Function.update s.pc w (.written i true) }
        else { s with pc := Function.update s.pc w (.written i false) }
  | .written front write_success =>
    if write_success = false then { s with pc := Function.update s.pc w .failed }
    else
      match s.child w with
      | .responded bytes =>
        match read_from_proc bytes with
        | some msg =>
          { s with child := Function.update s.child w .waiting,
                   pc := Function.update s.pc w (.received front msg) }
        | none => s
      | .waiting => s
      | .requested _ => s
      | _ => { s with pc := Function.update s.pc w .failed }
  | .received front msg =>
    if s.mutex = none then
      { s with mutex := some w, pc := Function.update s.pc w (.locked_callback front msg) }
    else s
  | .locked_callback front msg =>
    match callback_arguments cfg.nc cfg.R (some front) msg with
    | .error _ => { s with mutex := none, pc := Function.update s.pc w .failed }
    | .ok (index, r) =>
      { s with pc := Function.update s.pc w (.in_callback front),
               log := s.log ++ [.callback_begin w front index r] }
  | .in_callback _ =>
    { s with mutex := none, pc := Function.update s.pc w .idle,
             log := s.log ++ [.callback_end w] }
  | .joining front =>
    if (s.child w).alive then s else { s with pc := Function.update s.pc w (.done front) }
  | .done _ => s
  | .failed => s

/-- One step of the child process of the worker `w`: an iteration of `execute_on_child` on the
request in its pipe. -/
def child_step {α : Type} (cfg : Executor α) (s : Pool) (w : Nat) : Pool :=
  match s.child w with
  | .requested bytes =>
    match execute_on_child cfg.nc cfg.func cfg.args bytes with
    | .exit _ => { s with child := Function.update s.child w .exited }
    | .throw _ => { s with child := Function.update s.child w .dead }
    | .respond out => { s with child := Function.update s.child w (.responded out) }
  | _ => s

/-- The death of the child process of the worker `w`, when it is alive. -/
def kill_step (s : Pool) (w : Nat) : Pool :=
  if (s.child w).alive then { s with child := Function.update s.child w .dead } else s

/-- One step of the pool; an action on a worker that does not exist does nothing. -/
def Pool.step {α : Type} (cfg : Executor α) (s : Pool) : Action → Pool
  | .worker w => if w < cfg.num_workers then worker_step cfg s w else s
  | .child w => if w < cfg.num_workers then child_step cfg s w else s
  | .kill w => if w < cfg.num_workers then kill_step s w else s

/-- The state `execute` starts the workers in: every index queued in order, the mutex free, no
child yet. -/
def Pool.init {α : Type} (cfg : Executor α) : Pool :=
  { queue := List.range cfg.args.length, mutex := none, pc := fun _ => .idle,
    child := fun _ => .none, log := [] }

/-- The state after the actions of a schedule, one interleaving of the workers and their
children. -/
def Pool.run {α : Type} (cfg : Executor α) (schedule : List Action) : Pool :=
  schedule.foldl (Pool.step cfg) (Pool.init cfg)

/-- The queue entries popped, in the order of the pops. -/
def pops : List Event → List Nat
  | [] => []
  | .pop _ (some front) :: rest => front :: pops rest
  | _ :: rest => pops rest

/-- The queue entries for which the callback was entered, in order. -/
def callback_fronts : List Event → List Nat
  | [] => []
  | .callback_begin _ front _ _ :: rest => front :: callback_fronts rest
  | _ :: rest => callback_fronts rest

/-- The indices the callback was invoked with, in order. -/
def callback_indices : List Event → List Nat
  | [] => []
  | .callback_begin _ _ index _ :: rest => index :: callback_indices rest
  | _ :: rest => callback_indices rest

/-- The worker that is inside the callback after the events, when no invocation started while
another one was running and each one was left by the worker that entered it; none when one of
these fails. The second argument is the worker inside the callback before the events. -/
def callbacks_serial : List Event → Option Nat → Option (Option Nat)
  | [], current => some current
  | .callback_begin w _ _ _ :: rest, current =>
    if current = none then callbacks_serial rest (some w) else none
  | .callback_end w :: rest, current =>
    if current = some w then callbacks_serial rest none else none
  | .pop _ _ :: rest, current => callbacks_serial rest current

/-- The queue holds the entries not yet popped, in order, and the entries popped so far are
the ones before them. -/
def Inv_queue (n : Nat) (s : Pool) : Prop :=
  ∃ m, m ≤ n ∧ s.queue = List.range' m (n - m) ∧ pops s.log = List.range m

/-- A worker is inside one of the two locked blocks exactly when it holds the mutex. -/
def Inv_mutex (s : Pool) : Prop :=
  ∀ w, (s.pc w).holds = true ↔ s.mutex = some w

/-- The callback invocations so far were serial, and the worker inside the callback, if any,
is the one the events show. -/
def Inv_serial (s : Pool) : Prop :=
  ∃ current, callbacks_serial s.log none = some current ∧
    ∀ w, current = some w ↔ ∃ f, s.pc w = .in_callback f

/-- Every popped entry is with exactly one worker or was passed to the callback exactly once,
unless a worker has failed. -/
def Inv_carried (s : Pool) : Prop :=
  (∀ w i, (s.pc w).front = some i → i ∈ pops s.log ∧ i ∉ callback_fronts s.log) ∧
  (∀ w v i, (s.pc w).front = some i → (s.pc v).front = some i → w = v) ∧
  (callback_fronts s.log).Nodup ∧
  (∀ i ∈ callback_fronts s.log, i ∈ pops s.log) ∧
  (∀ i ∈ pops s.log, i ∈ callback_fronts s.log ∨ (∃ w, (s.pc w).front = some i) ∨
    ∃ w, s.pc w = .failed)

/-- What the pipes of a child hold matches the point its worker has reached, unless the worker
has failed: a request is the text of the index of a worker waiting for the response, or the
request to stop of a worker that joins; a response exists only for an index the child
accepted. -/
def Inv_exchange (s : Pool) : Prop :=
  (∀ w f msg, s.pc w = .received f msg ∨ s.pc w = .locked_callback f msg → 0 ≤ to_int f) ∧
  (∀ w b, s.child w = .requested b →
    (∃ f, s.pc w = .written f true ∧ to_int f ≠ -1 ∧ b = request_bytes (to_int f)) ∨
    (∃ f, s.pc w = .joining f ∧ b = request_bytes (-1)) ∨ s.pc w = .failed) ∧
  (∀ w b, s.child w = .responded b →
    (∃ f, s.pc w = .written f true ∧ 0 ≤ to_int f) ∨ s.pc w = .failed) ∧
  (∀ w i, s.pc w = .joining (some i) ∨ s.pc w = .done (some i) → to_int i = -1)

/-- The callback received, for each entry, its conversion to `int` and back, and that `int` was
not negative. -/
def Inv_called (s : Pool) : Prop :=
  callback_indices s.log = (callback_fronts s.log).map (fun f => int_to_size_t (to_int f)) ∧
  ∀ f ∈ callback_fronts s.log, 0 ≤ to_int f

/-- A worker that found the queue empty leaves it empty. -/
def Inv_empty (s : Pool) : Prop :=
  ∀ w, s.pc w = .popped none ∨ s.pc w = .ready none ∨ s.pc w = .joining none ∨
    s.pc w = .done none → s.queue = []

/-- The threads that were not started stay at the top of the loop. -/
def Inv_idle (n : Nat) (s : Pool) : Prop :=
  ∀ w, n ≤ w → s.pc w = .idle

/-- The invariant of the pool: what holds in every state of every run. -/
structure Pool.Inv {α : Type} (cfg : Executor α) (s : Pool) : Prop where
  queue : Inv_queue cfg.args.length s
  mutex : Inv_mutex s
  serial : Inv_serial s
  carried : Inv_carried s
  exchange : Inv_exchange s
  called : Inv_called s
  empty : Inv_empty s
  idle : Inv_idle cfg.num_workers s

/-- A pool of two workers that doubles each of two numbers. -/
def example_executor : Executor Int :=
  ⟨no_double, .long_long, fun n => .long_long (n * 2), [10, 20], 2⟩

/-- A complete run of the example: each worker takes one task, its child answers, the callbacks
run one after the other, then each worker finds the queue empty, stops its child and joins. -/
def example_schedule : List Action :=
  [.worker 0, .worker 0, .worker 1, .worker 1, .worker 0, .worker 1, .worker 1, .child 1,
   .worker 1, .worker 0, .child 0, .worker 0, .worker 0, .worker 1, .worker 0, .worker 0,
   .worker 1, .worker 1, .worker 1, .worker 0, .worker 0, .worker 0, .worker 0, .child 0,
   .worker 0, .worker 1, .worker 1, .worker 1, .worker 1, .child 1, .worker 1]

/-! ## pyhandler.hpp: the session `PyHandler` -/

/-- The function `PyHandler::execute_with_data<Result>`: the text of the command goes to the
process and the line it answers is parsed and decoded into `Result`. The argument
`communicate` is the exchange `communicate_to_proc` with the peer process: the response line,
or none when the exchange failed. -/
def execute_with_data (nc : NumCast) (Result : Ty)
    (communicate : List Char → Option (List Char)) (data : Json) : Except Err Val :=
  match communicate (dump nc data) with
  | none => .error (.runtime_error "Process failed")
  | some result => do
    let j ← parse nc result
    Cast_json nc Result j

/-- The command `json::array({"set_vars", param_names, jparams})` that `PyHandler::set_vars`
builds. The parameter `param_names` is a `std::array<std::string, N>`, which converts to the
array of its `N` strings in order; `N` is a template parameter of its own, whose default is the
number of parameters and which an array argument of another size replaces. -/
def set_vars_command (param_names : List String) (params : List Val) : Except Err Json := do
  let jparams ← ParamEncoder (.tuple params)
  .ok (.array [.string "set_vars", .array (param_names.map .string), jparams])

/-- The function `PyHandler::set_vars`. -/
def set_vars (nc : NumCast) (communicate : List Char → Option (List Char))
    (param_names : List String) (params : List Val) : Except Err Val := do
  let jcommand ← set_vars_command param_names params
  execute_with_data nc .void communicate jcommand

/-- A run of the example in which the child of worker 0 is killed once, after the worker has
written the request for task 0 and before it has read the response; worker 1 then goes through
the rest of the queue and returns. -/
def kill_schedule : List Action :=
  [.worker 0, .worker 0, .worker 0, .worker 0, .kill 0, .worker 0,
   .worker 1, .worker 1, .worker 1, .worker 1, .child 1, .worker 1, .worker 1, .worker 1,
   .worker 1, .worker 1, .worker 1, .worker 1, .worker 1, .child 1, .worker 1]

/-! ## Theorems -/

set_option maxRecDepth 100000 in
theorem land_fc_shr (a : Nat) (h : a < 256) : (a &&& 0xfc) >>> 2 = a / 4 := by
  revert a; decide

set_option maxRecDepth 100000 in
theorem land_03_shl (a : Nat) (h : a < 256) : (a &&& 0x03) <<< 4 = a % 4 * 16 := by
  revert a; decide

set_option maxRecDepth 100000 in
theorem land_f0_shr (a : Nat) (h : a < 256) : (a &&& 0xf0) >>> 4 = a / 16 := by
  revert a; decide

set_option maxRecDepth 100000 in
theorem land_0f_shl (a : Nat) (h : a < 256) : (a &&& 0x0f) <<< 2 = a % 16 * 4 := by
  revert a; decide

set_option maxRecDepth 100000 in
theorem land_c0_shr (a : Nat) (h : a < 256) : (a &&& 0xc0) >>> 6 = a / 64 := by
  revert a; decide

set_option maxRecDepth 100000 in
theorem land_3f (a : Nat) (h : a < 256) : a &&& 0x3f = a % 64 := by
  revert a; decide

set_option maxRecDepth 100000 in
theorem base64_at_facts : ∀ n, n < 64 →
    (base64_at n != '=' && is_base64 (base64_at n)) = true ∧ base64_find (base64_at n).toNat % 256 = n := by
  decide

theorem encode_loop_spec (data : List Nat) : ∀ (st : EncodeState), (∀ x ∈ data, x < 256) →
    st.i = 0 → base64_encode_tail (base64_encode_loop data st) = st.ret ++ base64_spec data := by
  induction data using base64_spec.induct with
  | case1 =>
    intro st _ hi
    simp [base64_encode_loop, base64_encode_tail, hi, base64_spec]
  | case2 a =>
    intro st hb hi
    obtain ⟨i, c3, c4, ret⟩ := st
    subst hi
    have ha : a < 256 := hb a (by simp)
    simp [base64_encode_loop, base64_encode_tail, base64_spec, encode_c4_tail, List.range_succ,
      land_fc_shr a ha, land_03_shl a ha, List.replicate]
    constructor
    · congr 1; omega
    · congr 1; omega
  | case3 a b =>
    intro st hb hi
    obtain ⟨i, c3, c4, ret⟩ := st
    subst hi
    have ha : a < 256 := hb a (by simp)
    have hb' : b < 256 := hb b (by simp)
    simp [base64_encode_loop, base64_encode_tail, base64_spec, encode_c4_tail, List.range_succ,
      land_fc_shr a ha, land_03_shl a ha, land_f0_shr b hb', land_0f_shl b hb', List.replicate]
    refine ⟨?_, ?_, ?_⟩ <;> congr 1 <;> omega
  | case4 a b c rest ih =>
    intro st hb hi
    obtain ⟨i, c3, c4, ret⟩ := st
    subst hi
    have ha : a < 256 := hb a (by simp)
    have hb' : b < 256 := hb b (by simp)
    have hc : c < 256 := hb c (by simp)
    have hr : ∀ x ∈ rest, x < 256 := fun x hx => hb x (by simp [hx])
    simp only [base64_encode_loop]
    simp
    rw [ih _ hr rfl]
    simp [base64_spec, encode_c4, List.range_succ,
      land_fc_shr a ha, land_03_shl a ha, land_f0_shr b hb', land_0f_shl b hb',
      land_c0_shr c hc, land_3f c hc]
    refine ⟨?_, ?_, ?_, ?_⟩ <;> congr 1 <;> omega
set_option maxRecDepth 100000 in
theorem land_30_shr (x : Nat) (h : x < 64) : (x &&& 0x30) >>> 4 = x / 16 := by
  revert x; decide

set_option maxRecDepth 100000 in
theorem land_f_shl (x : Nat) (h : x < 64) : (x &&& 0xf) <<< 4 = x % 16 * 16 := by
  revert x; decide

set_option maxRecDepth 100000 in
theorem land_3c_shr (x : Nat) (h : x < 64) : (x &&& 0x3c) >>> 2 = x / 4 := by
  revert x; decide

set_option maxRecDepth 100000 in
theorem land_3_shl (x : Nat) (h : x < 64) : (x &&& 0x3) <<< 6 = x % 4 * 64 := by
  revert x; decide

theorem decode_loop_spec (data : List Nat) : ∀ (st : DecodeState), (∀ x ∈ data, x < 256) →
    st.i = 0 → base64_decode_tail (base64_decode_loop (base64_spec data) st) = st.ret ++ data := by
  induction data using base64_spec.induct with
  | case1 =>
    intro st _ hi
    simp [base64_decode_loop, base64_decode_tail, hi, base64_spec]
  | case2 a =>
    intro st hb hi
    obtain ⟨i, c4, c3, ret⟩ := st
    subst hi
    have ha : a < 256 := hb a (by simp)
    have h0 := base64_at_facts (a / 4) (by omega)
    have h1 := base64_at_facts (a % 4 * 16) (by omega)
    simp only [base64_spec, base64_decode_loop, h0.1, h1.1]
    simp [base64_decode_tail, decode_c3_tail, h0.2, h1.2, List.range_succ, Nat.shiftLeft_eq,
      land_30_shr (a % 4 * 16) (by omega)]
    omega
  | case3 a b =>
    intro st hb hi
    obtain ⟨i, c4, c3, ret⟩ := st
    subst hi
    have ha : a < 256 := hb a (by simp)
    have hb' : b < 256 := hb b (by simp)
    have h0 := base64_at_facts (a / 4) (by omega)
    have h1 := base64_at_facts (a % 4 * 16 + b / 16) (by omega)
    have h2 := base64_at_facts (b % 16 * 4) (by omega)
    simp only [base64_spec, base64_decode_loop, h0.1, h1.1, h2.1]
    simp [base64_decode_tail, decode_c3_tail, h0.2, h1.2, h2.2, List.range_succ, Nat.shiftLeft_eq,
      land_30_shr (a % 4 * 16 + b / 16) (by omega), land_f_shl (a % 4 * 16 + b / 16) (by omega),
      land_3c_shr (b % 16 * 4) (by omega)]
    omega
  | case4 a b c rest ih =>
    intro st hb hi
    obtain ⟨i, c4, c3, ret⟩ := st
    subst hi
    have ha : a < 256 := hb a (by simp)
    have hb' : b < 256 := hb b (by simp)
    have hc : c < 256 := hb c (by simp)
    have hr : ∀ x ∈ rest, x < 256 := fun x hx => hb x (by simp [hx])
    have h0 := base64_at_facts (a / 4) (by omega)
    have h1 := base64_at_facts (a % 4 * 16 + b / 16) (by omega)
    have h2 := base64_at_facts (b % 16 * 4 + c / 64) (by omega)
    have h3 := base64_at_facts (c % 64) (by omega)
    simp only [base64_spec, List.cons_append, List.nil_append, base64_decode_loop, h0.1, h1.1, h2.1,
      h3.1]
    simp
    rw [ih _ hr rfl]
    simp [decode_c3, h0.2, h1.2, h2.2, h3.2, List.range_succ, Nat.shiftLeft_eq,
      land_30_shr (a % 4 * 16 + b / 16) (by omega), land_f_shl (a % 4 * 16 + b / 16) (by omega),
      land_3c_shr (b % 16 * 4 + c / 64) (by omega), land_3_shl (b % 16 * 4 + c / 64) (by omega)]
    omega

theorem base64_roundtrip (data : List Nat) (h : ∀ x ∈ data, x < 256) :
    base64_decode (base64_encode data) = data := by
  unfold base64_decode base64_encode
  simp only
  rw [encode_loop_spec data _ h rfl]
  simpa using decode_loop_spec data ⟨0, fun _ => 0, fun _ => 0, []⟩ h rfl

theorem Cast_json_scalar_int (nc : NumCast) (T : Ty) (n : Int) :
    Cast_json_scalar nc T (.object [("class", .string "int"), ("value", .number_integer n)])
      = Cast_long_long nc T n := by
  rfl

theorem Cast_json_scalar_string (nc : NumCast) (T : Ty) (s : String) :
    Cast_json_scalar nc T (.object [("class", .string "string"), ("value", .string s)])
      = Cast_string T s := by
  rfl

theorem Cast_json_scalar_float (nc : NumCast) (T : Ty) (d : Double) :
    Cast_json_scalar nc T (.object [("class", .string "float"), ("value", .number_float d)])
      = Cast_double nc T d := by
  rfl
theorem has_types_length : ∀ (Vs : List Ty) (xs : List Val), has_types Vs xs = true →
    xs.length = Vs.length
  | [], [], _ => rfl
  | [], _ :: _, h => by simp [has_types] at h
  | _ :: _, [], h => by simp [has_types] at h
  | V :: Vs, x :: xs, h => by
    simp only [has_types, Bool.and_eq_true] at h
    simp [has_types_length Vs xs h.2]

theorem mapM_size_t (nc : NumCast) (shape : List Nat) :
    push_back_each (Json.get_size_t nc) (shape.map Json.number_unsigned) = .ok shape := by
  induction shape with
  | nil => rfl
  | cons s rest ih =>
    simp [push_back_each, Json.get_size_t, ih, bind, Except.bind]

theorem Cast_json_scalar_ndarray (nc : NumCast) (T : Ty) (data : String) (dtype : String)
    (shape : List Nat) :
    Cast_json_scalar nc T (.object [("class", .string "ndarray"), ("data", .string data),
      ("dtype", .string dtype), ("shape", .array (shape.map .number_unsigned))])
      = Cast_NDArray T ⟨base64_decode data, shape, dtype⟩ := by
  have h := mapM_size_t nc shape
  simp [Cast_json_scalar, Json.at_key, List.lookup, Json.get_string, Json.get_vector_size_t,
    bind, Except.bind, h]

theorem VectorEncoder_decode (f : Json → Except Err Val) : ∀ (xs : List Val),
    (∀ x ∈ xs, ∃ j, ParamEncoder x = .ok j ∧ f j = .ok x) →
    ∃ js, VectorEncoder xs = .ok js ∧ push_back_each f js = .ok xs
  | [], _ => ⟨[], rfl, rfl⟩
  | x :: xs, h => by
    obtain ⟨j, hj, hf⟩ := h x (by simp)
    obtain ⟨js, hjs, hfs⟩ := VectorEncoder_decode f xs (fun y hy => h y (by simp [hy]))
    refine ⟨j :: js, ?_, ?_⟩
    · simp [VectorEncoder, hj, hjs, bind, Except.bind]
    · simp [push_back_each, hf, hfs, bind, Except.bind]
theorem at_index_append (pre js : List Json) (x : Json) :
    (Json.array (pre ++ x :: js)).at_index pre.length = .ok x := by
  have h : (pre ++ x :: js)[pre.length]? = some x := by
    induction pre with
    | nil => simp
    | cons p pre ih => simpa using ih
  simp only [Json.at_index, h]

mutual

theorem Cast_ParamEncoder (nc : NumCast) : ∀ (T : Ty) (v : Val), has_type T v = true →
    T.encodable = true → ∃ j, ParamEncoder v = .ok j ∧ Cast_json nc T j = .ok v
  | .void, v, _, he => by simp [Ty.encodable] at he
  | .map _, v, _, he => by simp [Ty.encodable] at he
  | .long_long, v, ht, _ => by
    cases v <;> simp [has_type] at ht
    exact ⟨_, rfl, by simp [Cast_json, Cast_json_scalar_int, Cast_long_long]⟩
  | .double, v, ht, _ => by
    cases v <;> simp [has_type] at ht
    exact ⟨_, rfl, by simp [Cast_json, Cast_json_scalar_float, Cast_double]⟩
  | .string, v, ht, _ => by
    cases v <;> simp [has_type] at ht
    exact ⟨_, rfl, by simp [Cast_json, Cast_json_scalar_string, Cast_string]⟩
  | .ndarray, v, ht, _ => by
    cases v <;> simp [has_type] at ht
    rename_i a
    refine ⟨_, rfl, ?_⟩
    simp only [Cast_json, Cast_json_scalar_ndarray, Cast_NDArray]
    rw [base64_roundtrip a.data ht.1]
  | .vector V, v, ht, he => by
    cases v <;> simp [has_type] at ht
    rename_i xs
    simp only [Ty.encodable] at he
    obtain ⟨js, hjs, hd⟩ := VectorEncoder_decode (Cast_json nc V) xs
      (fun x hx => Cast_ParamEncoder nc V x (ht x hx) he)
    refine ⟨.object [("class", .string "list"), ("value", .array js)], ?_, ?_⟩
    · simp [ParamEncoder, hjs, bind, Except.bind]
    · simp [Cast_json, Json.at_key, List.lookup, Json.get_string, Json.iter, hd, bind, Except.bind]
  | .tuple Vs, v, ht, he => by
    cases v <;> simp [has_type] at ht
    rename_i xs
    simp only [Ty.encodable] at he
    obtain ⟨js, hjs, hlen, hd⟩ := TupleAssigner_TupleEncoder nc Vs xs ht he
    refine ⟨.object [("class", .string "list"), ("value", .array js)], ?_, ?_⟩
    · simp [ParamEncoder, hjs, bind, Except.bind]
    · have hl := has_types_length Vs xs ht
      have hd0 := hd []
      simp only [List.length_nil, List.nil_append] at hd0
      simp [Cast_json, Json.at_key, List.lookup, Json.get_string, Json.size, hd0, bind,
        Except.bind, hlen, hl]

theorem TupleAssigner_TupleEncoder (nc : NumCast) : ∀ (Vs : List Ty) (xs : List Val),
    has_types Vs xs = true → Ty.all_encodable Vs = true →
    ∃ js, TupleEncoder xs = .ok js ∧ js.length = xs.length ∧
      ∀ pre : List Json, TupleAssigner nc Vs pre.length (.array (pre ++ js)) = .ok xs
  | [], [], _, _ => ⟨[], rfl, rfl, fun _ => rfl⟩
  | [], _ :: _, ht, _ => by simp [has_types] at ht
  | _ :: _, [], ht, _ => by simp [has_types] at ht
  | V :: Vs, x :: xs, ht, he => by
    simp only [has_types, Bool.and_eq_true] at ht
    simp only [Ty.all_encodable, Bool.and_eq_true] at he
    obtain ⟨j, hj, hc⟩ := Cast_ParamEncoder nc V x ht.1 he.1
    obtain ⟨js, hjs, hlen, hd⟩ := TupleAssigner_TupleEncoder nc Vs xs ht.2 he.2
    refine ⟨j :: js, ?_, by simp [hlen], ?_⟩
    · simp [TupleEncoder, hj, hjs, bind, Except.bind]
    · intro pre
      have h1 := hd (pre ++ [j])
      simp only [List.length_append, List.length_singleton, List.append_assoc,
        List.singleton_append] at h1
      simp [TupleAssigner, at_index_append, hc, h1, bind, Except.bind]

end
mutual

theorem basic_encodable : ∀ (T : Ty), T.basic = true → T.encodable = true
  | .void, h => by simp [Ty.basic] at h
  | .long_long, _ => rfl
  | .double, h => by simp [Ty.basic] at h
  | .string, _ => rfl
  | .ndarray, h => by simp [Ty.basic] at h
  | .vector V, h => by
    simp only [Ty.basic] at h
    simpa [Ty.encodable] using basic_encodable V h
  | .map _, h => by simp [Ty.basic] at h
  | .tuple Vs, h => by
    simp only [Ty.basic] at h
    simpa [Ty.encodable] using all_basic_encodable Vs h

theorem all_basic_encodable : ∀ (Vs : List Ty), Ty.all_basic Vs = true →
    Ty.all_encodable Vs = true
  | [], _ => rfl
  | V :: Vs, h => by
    simp only [Ty.all_basic, Bool.and_eq_true] at h
    simp [Ty.all_encodable, basic_encodable V h.1, all_basic_encodable Vs h.2]

end

/-- C1: for every value `v` built from 64-bit signed integers, strings, vectors and tuples, with
`T` its own type, decoding the encoding of `v` into `T` returns `v`: the order and length of
every list and the position of every tuple component are those of `v`. -/
theorem codec_round_trip (nc : NumCast) (T : Ty) (v : Val) (hT : T.basic = true)
    (hv : has_type T v = true) :
    (ParamEncoder v >>= Cast_json nc T) = .ok v := by
  obtain ⟨j, hj, hc⟩ := Cast_ParamEncoder nc T v hv (basic_encodable T hT)
  simp [hj, hc, bind, Except.bind]

theorem codec_round_trip_witness :
    (Ty.tuple [.long_long, .string, .vector (.tuple [.string, .long_long])]).basic = true ∧
    has_type (.tuple [.long_long, .string, .vector (.tuple [.string, .long_long])])
      (.tuple [.long_long (-5), .string "a\nb",
        .vector [.tuple [.string "x", .long_long 1], .tuple [.string "", .long_long 2]]]) = true ∧
    (ParamEncoder (.tuple [.long_long (-5), .string "a\nb",
        .vector [.tuple [.string "x", .long_long 1], .tuple [.string "", .long_long 2]]])
      >>= Cast_json no_double (.tuple [.long_long, .string, .vector (.tuple [.string, .long_long])]))
      = .ok (.tuple [.long_long (-5), .string "a\nb",
        .vector [.tuple [.string "x", .long_long 1], .tuple [.string "", .long_long 2]]]) :=
  ⟨by decide, by decide, codec_round_trip no_double _ _ (by decide) (by decide)⟩

/-- C2: for every byte sequence `data`, of any length, every shape and every dtype string,
decoding the encoding of `NDArray(data, shape, dtype)` into an `NDArray` returns the same
bytes, shape and dtype; and `base64_decode(base64_encode(data))` is `data`. -/
theorem ndarray_round_trip (nc : NumCast) (data shape : List Nat) (dtype : String)
    (hdata : ∀ b ∈ data, b < 256) :
    (ParamEncoder (.ndarray ⟨data, shape, dtype⟩) >>= Cast_json nc .ndarray)
      = .ok (.ndarray ⟨data, shape, dtype⟩) ∧
    base64_decode (base64_encode data) = data := by
  have h := base64_roundtrip data hdata
  refine ⟨?_, h⟩
  simp only [ParamEncoder, bind, Except.bind, Cast_json, Cast_json_scalar_ndarray, Cast_NDArray, h]

theorem ndarray_round_trip_witness :
    (∀ b ∈ [1, 2, 3, 250], b < 256) ∧
    (ParamEncoder (.ndarray ⟨[1, 2, 3, 250], [2, 1], "uint16"⟩) >>= Cast_json no_double .ndarray)
      = .ok (.ndarray ⟨[1, 2, 3, 250], [2, 1], "uint16"⟩) ∧
    base64_decode (base64_encode [1, 2, 3, 250]) = [1, 2, 3, 250] :=
  ⟨by decide, ndarray_round_trip no_double [1, 2, 3, 250] [2, 1] "uint16" (by decide)⟩

theorem TupleAssigner_ok (nc : NumCast) : ∀ (Vs : List Ty) (I : Nat) (xs : List Json)
    (ys : List Val), ys.length = Vs.length →
    (∀ (k : Nat) (V : Ty), Vs[k]? = some V → ∃ x y, xs[I + k]? = some x ∧ ys[k]? = some y ∧
      Cast_json nc V x = .ok y) →
    TupleAssigner nc Vs I (.array xs) = .ok ys
  | [], _, _, ys, hlen, _ => by
    have : ys = [] := List.length_eq_zero.mp hlen
    subst this
    rfl
  | V :: Vs, I, xs, [], hlen, _ => by simp at hlen
  | V :: Vs, I, xs, y :: ys, hlen, h => by
    obtain ⟨x, y0, hx, hy, hc⟩ := h 0 V (by simp)
    simp only [List.getElem?_cons_zero, Option.some.injEq] at hy
    subst hy
    have hrest := TupleAssigner_ok nc Vs (I + 1) xs ys (by simpa using hlen) (by
      intro k W hk
      obtain ⟨x1, y1, hx1, hy1, hc1⟩ := h (k + 1) W (by simpa using hk)
      refine ⟨x1, y1, ?_, by simpa using hy1, hc1⟩
      rw [← hx1]; congr 1; omega)
    have hx0 : xs[I]? = some x := by simpa using hx
    simp [TupleAssigner, Json.at_index, hx0, hc, hrest, bind, Except.bind]

/-- C3: when a list-tagged wire value holds `n` elements and the tuple target has arity `k`,
decoding fails with the size mismatch error whenever `n ≠ k`, whatever the elements are; when
`n = k` and every element decodes into the component type at its position, decoding succeeds
and component `i` is the decoding of element `i`. -/
theorem tuple_arity (nc : NumCast) (Vs : List Ty) (result : Json) (xs : List Json)
    (hcls : result.at_key "class" = .ok (.string "list"))
    (hval : result.at_key "value" = .ok (.array xs)) :
    (xs.length ≠ Vs.length →
      Cast_json nc (.tuple Vs) result
        = .error (.runtime_error "Inconsistent between tuple and value size") ∧
      (Err.runtime_error "Inconsistent between tuple and value size").kind
        = some .SizeMismatch) ∧
    (xs.length = Vs.length → ∀ ys : List Val, ys.length = Vs.length →
      (∀ (i : Nat) (V : Ty) (x : Json), Vs[i]? = some V → xs[i]? = some x →
        ∃ y, ys[i]? = some y ∧ Cast_json nc V x = .ok y) →
      Cast_json nc (.tuple Vs) result = .ok (.tuple ys)) := by
  constructor
  · intro hne
    refine ⟨?_, by decide⟩
    have hne' : ¬ Vs.length = xs.length := fun h => hne h.symm
    simp [Cast_json, hcls, hval, Json.get_string, Json.size, hne', bind, Except.bind]
  · intro heq ys hlen h
    have hd : TupleAssigner nc Vs 0 (.array xs) = .ok ys := by
      apply TupleAssigner_ok nc Vs 0 xs ys hlen
      intro k V hk
      have hk' : k < xs.length := by
        rw [heq]
        exact (List.getElem?_eq_some.mp hk).1
      obtain ⟨y, hy, hc⟩ := h k V (xs.get ⟨k, hk'⟩) hk (by simp [List.getElem?_eq_getElem hk'])
      exact ⟨_, y, by simp [List.getElem?_eq_getElem hk'], hy, hc⟩
    simp [Cast_json, hcls, hval, Json.get_string, Json.size, heq, hd, bind, Except.bind]

theorem tuple_arity_witness :
    (wire "list" (.array [wire "int" (.number_integer 1), wire "int" (.number_integer 2),
      wire "int" (.number_integer 3)])).at_key "class" = .ok (.string "list") ∧
    Cast_json no_double (.tuple [.long_long, .long_long])
      (wire "list" (.array [wire "int" (.number_integer 1), wire "int" (.number_integer 2),
        wire "int" (.number_integer 3)]))
      = .error (.runtime_error "Inconsistent between tuple and value size") ∧
    Cast_json no_double (.tuple [.long_long, .long_long])
      (wire "list" (.array [wire "int" (.number_integer 1), wire "int" (.number_integer 2)]))
      = .ok (.tuple [.long_long 1, .long_long 2]) :=
  ⟨rfl,
   ((tuple_arity no_double [.long_long, .long_long]
      (wire "list" (.array [wire "int" (.number_integer 1), wire "int" (.number_integer 2),
        wire "int" (.number_integer 3)]))
      [wire "int" (.number_integer 1), wire "int" (.number_integer 2),
        wire "int" (.number_integer 3)] rfl rfl).1 (by decide)).1,
   (tuple_arity no_double [.long_long, .long_long]
      (wire "list" (.array [wire "int" (.number_integer 1), wire "int" (.number_integer 2)]))
      [wire "int" (.number_integer 1), wire "int" (.number_integer 2)] rfl rfl).2 rfl
      [.long_long 1, .long_long 2] rfl (by
        intro i V x hV hx
        match i with
        | 0 =>
          simp at hV hx
          subst hV hx
          exact ⟨_, rfl, rfl⟩
        | 1 =>
          simp at hV hx
          subst hV hx
          exact ⟨_, rfl, rfl⟩
        | k + 2 => simp at hV)⟩

/-- C4, as stated, fails: a string-tagged value decoded into a list target fails with the error
of an unknown tag, which is of the protocol error kind and not of the type mismatch kind. -/
theorem list_target_not_type_mismatch :
    Cast_json no_double (.vector .long_long) (wire "string" (.string "a"))
      = .error (.runtime_error "Unknown result type") ∧
    Cast_json no_double (.vector .long_long) (wire "bogus" (.string "a"))
      = .error (.runtime_error "Unknown result type") ∧
    (Err.runtime_error "Unknown result type").kind = some .ProtocolError ∧
    (Err.runtime_error "Unknown result type").kind ≠ some .TypeMismatch := by
  refine ⟨rfl, rfl, by decide, by decide⟩

/-- C4, amended: a string-, ndarray-, int- or float-tagged value decoded into a scalar target
its native type does not convert to fails with the unknown conversion error, of the type
mismatch kind; a value whose tag is not `list` decoded into a vector or tuple target, and a
list-tagged value decoded into a scalar target, fail with the unknown result type error, of the
protocol error kind. No value is produced in any of these cases. -/
theorem incompatible_target_fails (nc : NumCast) (result : Json) (cls : String)
    (hcls : result.at_key "class" = .ok (.string cls)) :
    (cls = "string" → (∃ s, result.at_key "value" = .ok (.string s)) →
      ∀ T ∈ [Ty.long_long, Ty.double, Ty.ndarray],
        Cast_json nc T result = .error (.runtime_error "Unknown conversion")) ∧
    (cls = "ndarray" → (∃ d, result.at_key "data" = .ok (.string d)) →
      (∃ j sh, result.at_key "shape" = .ok j ∧ j.get_vector_size_t nc = .ok sh) →
      (∃ t, result.at_key "dtype" = .ok (.string t)) →
      ∀ T ∈ [Ty.long_long, Ty.double, Ty.string],
        Cast_json nc T result = .error (.runtime_error "Unknown conversion")) ∧
    (cls = "int" → (∃ j n, result.at_key "value" = .ok j ∧ j.get_long_long nc = .ok n) →
      ∀ T ∈ [Ty.string, Ty.ndarray],
        Cast_json nc T result = .error (.runtime_error "Unknown conversion")) ∧
    (cls = "float" → (∃ j d, result.at_key "value" = .ok j ∧ j.get_double nc = .ok d) →
      ∀ T ∈ [Ty.string, Ty.ndarray],
        Cast_json nc T result = .error (.runtime_error "Unknown conversion")) ∧
    (cls ≠ "list" → ∀ (V : Ty) (Vs : List Ty),
      Cast_json nc (.vector V) result = .error (.runtime_error "Unknown result type") ∧
      Cast_json nc (.tuple Vs) result = .error (.runtime_error "Unknown result type")) ∧
    (cls = "list" → ∀ T ∈ [Ty.long_long, Ty.double, Ty.string, Ty.ndarray],
      Cast_json nc T result = .error (.runtime_error "Unknown result type")) ∧
    (Err.runtime_error "Unknown conversion").kind = some .TypeMismatch ∧
    (Err.runtime_error "Unknown result type").kind = some .ProtocolError := by
  refine ⟨?_, ?_, ?_, ?_, ?_, ?_, by decide, by decide⟩
  · rintro rfl ⟨s, hs⟩ T hT
    simp only [List.mem_cons, List.mem_singleton, List.not_mem_nil, or_false] at hT
    rcases hT with rfl | rfl | rfl <;>
      simp [Cast_json, Cast_json_scalar, hcls, hs, Json.get_string, Cast_string, bind,
        Except.bind]
  · rintro rfl ⟨d, hd⟩ ⟨j, sh, hj, hsh⟩ ⟨t, ht⟩ T hT
    simp only [List.mem_cons, List.mem_singleton, List.not_mem_nil, or_false] at hT
    rcases hT with rfl | rfl | rfl <;>
      simp [Cast_json, Cast_json_scalar, hcls, hd, hj, hsh, ht, Json.get_string, Cast_NDArray,
        bind, Except.bind]
  · rintro rfl ⟨j, n, hj, hn⟩ T hT
    simp only [List.mem_cons, List.mem_singleton, List.not_mem_nil, or_false] at hT
    rcases hT with rfl | rfl <;>
      simp [Cast_json, Cast_json_scalar, hcls, hj, hn, Json.get_string, Cast_long_long, bind,
        Except.bind]
  · rintro rfl ⟨j, d, hj, hd⟩ T hT
    simp only [List.mem_cons, List.mem_singleton, List.not_mem_nil, or_false] at hT
    rcases hT with rfl | rfl <;>
      simp [Cast_json, Cast_json_scalar, hcls, hj, hd, Json.get_string, Cast_double, bind,
        Except.bind]
  · intro hne V Vs
    constructor <;> simp [Cast_json, hcls, Json.get_string, hne, bind, Except.bind]
  · rintro rfl T hT
    simp only [List.mem_cons, List.mem_singleton, List.not_mem_nil, or_false] at hT
    rcases hT with rfl | rfl | rfl | rfl <;>
      simp [Cast_json, Cast_json_scalar, hcls, Json.get_string, bind, Except.bind]

theorem incompatible_target_fails_witness :
    (wire "string" (.string "a")).at_key "class" = .ok (.string "string") ∧
    Cast_json no_double .long_long (wire "string" (.string "a"))
      = .error (.runtime_error "Unknown conversion") :=
  ⟨rfl, (incompatible_target_fails no_double (wire "string" (.string "a")) "string" rfl).1 rfl
    ⟨"a", rfl⟩ .long_long (by simp)⟩

/-- C5, as stated, fails: the `void` target accepts a wire object whose class tag is unknown. -/
theorem void_accepts_unknown_tag :
    Cast_json no_double .void (wire "bogus" .null) = .ok .void ∧
    "bogus" ∉ ["int", "float", "string", "ndarray", "list", "dict"] := by
  refine ⟨rfl, by decide⟩

/-- C5, amended: for every decode target other than `void` and every wire object whose class
tag is not one of int, float, string, ndarray, list and dict, decoding fails with the unknown
result type error, of the protocol error kind, and returns no value; the `void` target accepts
every wire value without reading its tag. -/
theorem unknown_tag_fails (nc : NumCast) (T : Ty) (result : Json) (cls : String)
    (hcls : result.at_key "class" = .ok (.string cls))
    (hunknown : cls ∉ ["int", "float", "string", "ndarray", "list", "dict"]) :
    (T ≠ .void → Cast_json nc T result = .error (.runtime_error "Unknown result type")) ∧
    (Err.runtime_error "Unknown result type").kind = some .ProtocolError ∧
    Cast_json nc .void result = .ok .void := by
  simp only [List.mem_cons, List.mem_singleton, List.not_mem_nil, or_false, not_or] at hunknown
  obtain ⟨h1, h2, h3, h4, h5, h6⟩ := hunknown
  refine ⟨?_, by decide, rfl⟩
  intro hT
  cases T with
  | void => exact absurd rfl hT
  | vector V => simp [Cast_json, hcls, Json.get_string, h5, bind, Except.bind]
  | map V => simp [Cast_json, hcls, Json.get_string, h6, bind, Except.bind]
  | tuple Vs => simp [Cast_json, hcls, Json.get_string, h5, bind, Except.bind]
  | long_long =>
    simp [Cast_json, Cast_json_scalar, hcls, Json.get_string, h1, h2, h3, h4, bind, Except.bind]
  | double =>
    simp [Cast_json, Cast_json_scalar, hcls, Json.get_string, h1, h2, h3, h4, bind, Except.bind]
  | string =>
    simp [Cast_json, Cast_json_scalar, hcls, Json.get_string, h1, h2, h3, h4, bind, Except.bind]
  | ndarray =>
    simp [Cast_json, Cast_json_scalar, hcls, Json.get_string, h1, h2, h3, h4, bind, Except.bind]

theorem unknown_tag_fails_witness :
    (wire "bogus" .null).at_key "class" = .ok (.string "bogus") ∧
    "bogus" ∉ ["int", "float", "string", "ndarray", "list", "dict"] ∧
    Cast_json no_double (.map .long_long) (wire "bogus" .null)
      = .error (.runtime_error "Unknown result type") :=
  ⟨rfl, by decide,
    (unknown_tag_fails no_double (.map .long_long) (wire "bogus" .null) "bogus" rfl
      (by decide)).1 (by simp)⟩

/-- C6, as stated, fails: an ndarray-tagged value carrying one byte under the shape `[2]` and
the dtype `int32`, which calls for eight bytes, decodes into an `NDArray`. -/
theorem ndarray_length_mismatch_decodes :
    Cast_json no_double .ndarray (.object [("class", .string "ndarray"), ("data", .string "AA=="),
      ("dtype", .string "int32"), ("shape", .array [.number_unsigned 2])])
      = .ok (.ndarray ⟨[0], [2], "int32"⟩) ∧
    (NDArray.mk [0] [2] "int32").nr_elem = 2 ∧
    dtype_size "int32" = some 4 ∧
    (NDArray.mk [0] [2] "int32").data.length ≠ 2 * 4 := by
  refine ⟨rfl, rfl, by decide, by decide⟩

/-- C6, amended: decoding an ndarray-tagged wire value into an `NDArray` target performs no
length validation: whenever the data field is a string, the shape field an array of numbers and
the dtype field a string, the result is the `NDArray` of the decoded bytes, the shape and the
dtype as given, whatever the byte count is. -/
theorem ndarray_decode_unvalidated (nc : NumCast) (result : Json) (data dtype : String)
    (j : Json) (shape : List Nat)
    (hcls : result.at_key "class" = .ok (.string "ndarray"))
    (hdata : result.at_key "data" = .ok (.string data))
    (hj : result.at_key "shape" = .ok j)
    (hshape : j.get_vector_size_t nc = .ok shape)
    (hdtype : result.at_key "dtype" = .ok (.string dtype)) :
    Cast_json nc .ndarray result = .ok (.ndarray ⟨base64_decode data, shape, dtype⟩) := by
  simp [Cast_json, Cast_json_scalar, hcls, hdata, hj, hshape, hdtype, Json.get_string,
    Cast_NDArray, bind, Except.bind]

theorem ndarray_decode_unvalidated_witness :
    Cast_json no_double .ndarray (.object [("class", .string "ndarray"), ("data", .string "AAEC"),
      ("dtype", .string "uint8"), ("shape", .array [.number_unsigned 7, .number_unsigned 5])])
      = .ok (.ndarray ⟨base64_decode "AAEC", [7, 5], "uint8"⟩) :=
  ndarray_decode_unvalidated no_double _ "AAEC" "uint8"
    (.array [.number_unsigned 7, .number_unsigned 5]) [7, 5] rfl rfl rfl rfl rfl

namespace ReadBuffer

theorem has_line_loop_shift : ∀ (l : List Char) (q : Nat),
    has_line_loop l q = q + has_line_loop l 0
  | [], q => by simp [has_line_loop]
  | c :: rest, q => by
    by_cases hc : c = '\n'
    · simp [has_line_loop, hc]
    · simp only [has_line_loop, ne_eq, hc, not_false_eq_true, if_true]
      rw [has_line_loop_shift rest (q + 1), has_line_loop_shift rest (0 + 1)]
      omega

theorem has_line_loop_cached : ∀ (buf : List Char) (p : Nat), p ≤ buf.length →
    '\n' ∉ buf.take p → has_line_loop (buf.drop p) p = has_line_loop buf 0
  | buf, 0, _, _ => by simp
  | [], p + 1, h, _ => by simp at h
  | c :: t, p + 1, h, hn => by
    simp only [List.take_succ_cons, List.mem_cons, not_or] at hn
    have hc : c ≠ '\n' := fun e => hn.1 e.symm
    have ih := has_line_loop_cached t p (by simpa using h) hn.2
    simp only [List.drop_succ_cons, has_line_loop, ne_eq, hc, not_false_eq_true, if_true]
    rw [has_line_loop_shift (t.drop p) (p + 1), has_line_loop_shift t (0 + 1),
      has_line_loop_shift (t.drop p) p] at *
    omega

theorem has_line_loop_newline : ∀ (a rest : List Char), '\n' ∉ a →
    has_line_loop (a ++ '\n' :: rest) 0 = a.length
  | [], rest, _ => by simp [has_line_loop]
  | c :: a, rest, h => by
    simp only [List.mem_cons, not_or] at h
    have hc : c ≠ '\n' := fun e => h.1 e.symm
    have ih := has_line_loop_newline a rest h.2
    rw [List.cons_append, has_line_loop, if_pos hc, has_line_loop_shift, ih]
    simp; omega

theorem has_line_loop_no_newline : ∀ (l : List Char), '\n' ∉ l →
    has_line_loop l 0 = l.length
  | [], _ => by simp [has_line_loop]
  | c :: a, h => by
    simp only [List.mem_cons, not_or] at h
    have hc : c ≠ '\n' := fun e => h.1 e.symm
    simp only [has_line_loop, ne_eq, hc, not_false_eq_true, if_true]
    rw [has_line_loop_shift, has_line_loop_no_newline a h.2]
    simp; omega

theorem has_line_loop_le : ∀ (l : List Char), has_line_loop l 0 ≤ l.length
  | [] => by simp [has_line_loop]
  | c :: a => by
    by_cases hc : c = '\n'
    · simp [has_line_loop, hc]
    · simp only [has_line_loop, ne_eq, hc, not_false_eq_true, if_true]
      rw [has_line_loop_shift]
      have := has_line_loop_le a
      simp; omega

theorem has_line_loop_take : ∀ (l : List Char), '\n' ∉ l.take (has_line_loop l 0)
  | [] => by simp [has_line_loop]
  | c :: a => by
    by_cases hc : c = '\n'
    · simp [has_line_loop, hc]
    · simp only [has_line_loop, ne_eq, hc, not_false_eq_true, if_true]
      rw [has_line_loop_shift]
      have := has_line_loop_take a
      have e : 0 + 1 + has_line_loop a 0 = has_line_loop a 0 + 1 := by omega
      rw [e, List.take_succ_cons]
      simp only [List.mem_cons, not_or]
      exact ⟨fun e => hc e.symm, this⟩

theorem read_from_fd_loop_appends : ∀ (reads : List ReadResult) (b b1 : ReadBuffer) (t n : Nat),
    read_from_fd_loop b t reads = .ok (n, b1) →
    ∃ data, b1 = { b with str_buf := b.str_buf ++ data }
  | [], b, b1, t, n, h => by
    simp only [read_from_fd_loop, Except.ok.injEq, Prod.mk.injEq] at h
    exact ⟨[], by simp [← h.2]⟩
  | .failed :: _, b, b1, t, n, h => by simp [read_from_fd_loop] at h
  | .would_block :: _, b, b1, t, n, h => by
    simp only [read_from_fd_loop, Except.ok.injEq, Prod.mk.injEq] at h
    exact ⟨[], by simp [← h.2]⟩
  | .eof :: _, b, b1, t, n, h => by
    simp only [read_from_fd_loop, Except.ok.injEq, Prod.mk.injEq] at h
    exact ⟨[], by simp [← h.2]⟩
  | .bytes data :: reads, b, b1, t, n, h => by
    simp only [read_from_fd_loop] at h
    split at h
    · simp only [Except.ok.injEq, Prod.mk.injEq] at h
      exact ⟨[], by simp [← h.2]⟩
    · obtain ⟨d, hd⟩ := read_from_fd_loop_appends reads _ b1 _ n h
      exact ⟨data ++ d, by simp [hd]⟩

theorem exists_first_newline : ∀ (l : List Char), '\n' ∈ l →
    ∃ a rest, l = a ++ '\n' :: rest ∧ '\n' ∉ a
  | [], h => by simp at h
  | c :: l, h => by
    by_cases hc : c = '\n'
    · exact ⟨[], l, by simp [hc], by simp⟩
    · have hl : '\n' ∈ l := by
        rcases List.mem_cons.mp h with e | e
        · exact absurd e.symm hc
        · exact e
      obtain ⟨a, rest, e, ha⟩ := exists_first_newline l hl
      refine ⟨c :: a, rest, by simp [e], ?_⟩
      simp only [List.mem_cons, not_or]
      exact ⟨fun e => hc e.symm, ha⟩

theorem Inv_append (b : ReadBuffer) (data : List Char) (h : Inv b) :
    Inv { b with str_buf := b.str_buf ++ data } := by
  obtain ⟨h1, h2⟩ := h
  refine ⟨by simp; omega, ?_⟩
  simp only [List.take_append_eq_append_take]
  have : b.pos - b.str_buf.length = 0 := by omega
  simpa [this] using h2

theorem Inv_has_line (b : ReadBuffer) (h : Inv b) : Inv b.has_line.2 := by
  obtain ⟨h1, h2⟩ := h
  simp only [has_line, Inv]
  rw [has_line_loop_cached b.str_buf b.pos h1 h2]
  exact ⟨has_line_loop_le _, has_line_loop_take _⟩

theorem Inv_read_line (b : ReadBuffer) (h : Inv b) : Inv b.read_line.2 := by
  have h' := Inv_has_line b h
  simp only [read_line]
  split
  · simpa using h'
  · simp [Inv]

theorem Reachable_Inv (b : ReadBuffer) (h : Reachable b) : Inv b := by
  induction h with
  | init => simp [Inv, init]
  | read_from_fd b b1 reads n _ hr ih =>
    obtain ⟨data, hd⟩ := read_from_fd_loop_appends reads b b1 0 n hr
    rw [hd]
    exact Inv_append b data ih
  | has_line b _ ih => exact Inv_has_line b ih
  | read_line b _ ih => exact Inv_read_line b ih

end ReadBuffer
theorem read_line_of_Inv (b : ReadBuffer) (hb : ReadBuffer.Inv b) :
    (b.has_line.1 = true ↔ '\n' ∈ b.str_buf) ∧
    b.has_line.2.str_buf = b.str_buf ∧
    (∀ a rest : List Char, b.str_buf = a ++ '\n' :: rest → '\n' ∉ a →
      b.read_line = (a, ⟨rest, 0⟩)) ∧
    ('\n' ∉ b.str_buf → b.read_line.1 = [] ∧ b.read_line.2.str_buf = b.str_buf) := by
  obtain ⟨h1, h2⟩ := hb
  have hpos : b.has_line.2.pos = ReadBuffer.has_line_loop b.str_buf 0 := by
    simp only [ReadBuffer.has_line]
    exact ReadBuffer.has_line_loop_cached b.str_buf b.pos h1 h2
  have hfound : b.has_line.1 = decide (ReadBuffer.has_line_loop b.str_buf 0 < b.str_buf.length) := by
    simp only [ReadBuffer.has_line]
    rw [ReadBuffer.has_line_loop_cached b.str_buf b.pos h1 h2]
  have hno : '\n' ∉ b.str_buf → b.has_line.1 = false := by
    intro hn
    rw [hfound, ReadBuffer.has_line_loop_no_newline _ hn]
    simp
  have hyes : ∀ a rest : List Char, b.str_buf = a ++ '\n' :: rest → '\n' ∉ a →
      b.has_line.1 = true ∧ b.has_line.2.pos = a.length := by
    intro a rest e ha
    rw [hfound, hpos, e, ReadBuffer.has_line_loop_newline a rest ha]
    simp
  refine ⟨?_, rfl, ?_, ?_⟩
  · constructor
    · intro ht
      by_contra hn
      rw [hno hn] at ht
      exact Bool.false_ne_true ht
    · intro hmem
      obtain ⟨a, rest, e, ha⟩ : ∃ a rest, b.str_buf = a ++ '\n' :: rest ∧ '\n' ∉ a := by
        exact ReadBuffer.exists_first_newline b.str_buf hmem
      exact (hyes a rest e ha).1
  · intro a rest e ha
    obtain ⟨hf, hp⟩ := hyes a rest e ha
    have hbuf : b.has_line.2.str_buf = a ++ '\n' :: rest := e
    simp only [ReadBuffer.read_line, hf, Bool.not_true, Bool.false_eq_true, if_false, hp, hbuf]
    simp
  · intro hn
    have hf := hno hn
    simp only [ReadBuffer.read_line, hf, Bool.not_false, if_true]
    exact ⟨trivial, rfl⟩

/-- C8: in every state a `ReadBuffer` reaches from its construction by calls of `read_from_fd`,
`has_line` and `read_line`: `has_line` returns true exactly when the buffered bytes contain a
newline, and leaves the bytes unchanged; when the buffered bytes are `a`, a newline and `rest`,
with no newline in `a`, `read_line` returns `a` and leaves `rest` buffered; when no newline is
buffered, `read_line` returns the empty string and leaves the bytes unchanged. -/
theorem line_extraction (b : ReadBuffer) (hb : ReadBuffer.Reachable b) :
    (b.has_line.1 = true ↔ '\n' ∈ b.str_buf) ∧
    b.has_line.2.str_buf = b.str_buf ∧
    (∀ a rest : List Char, b.str_buf = a ++ '\n' :: rest → '\n' ∉ a →
      b.read_line = (a, ⟨rest, 0⟩)) ∧
    ('\n' ∉ b.str_buf → b.read_line.1 = [] ∧ b.read_line.2.str_buf = b.str_buf) :=
  read_line_of_Inv b (ReadBuffer.Reachable_Inv b hb)

theorem line_extraction_witness :
    ReadBuffer.Reachable ⟨"ab\ncd".toList, 2⟩ ∧
    (ReadBuffer.mk "ab\ncd".toList 2).read_line = ("ab".toList, ⟨"cd".toList, 0⟩) :=
  ⟨ReadBuffer.Reachable.has_line _
      (ReadBuffer.Reachable.read_from_fd ReadBuffer.init _ [.bytes "ab\ncd".toList] 5
        ReadBuffer.Reachable.init rfl),
    (line_extraction ⟨"ab\ncd".toList, 2⟩
      (ReadBuffer.Reachable.has_line _
        (ReadBuffer.Reachable.read_from_fd ReadBuffer.init _ [.bytes "ab\ncd".toList] 5
          ReadBuffer.Reachable.init rfl))).2.2.1 "ab".toList "cd".toList rfl (by decide)⟩

theorem hex_char_ne_newline (d : Nat) : hex_char d ≠ '\n' := by
  by_cases h : d < 16
  · interval_cases d <;> decide
  · have : hex_char d = '0' := by
      unfold hex_char
      exact List.getD_eq_default _ _ (by simpa using h)
    rw [this]; decide

theorem dump_escaped_char_line (c : Char) : '\n' ∉ dump_escaped_char c := by
  unfold dump_escaped_char
  have h1 := hex_char_ne_newline (c.toNat / 16)
  have h2 := hex_char_ne_newline (c.toNat % 16)
  split_ifs with a1 a2 a3 a4 a5 a6 a7 a8
  all_goals simp
  · exact ⟨fun e => h1 e.symm, fun e => h2 e.symm⟩
  · exact fun e => a3 e.symm

theorem dump_escaped_line : ∀ (s : List Char), '\n' ∉ dump_escaped s
  | [] => by simp [dump_escaped]
  | c :: rest => by
    simp only [dump_escaped, List.mem_append, not_or]
    exact ⟨dump_escaped_char_line c, dump_escaped_line rest⟩

theorem get_codepoint_control : ∀ n, n < 32 →
    get_codepoint '0' '0' (hex_char (n / 16)) (hex_char (n % 16)) = some n := by
  decide

theorem scan_string_escaped_char (c : Char) (fuel : Nat) (rest acc : List Char) :
    scan_string (fuel + 1) (dump_escaped_char c ++ rest) acc = scan_string fuel rest (acc ++ [c]) := by
  unfold dump_escaped_char
  split_ifs with a1 a2 a3 a4 a5 a6 a7 a8
  · subst a1; simp [scan_string, scan_escape]
  · subst a2; simp [scan_string, scan_escape]
  · subst a3; simp [scan_string, scan_escape]
  · subst a4; simp [scan_string, scan_escape]
  · subst a5; simp [scan_string, scan_escape]
  · subst a6; simp [scan_string, scan_escape]
  · subst a7; simp [scan_string, scan_escape]
  · have hn : c.toNat < 32 := by omega
    have hcp := get_codepoint_control c.toNat hn
    have hc : Char.ofNat c.toNat = c := Char.ofNat_toNat c
    have h1 : ¬ (0xD800 ≤ c.toNat ∧ c.toNat ≤ 0xDBFF) := by omega
    have h2 : ¬ (0xDC00 ≤ c.toNat ∧ c.toNat ≤ 0xDFFF) := by omega
    simp [scan_string, scan_escape, scan_unicode, hcp, hc, h1, h2]
  · have h20 : ¬ c.toNat < 32 := by omega
    simp [scan_string, a6, a7, h20]

theorem scan_string_dump_escaped : ∀ (s acc tail : List Char) (fuel : Nat), s.length < fuel →
    scan_string fuel (dump_escaped s ++ '"' :: tail) acc = .ok (acc ++ s, tail)
  | [], acc, tail, 0, h => by simp at h
  | [], acc, tail, fuel + 1, _ => by simp [dump_escaped, scan_string]
  | c :: rest, acc, tail, 0, h => by simp at h
  | c :: rest, acc, tail, fuel + 1, h => by
    have ih := scan_string_dump_escaped rest (acc ++ [c]) tail fuel (by simpa using h)
    simp only [List.append_assoc, List.singleton_append] at ih
    simp only [dump_escaped, List.append_assoc]
    rw [scan_string_escaped_char, ih]

theorem dump_escaped_char_length (c : Char) : 1 ≤ (dump_escaped_char c).length := by
  unfold dump_escaped_char
  split_ifs <;> simp

theorem dump_escaped_length : ∀ (s : List Char), s.length ≤ (dump_escaped s).length
  | [] => by simp
  | c :: rest => by
    have h1 := dump_escaped_char_length c
    have h2 := dump_escaped_length rest
    simp only [dump_escaped, List.length_append, List.length_cons]
    omega
theorem scan_string_quoted (s tail : List Char) (n : Nat)
    (hn : n = (dump_escaped s ++ '"' :: tail).length) :
    scan_string n (dump_escaped s ++ '"' :: tail) [] = .ok (s, tail) := by
  have h := scan_string_dump_escaped s [] tail n (by
    have := dump_escaped_length s
    rw [hn]
    simp only [List.length_append, List.length_cons]
    omega)
  simpa using h

theorem parse_value_string (nc : NumCast) (f : Nat) (s tail : List Char) :
    parse_value nc (f + 1) ('"' :: (dump_escaped s ++ '"' :: tail)) = .ok (.string ⟨s⟩, tail) := by
  simp +decide only [parse_value, skip_whitespace, if_true, if_false]
  rw [scan_string_quoted s tail _ rfl]

theorem parse_members_string (nc : NumCast) (f : Nat) (k v tail : List Char) (c1 : Char)
    (acc : List (String × Json)) (hc : ¬ (c1 = ' ' ∨ c1 = '\t' ∨ c1 = '\n' ∨ c1 = '\r')) :
    parse_members nc (f + 2)
      ('"' :: (dump_escaped k ++ '"' :: ':' :: '"' :: (dump_escaped v ++ '"' :: c1 :: tail))) acc
      = if c1 = ',' then parse_members nc (f + 1) tail (object_assign acc ⟨k⟩ (.string ⟨v⟩))
        else if c1 = '}' then .ok (.object (object_assign acc ⟨k⟩ (.string ⟨v⟩)), tail)
        else .error .parse_error := by
  have hv := parse_value_string nc f v (c1 :: tail)
  rw [parse_members]
  simp +decide only [skip_whitespace, if_true, if_false]
  rw [scan_string_quoted k _ _ rfl]
  simp +decide only [skip_whitespace, if_true, if_false, hv, hc]

theorem dump_wire_string (nc : NumCast) (cls s : String) :
    dump nc (wire cls (.string s)) =
      '{' :: '"' :: (dump_escaped "class".data ++ '"' :: ':' :: '"' :: (dump_escaped cls.data ++
        '"' :: ',' :: '"' :: (dump_escaped "value".data ++ '"' :: ':' :: '"' ::
          (dump_escaped s.data ++ '"' :: '}' :: [])))) := by
  simp [wire, dump, dump_members]

theorem parse_value_wire_string (nc : NumCast) (f : Nat) (s : String) (tail : List Char) :
    parse_value nc (f + 4) ('{' :: '"' :: (dump_escaped "class".data ++ '"' :: ':' :: '"' ::
      (dump_escaped "string".data ++ '"' :: ',' :: '"' :: (dump_escaped "value".data ++
        '"' :: ':' :: '"' :: (dump_escaped s.data ++ '"' :: '}' :: tail)))))
      = .ok (wire "string" (.string s), tail) := by
  have h1 := parse_members_string nc (f + 1) "class".data "string".data
    ('"' :: (dump_escaped "value".data ++ '"' :: ':' :: '"' :: (dump_escaped s.data ++
      '"' :: '}' :: tail))) ',' [] (by decide)
  have h2 := parse_members_string nc f "value".data s.data tail '}'
    (object_assign [] "class" (.string "string")) (by decide)
  rw [parse_value]
  simp +decide only [skip_whitespace, if_true, if_false]
  rw [h1]
  simp +decide only [if_true, if_false]
  rw [h2]
  rfl

theorem parse_dump_wire_string (nc : NumCast) (s : String) :
    parse nc (dump nc (wire "string" (.string s))) = .ok (wire "string" (.string s)) := by
  rw [dump_wire_string]
  unfold parse
  have e : ∀ (l : List Char), ('{' :: '"' :: (dump_escaped "class".data ++ '"' :: ':' :: l)).length + 1
      = (l.length + 6) + 4 := by
    intro l
    have hlen : (dump_escaped "class".data).length = 5 := by decide
    simp only [List.length_cons, List.length_append, hlen]
    omega
  rw [e, parse_value_wire_string]
  rfl
theorem digit_char_ne_newline (d : Nat) (h : d < 10) : digit_char d ≠ '\n' := by
  interval_cases d <;> decide

theorem decimal_loop_line : ∀ (fuel n : Nat) (acc : List Char), '\n' ∉ acc →
    '\n' ∉ decimal_loop fuel n acc
  | 0, _, acc, h => by simpa [decimal_loop] using h
  | fuel + 1, n, acc, h => by
    simp only [decimal_loop]
    split
    · rename_i hn
      simp only [List.mem_cons, not_or]
      exact ⟨fun e => digit_char_ne_newline n hn e.symm, h⟩
    · apply decimal_loop_line
      simp only [List.mem_cons, not_or]
      exact ⟨fun e => digit_char_ne_newline (n % 10) (Nat.mod_lt _ (by decide)) e.symm, h⟩

theorem decimal_line (n : Nat) : '\n' ∉ decimal n :=
  decimal_loop_line _ _ _ (by simp)

theorem to_string_line (n : Int) : '\n' ∉ to_string n := by
  unfold to_string
  split
  · simp only [List.mem_cons, not_or]
    exact ⟨by decide, decimal_line _⟩
  · exact decimal_line _

mutual

theorem dump_line (nc : NumCast) : ∀ (j : Json), '\n' ∉ dump nc j
  | .null => by simp [dump]
  | .boolean b => by cases b <;> simp [dump]
  | .number_integer n => by simpa [dump] using to_string_line n
  | .number_unsigned n => by simpa [dump] using decimal_line n
  | .number_float d => by simpa [dump] using nc.float_text_line d
  | .string s => by
    have h1 := dump_escaped_line s.data
    rw [dump]
    simp +decide [h1]
  | .array xs => by
    have h1 := dump_elements_line nc xs
    rw [dump]
    simp +decide [h1]
  | .object kvs => by
    have h1 := dump_members_line nc kvs
    rw [dump]
    simp +decide [h1]

theorem dump_elements_line (nc : NumCast) : ∀ (xs : List Json), '\n' ∉ dump_elements nc xs
  | [] => by simp [dump_elements]
  | [x] => by simpa [dump_elements] using dump_line nc x
  | x :: y :: rest => by
    have h1 := dump_line nc x
    have h2 := dump_elements_line nc (y :: rest)
    rw [dump_elements]
    simp +decide [h1, h2]

theorem dump_members_line (nc : NumCast) : ∀ (kvs : List (String × Json)),
    '\n' ∉ dump_members nc kvs
  | [] => by simp [dump_members]
  | [(k, x)] => by
    have h1 := dump_escaped_line k.data
    have h2 := dump_line nc x
    rw [dump_members]
    simp +decide [h1, h2]
  | (k, x) :: kv :: rest => by
    have h1 := dump_escaped_line k.data
    have h2 := dump_line nc x
    have h3 := dump_members_line nc (kv :: rest)
    rw [dump_members]
    simp +decide [h1, h2, h3]

end

theorem read_line_framed (line : List Char) (h : '\n' ∉ line) :
    (ReadBuffer.mk (WriteBuffer.init line).str_buf 0).read_line = (line, ⟨[], 0⟩) :=
  (read_line_of_Inv ⟨(WriteBuffer.init line).str_buf, 0⟩ ⟨Nat.zero_le _, by simp⟩).2.2.1
    line [] rfl h

/-- C7: for every string `s`, the line `dump` writes for the encoding of `s` holds no newline,
so that the newline `WriteBuffer` appends is the only one of the framed message and a reader
gets the line back whole; parsing that line and decoding it into a string returns `s`. -/
theorem framing_safety (nc : NumCast) (s : String) :
    ∃ j, ParamEncoder (.string s) = .ok j ∧
      '\n' ∉ dump nc j ∧
      (ReadBuffer.mk (WriteBuffer.init (dump nc j)).str_buf 0).read_line
        = (dump nc j, ⟨[], 0⟩) ∧
      (parse nc (dump nc j) >>= Cast_json nc .string) = .ok (.string s) := by
  refine ⟨wire "string" (.string s), rfl, dump_line nc _, read_line_framed _ (dump_line nc _), ?_⟩
  rw [parse_dump_wire_string]
  rfl

theorem digit_char_facts : ∀ d, d < 10 →
    (digit_char d).isDigit = true ∧ (digit_char d).toNat - 48 = d ∧ isspace (digit_char d) = false ∧
    digit_char d ≠ '-' ∧ digit_char d ≠ '+' ∧ (digit_char d = '0' ↔ d = 0) := by
  decide

theorem decimal_loop_head : ∀ (fuel n : Nat) (acc : List Char), n < fuel →
    ∃ d tl, d < 10 ∧ (d = 0 → n = 0) ∧ decimal_loop fuel n acc = digit_char d :: tl
  | 0, n, acc, h => by omega
  | fuel + 1, n, acc, h => by
    simp only [decimal_loop]
    split
    · rename_i hn
      exact ⟨n, acc, hn, fun e => e, rfl⟩
    · rename_i hn
      obtain ⟨d, tl, hd, hz, e⟩ := decimal_loop_head fuel (n / 10) (digit_char (n % 10) :: acc)
        (by omega)
      exact ⟨d, tl, hd, fun e0 => by have := hz e0; omega, e⟩

theorem stoi_digits_decimal_loop : ∀ (fuel n : Nat), n < fuel →
    ∃ k, 0 < k ∧ ∀ (acc : List Char) (v c : Nat),
      stoi_digits (decimal_loop fuel n acc) v c = stoi_digits acc (v * 10 ^ k + n) (c + k)
  | 0, n, h => by omega
  | fuel + 1, n, h => by
    by_cases hn : n < 10
    · refine ⟨1, by omega, ?_⟩
      intro acc v c
      obtain ⟨h1, h2, -⟩ := digit_char_facts n hn
      simp [decimal_loop, hn, stoi_digits, h1, h2]
    · obtain ⟨k, hk, ih⟩ := stoi_digits_decimal_loop fuel (n / 10) (by omega)
      refine ⟨k + 1, by omega, ?_⟩
      intro acc v c
      obtain ⟨h1, h2, -⟩ := digit_char_facts (n % 10) (Nat.mod_lt _ (by decide))
      simp only [decimal_loop, hn, if_false]
      rw [ih]
      simp only [stoi_digits, h1, if_true, h2]
      congr 1
      · have : n / 10 * 10 + n % 10 = n := by omega
        rw [pow_succ]
        calc (v * 10 ^ k + n / 10) * 10 + n % 10
            = v * (10 ^ k * 10) + (n / 10 * 10 + n % 10) := by ring
          _ = v * (10 ^ k * 10) + n := by rw [this]

theorem stoi_to_string (z : Int) (h1 : -2 ^ 31 ≤ z) (h2 : z < 2 ^ 31) :
    stoi (to_string z) = .ok z := by
  unfold to_string
  split
  · rename_i hneg
    obtain ⟨k, hk, hs⟩ := stoi_digits_decimal_loop (z.natAbs + 1) z.natAbs (by omega)
    have hs0 := hs [] 0 0
    simp only [stoi_digits, Nat.zero_mul, Nat.zero_add] at hs0
    have e : stoi_digits (decimal z.natAbs) 0 0 = (z.natAbs, k) := hs0
    have hk0 : ¬ k = 0 := by omega
    have hz : -(z.natAbs : Int) = z := by omega
    simp +decide [stoi, skip_isspace, isspace, e, hk0, hz]
    have habs : |z| = -z := abs_of_neg hneg
    have hr : ¬ (2147483648 < -z ∨ 2147483648 ≤ - -z) := by omega
    rw [habs, if_neg hr]
    simp
  · rename_i hpos
    obtain ⟨k, hk, hs⟩ := stoi_digits_decimal_loop (z.toNat + 1) z.toNat (by omega)
    have hs0 := hs [] 0 0
    simp only [stoi_digits, Nat.zero_mul, Nat.zero_add] at hs0
    obtain ⟨d, tl, hd, -, hhead⟩ := decimal_loop_head (z.toNat + 1) z.toNat [] (by omega)
    obtain ⟨-, -, f3, f4, f5, -⟩ := digit_char_facts d hd
    have e : stoi_digits (digit_char d :: tl) 0 0 = (z.toNat, k) := by
      rw [← hhead]; exact hs0
    have hk0 : ¬ k = 0 := by omega
    have hz : (z.toNat : Int) = z := by omega
    simp only [decimal, hhead, stoi, skip_isspace, f3]
    simp [f4, f5, e, hk0, hz]
    omega

theorem decimal_loop_digits : ∀ (fuel n : Nat) (acc : List Char),
    (∀ c ∈ acc, c.isDigit = true) → ∀ c ∈ decimal_loop fuel n acc, c.isDigit = true
  | 0, n, acc, h => by simpa [decimal_loop] using h
  | fuel + 1, n, acc, h => by
    simp only [decimal_loop]
    split
    · rename_i hn
      intro c hc
      rcases List.mem_cons.mp hc with e | e
      · rw [e]; exact (digit_char_facts n hn).1
      · exact h c e
    · apply decimal_loop_digits
      intro c hc
      rcases List.mem_cons.mp hc with e | e
      · rw [e]; exact (digit_char_facts (n % 10) (Nat.mod_lt _ (by decide))).1
      · exact h c e

theorem decimal_digits (n : Nat) : ∀ c ∈ decimal n, c.isDigit = true :=
  decimal_loop_digits _ _ _ (by simp)

theorem span_digits_append : ∀ (l tail : List Char), (∀ c ∈ l, c.isDigit = true) →
    (∀ c tl, tail = c :: tl → c.isDigit = false) → span_digits (l ++ tail) = (l, tail)
  | [], [], _, _ => rfl
  | [], c :: tl, _, ht => by
    have := ht c tl rfl
    simp [span_digits, this]
  | d :: l, tail, hl, ht => by
    have hd := hl d (by simp)
    have ih := span_digits_append l tail (fun c hc => hl c (by simp [hc])) ht
    simp [span_digits, hd, ih]

theorem stoi_digits_all : ∀ (l : List Char) (v c : Nat), (∀ x ∈ l, x.isDigit = true) →
    stoi_digits l v c = (l.foldl (fun v c => v * 10 + (c.toNat - 48)) v, c + l.length)
  | [], v, c, _ => rfl
  | d :: l, v, c, hl => by
    have hd := hl d (by simp)
    have ih := stoi_digits_all l (v * 10 + (d.toNat - 48)) (c + 1) (fun x hx => hl x (by simp [hx]))
    simp only [stoi_digits, hd, if_true, ih, List.foldl_cons, List.length_cons]
    congr 1
    omega

theorem digits_value_decimal (n : Nat) : digits_value (decimal n) = n := by
  obtain ⟨k, -, hs⟩ := stoi_digits_decimal_loop (n + 1) n (by omega)
  have h1 := hs [] 0 0
  have h2 := stoi_digits_all (decimal n) 0 0 (decimal_digits n)
  simp only [stoi_digits, Nat.zero_mul, Nat.zero_add] at h1
  have h3 : stoi_digits (decimal n) 0 0 = (n, k) := h1
  rw [h3] at h2
  unfold digits_value
  exact (congrArg Prod.fst h2).symm

theorem scan_fraction_ends (tail : List Char) (ht : ends_number tail) :
    scan_fraction tail = ([], tail, true) := by
  cases tail with
  | nil => rfl
  | cons c tl =>
    obtain ⟨-, h2, -, -⟩ := ht c tl rfl
    simp [scan_fraction, h2]

theorem scan_exponent_ends (tail : List Char) (ht : ends_number tail) :
    scan_exponent tail = ([], tail, true) := by
  cases tail with
  | nil => rfl
  | cons c tl =>
    obtain ⟨-, -, h3, h4⟩ := ht c tl rfl
    simp [scan_exponent, h3, h4]

theorem decimal_zero_head (n : Nat) (tl : List Char) (h : decimal n = '0' :: tl) :
    n = 0 ∧ tl = [] := by
  obtain ⟨d, tl1, hd, hz, hhead⟩ := decimal_loop_head (n + 1) n [] (by omega)
  have e : decimal n = digit_char d :: tl1 := hhead
  rw [e] at h
  have hd0 : digit_char d = '0' := (List.cons.inj h).1
  have hn : n = 0 := hz (((digit_char_facts d hd).2.2.2.2.2).mp hd0)
  subst hn
  have e0 : decimal 0 = ['0'] := by decide
  rw [e0] at e
  have h1 : tl1 = [] := ((List.cons.inj e).2).symm
  have h2 : tl1 = tl := (List.cons.inj h).2
  exact ⟨rfl, by rw [← h2, h1]⟩

theorem scan_number_decimal (nc : NumCast) (n : Nat) (tail : List Char) (hn : n < 2 ^ 64)
    (ht : ends_number tail) :
    scan_number nc (decimal n ++ tail) = .ok (.number_unsigned n, tail) := by
  obtain ⟨d, tl, hd, hz, hhead⟩ := decimal_loop_head (n + 1) n [] (by omega)
  have hdec : decimal n = digit_char d :: tl := hhead
  obtain ⟨f1, f2, f3, f4, f5, f6⟩ := digit_char_facts d hd
  have hsp := span_digits_append (decimal n) tail (decimal_digits n) (fun c t e => (ht c t e).1)
  have hv := digits_value_decimal n
  rw [hdec] at hsp hv
  by_cases h0 : digit_char d = '0'
  · have := decimal_zero_head n tl (by rw [hdec, h0])
    obtain ⟨rfl, rfl⟩ := this
    rw [hdec, h0]
    have h00 : digits_value ['0'] = 0 := by decide
    simp +decide [scan_number, scan_fraction_ends tail ht, scan_exponent_ends tail ht, h00]
  · rw [hdec]
    simp only [List.cons_append] at hsp ⊢
    simp [scan_number, f4, f1, h0, hsp, scan_fraction_ends tail ht, scan_exponent_ends tail ht,
      hv]
    omega

theorem scan_number_negative (nc : NumCast) (m : Nat) (tail : List Char) (hm : m ≤ 2 ^ 63)
    (ht : ends_number tail) :
    scan_number nc ('-' :: decimal m ++ tail) = .ok (.number_integer (-(m : Int)), tail) := by
  obtain ⟨d, tl, hd, hz, hhead⟩ := decimal_loop_head (m + 1) m [] (by omega)
  have hdec : decimal m = digit_char d :: tl := hhead
  obtain ⟨f1, f2, f3, f4, f5, f6⟩ := digit_char_facts d hd
  have hsp := span_digits_append (decimal m) tail (decimal_digits m) (fun c t e => (ht c t e).1)
  have hv := digits_value_decimal m
  rw [hdec] at hsp hv
  by_cases h0 : digit_char d = '0'
  · have := decimal_zero_head m tl (by rw [hdec, h0])
    obtain ⟨rfl, rfl⟩ := this
    rw [hdec, h0]
    have h00 : digits_value ['0'] = 0 := by decide
    simp +decide [scan_number, scan_fraction_ends tail ht, scan_exponent_ends tail ht, h00]
  · rw [hdec]
    simp only [List.cons_append] at hsp ⊢
    simp [scan_number, f1, h0, hsp, scan_fraction_ends tail ht, scan_exponent_ends tail ht, hv]
    omega

theorem digit_char_token : ∀ d, d < 10 →
    ¬ (digit_char d = ' ' ∨ digit_char d = '\t' ∨ digit_char d = '\n' ∨ digit_char d = '\r') ∧
    digit_char d ≠ '{' ∧ digit_char d ≠ '[' ∧ digit_char d ≠ ']' ∧ digit_char d ≠ '"' ∧
    digit_char d ≠ 't' ∧ digit_char d ≠ 'f' ∧ digit_char d ≠ 'n' := by
  decide

theorem parse_value_to_string (nc : NumCast) (f : Nat) (z : Int) (tail : List Char)
    (h1 : -2 ^ 63 ≤ z) (h2 : z < 2 ^ 63) (ht : ends_number tail) :
    ∃ j, parse_value nc (f + 1) (to_string z ++ tail) = .ok (j, tail) ∧
      j.get_long_long nc = .ok z := by
  unfold to_string
  split
  · rename_i hneg
    refine ⟨.number_integer z, ?_, rfl⟩
    have h := scan_number_negative nc z.natAbs tail (by omega) ht
    have hz : -(z.natAbs : Int) = z := by omega
    rw [hz] at h
    simp only [List.cons_append] at h ⊢
    simp +decide [parse_value, skip_whitespace, h]
  · rename_i hpos
    refine ⟨.number_unsigned z.toNat, ?_, ?_⟩
    · have h := scan_number_decimal nc z.toNat tail (by omega) ht
      obtain ⟨d, tl, hd, hz, hhead⟩ := decimal_loop_head (z.toNat + 1) z.toNat [] (by omega)
      have hdec : decimal z.toNat = digit_char d :: tl := hhead
      obtain ⟨f1, -⟩ := digit_char_facts d hd
      obtain ⟨g1, g2, g3, g4, g5, g6, g7, g8⟩ := digit_char_token d hd
      rw [hdec] at h ⊢
      simp only [List.cons_append] at h ⊢
      have g1a : skip_whitespace (digit_char d :: (tl ++ tail)) = digit_char d :: (tl ++ tail) := by
        simp only [skip_whitespace, if_neg g1]
      rw [parse_value, g1a]
      dsimp only
      rw [if_neg g2, if_neg g3, if_neg g5, if_neg g6, if_neg g7, if_neg g8,
        if_pos (Or.inr f1), h]
    · have hw : Json.wrap_int64 (z.toNat : Int) = z := by
        unfold Json.wrap_int64
        omega
      show Except.ok (Json.wrap_int64 (z.toNat : Int)) = Except.ok z
      rw [hw]
theorem ends_number_comma (tail : List Char) : ends_number (',' :: tail) := by
  intro c tl e
  obtain ⟨rfl, -⟩ := List.cons.inj e
  decide

theorem ends_number_bracket (tail : List Char) : ends_number (']' :: tail) := by
  intro c tl e
  obtain ⟨rfl, -⟩ := List.cons.inj e
  decide

theorem ends_number_nil : ends_number [] := by
  intro c tl e
  cases e

theorem to_string_head (z : Int) : ∃ c tl, to_string z = c :: tl ∧
    ¬ (c = ' ' ∨ c = '\t' ∨ c = '\n' ∨ c = '\r') ∧ c ≠ ']' := by
  unfold to_string
  split
  · exact ⟨'-', _, rfl, by decide, by decide⟩
  · obtain ⟨d, tl, hd, -, hhead⟩ := decimal_loop_head (z.toNat + 1) z.toNat [] (by omega)
    obtain ⟨g1, -, -, g4, -⟩ := digit_char_token d hd
    exact ⟨digit_char d, tl, hhead, g1, g4⟩

theorem dump_native_head (nc : NumCast) (T : Ty) (v : Val) (ht : has_type T v = true)
    (hn : T.json_native = true) : ∃ c tl, dump nc (to_json v) = c :: tl ∧
    ¬ (c = ' ' ∨ c = '\t' ∨ c = '\n' ∨ c = '\r') ∧ c ≠ ']' := by
  cases T <;> simp [Ty.json_native] at hn <;> cases v <;> simp [has_type] at ht
  · rename_i n
    simpa [to_json, dump] using to_string_head n
  · exact ⟨'"', _, rfl, by decide, by decide⟩
  · exact ⟨'[', _, rfl, by decide, by decide⟩

theorem parse_elements_native (nc : NumCast) (V : Ty)
    (hV : ∀ x, has_type V x = true → ∀ (f : Nat) (tail : List Char), x.weight ≤ f →
      ends_number tail → ∃ j, parse_value nc f (dump nc (to_json x) ++ tail) = .ok (j, tail) ∧
        from_json nc V j = .ok x) :
    ∀ (xs : List Val) (x : Val), (∀ y ∈ x :: xs, has_type V y = true) →
    ∀ (f : Nat) (acc : List Json) (tail : List Char), Val.weight_each (x :: xs) ≤ f →
    ∃ js, parse_elements nc f (dump_elements nc (to_json_each (x :: xs)) ++ ']' :: tail) acc
        = .ok (.array (acc ++ js), tail) ∧
      push_back_each (from_json nc V) js = .ok (x :: xs)
  | [], x, hx, f, acc, tail, hw => by
    obtain ⟨f1, rfl⟩ : ∃ f1, f = f1 + 1 := ⟨f - 1, by simp [Val.weight_each] at hw; omega⟩
    obtain ⟨j, hj, hfj⟩ := hV x (hx x (by simp)) f1 (']' :: tail)
      (by simp [Val.weight_each] at hw; omega) (ends_number_bracket tail)
    refine ⟨[j], ?_, by simp [push_back_each, hfj, bind, Except.bind]⟩
    simp +decide [to_json_each, dump_elements, parse_elements, hj, skip_whitespace]
  | y :: ys, x, hx, f, acc, tail, hw => by
    obtain ⟨f1, rfl⟩ : ∃ f1, f = f1 + 1 := ⟨f - 1, by simp [Val.weight_each] at hw; omega⟩
    have hw1 : x.weight ≤ f1 := by simp [Val.weight_each] at hw; omega
    have hw2 : Val.weight_each (y :: ys) ≤ f1 := by simp [Val.weight_each] at hw ⊢; omega
    obtain ⟨j, hj, hfj⟩ := hV x (hx x (by simp)) f1
      (',' :: (dump_elements nc (to_json_each (y :: ys)) ++ ']' :: tail)) hw1
      (ends_number_comma _)
    obtain ⟨js, hjs, hfjs⟩ := parse_elements_native nc V hV ys y
      (fun z hz => hx z (by simp [hz])) f1 (acc ++ [j]) tail hw2
    refine ⟨j :: js, ?_, by simp [push_back_each, hfj, hfjs, bind, Except.bind]⟩
    have e : dump_elements nc (to_json_each (x :: y :: ys)) ++ ']' :: tail
        = dump nc (to_json x) ++ ',' :: (dump_elements nc (to_json_each (y :: ys)) ++ ']' :: tail) := by
      simp [to_json_each, dump_elements]
    rw [e, parse_elements, hj]
    simp +decide [skip_whitespace, hjs]

theorem parse_dump_native (nc : NumCast) : ∀ (T : Ty) (v : Val), has_type T v = true →
    T.json_native = true → ∀ (f : Nat) (tail : List Char), v.weight ≤ f → ends_number tail →
    ∃ j, parse_value nc f (dump nc (to_json v) ++ tail) = .ok (j, tail) ∧
      from_json nc T j = .ok v
  | .void, v, _, hn => by simp [Ty.json_native] at hn
  | .double, v, _, hn => by simp [Ty.json_native] at hn
  | .ndarray, v, _, hn => by simp [Ty.json_native] at hn
  | .map _, v, _, hn => by simp [Ty.json_native] at hn
  | .tuple _, v, _, hn => by simp [Ty.json_native] at hn
  | .long_long, v, ht, _ => by
    intro f tail hw hnum
    cases v <;> simp [has_type] at ht
    rename_i n
    obtain ⟨f1, rfl⟩ : ∃ f1, f = f1 + 1 := ⟨f - 1, by simp [Val.weight] at hw; omega⟩
    obtain ⟨j, hj, hg⟩ := parse_value_to_string nc f1 n tail ht.1 ht.2 hnum
    exact ⟨j, by simpa [to_json, dump] using hj, by simp [from_json, hg, bind, Except.bind]⟩
  | .string, v, ht, _ => by
    intro f tail hw _
    cases v <;> simp [has_type] at ht
    rename_i s
    obtain ⟨f1, rfl⟩ : ∃ f1, f = f1 + 1 := ⟨f - 1, by simp [Val.weight] at hw; omega⟩
    refine ⟨.string s, ?_, rfl⟩
    have h := parse_value_string nc f1 s.data tail
    simpa [to_json, dump] using h
  | .vector V, v, ht, hn => by
    intro f tail hw _
    cases v <;> simp [has_type] at ht
    rename_i xs
    simp only [Ty.json_native] at hn
    obtain ⟨f1, rfl⟩ : ∃ f1, f = f1 + 1 := ⟨f - 1, by simp [Val.weight] at hw; omega⟩
    have hw1 : Val.weight_each xs ≤ f1 := by simp [Val.weight] at hw; omega
    cases xs with
    | nil =>
      refine ⟨.array [], ?_, by simp [from_json, push_back_each, bind, Except.bind]⟩
      simp +decide [to_json, to_json_each, dump, dump_elements, parse_value, skip_whitespace]
    | cons x xs =>
      obtain ⟨js, hjs, hfjs⟩ := parse_elements_native nc V
        (fun y hy => parse_dump_native nc V y hy hn) xs x (fun y hy => ht y hy) f1 [] tail hw1
      obtain ⟨c, tl, hc, hws, hbr⟩ := dump_native_head nc V x (ht x (by simp)) hn
      refine ⟨.array js, ?_, by simp [from_json, hfjs, bind, Except.bind]⟩
      have e : dump nc (to_json (.vector (x :: xs))) ++ tail
          = '[' :: (dump_elements nc (to_json_each (x :: xs)) ++ ']' :: tail) := by
        simp [to_json, dump]
      obtain ⟨tl1, htl⟩ : ∃ tl1, dump_elements nc (to_json_each (x :: xs)) ++ ']' :: tail
          = c :: tl1 := by
        cases xs with
        | nil =>
          exact ⟨tl ++ ']' :: tail, by simp [to_json_each, dump_elements, hc]⟩
        | cons y ys =>
          refine ⟨tl ++ ',' :: (dump_elements nc (to_json_each (y :: ys)) ++ ']' :: tail), ?_⟩
          simp [to_json_each, dump_elements, hc]
      have hsk : skip_whitespace (c :: tl1) = c :: tl1 := by
        simp only [skip_whitespace, if_neg hws]
      rw [e, parse_value]
      simp +decide only [skip_whitespace, if_false, if_true]
      rw [htl] at hjs ⊢
      rw [hsk]
      simp only [if_neg hbr]
      simpa using hjs
theorem weight_each_le (nc : NumCast) (V : Ty)
    (hV : ∀ x, has_type V x = true → x.weight ≤ (dump nc (to_json x)).length) :
    ∀ (xs : List Val), (∀ y ∈ xs, has_type V y = true) →
    Val.weight_each xs ≤ (dump_elements nc (to_json_each xs)).length + 1
  | [], _ => by simp [Val.weight_each]
  | [x], h => by
    have := hV x (h x (by simp))
    simp [Val.weight_each, to_json_each, dump_elements]
    omega
  | x :: y :: ys, h => by
    have h1 := hV x (h x (by simp))
    have h2 := weight_each_le nc V hV (y :: ys) (fun z hz => h z (by simp [hz]))
    have e : dump_elements nc (to_json_each (x :: y :: ys))
        = dump nc (to_json x) ++ ',' :: dump_elements nc (to_json_each (y :: ys)) := by
      simp [to_json_each, dump_elements]
    rw [e]
    simp only [Val.weight_each, List.length_append, List.length_cons] at h2 ⊢
    omega

theorem weight_le_length (nc : NumCast) : ∀ (T : Ty) (v : Val), has_type T v = true →
    T.json_native = true → v.weight ≤ (dump nc (to_json v)).length
  | .void, v, _, hn => by simp [Ty.json_native] at hn
  | .double, v, _, hn => by simp [Ty.json_native] at hn
  | .ndarray, v, _, hn => by simp [Ty.json_native] at hn
  | .map _, v, _, hn => by simp [Ty.json_native] at hn
  | .tuple _, v, _, hn => by simp [Ty.json_native] at hn
  | .long_long, v, ht, hn => by
    obtain ⟨c, tl, hc, -⟩ := dump_native_head nc .long_long v ht hn
    cases v <;> simp [has_type] at ht
    rw [hc]
    simp [Val.weight]
  | .string, v, ht, hn => by
    obtain ⟨c, tl, hc, -⟩ := dump_native_head nc .string v ht hn
    cases v <;> simp [has_type] at ht
    rw [hc]
    simp [Val.weight]
  | .vector V, v, ht, hn => by
    cases v <;> simp [has_type] at ht
    rename_i xs
    simp only [Ty.json_native] at hn
    have h := weight_each_le nc V (fun x hx => weight_le_length nc V x hx hn) xs ht
    simp only [Val.weight, to_json, dump, List.length_cons, List.length_append, List.length_nil]
    omega

theorem parse_dump_to_json (nc : NumCast) (T : Ty) (v : Val) (ht : has_type T v = true)
    (hn : T.json_native = true) :
    (parse nc (dump nc (to_json v)) >>= from_json nc T) = .ok v := by
  have hw := weight_le_length nc T v ht hn
  obtain ⟨j, hj, hf⟩ := parse_dump_native nc T v ht hn ((dump nc (to_json v)).length + 1) []
    (by omega) ends_number_nil
  simp only [List.append_nil] at hj
  simp [parse, hj, skip_whitespace, hf, bind, Except.bind]

theorem to_int_small (n : Nat) (h : n < 2 ^ 31) : to_int n = n := by
  unfold to_int
  omega

theorem has_line_framed (line : List Char) :
    (ReadBuffer.mk (WriteBuffer.init line).str_buf 0).has_line.1 = true :=
  (read_line_of_Inv ⟨(WriteBuffer.init line).str_buf, 0⟩ ⟨Nat.zero_le _, by simp⟩).1.mpr
    (by simp [WriteBuffer.init])

theorem read_from_proc_framed (line : List Char) (h : '\n' ∉ line) :
    read_from_proc (WriteBuffer.init line).str_buf = some line := by
  unfold read_from_proc
  rw [has_line_framed, read_line_framed line h]
  rfl
theorem execute_on_child_respond {α : Type} (nc : NumCast) (func : α → Val) (args : List α)
    (line : List Char) (idx : Int) (a : α) (hl : '\n' ∉ line) (hs : stoi line = .ok idx)
    (h1 : ¬ idx = -1) (h2 : ¬ (idx < 0 ∨ idx ≥ to_int args.length))
    (ha : args[idx.toNat]? = some a) :
    execute_on_child nc func args (WriteBuffer.init line).str_buf
      = .respond (WriteBuffer.init (dump nc (to_json (func a)))).str_buf := by
  unfold execute_on_child
  rw [read_line_framed line hl]
  dsimp only
  rw [hs]
  dsimp only
  rw [if_neg h1, if_neg h2, ha]
theorem callback_arguments_ok (nc : NumCast) (R : Ty) (front : Option Nat) (msg : List Char)
    (i : Nat) (r : Val) (hp : (parse nc msg >>= from_json nc R) = .ok r)
    (hidx : int_to_size_t (selected_idx front) = i) :
    callback_arguments nc R front msg = .ok (i, r) := by
  unfold callback_arguments
  cases hparse : parse nc msg with
  | error e => simp [hparse, bind, Except.bind] at hp
  | ok j =>
    simp only [hparse, bind, Except.bind] at hp ⊢
    simp [hp, hidx]

theorem int_to_size_t_small (n : Nat) (h : n < 2 ^ 31) : int_to_size_t (to_int n) = n := by
  rw [to_int_small n h]
  unfold int_to_size_t
  omega

/-- C10: for every index `i` of a list of fewer than `2 ^ 31` tasks, the parent sends the decimal
text of `i`; the child that reads this request answers with one line, the text of
`func(args[i])`, and goes on; the parent reads that line back whole, and the callback is
invoked with `i` itself and with the result decoded from that line, which is `func(args[i])`.
The result type is built from `long long`, `std::string` and `std::vector`. -/
theorem task_result {α : Type} (nc : NumCast) (R : Ty) (func : α → Val) (args : List α)
    (i : Nat) (a : α) (hR : R.json_native = true) (hres : has_type R (func a) = true)
    (hsize : args.length < 2 ^ 31) (hi : args[i]? = some a) :
    to_string (selected_idx (some i)) = decimal i ∧
    execute_on_child nc func args (WriteBuffer.init (to_string (selected_idx (some i)))).str_buf
      = .respond (WriteBuffer.init (dump nc (to_json (func a)))).str_buf ∧
    read_from_proc (WriteBuffer.init (dump nc (to_json (func a)))).str_buf
      = some (dump nc (to_json (func a))) ∧
    callback_arguments nc R (some i) (dump nc (to_json (func a))) = .ok (i, func a) := by
  have hlt : i < args.length := (List.getElem?_eq_some.mp hi).1
  have hi31 : i < 2 ^ 31 := by omega
  have hsel : selected_idx (some i) = (i : Int) := to_int_small i hi31
  have hN : to_int args.length = (args.length : Int) := to_int_small _ hsize
  have htext : to_string (i : Int) = decimal i := by
    have : ¬ ((i : Int) < 0) := by omega
    simp [to_string, this]
  have hstoi : stoi (to_string (i : Int)) = .ok (i : Int) :=
    stoi_to_string (i : Int) (by omega) (by omega)
  have h1 : ¬ ((i : Int) = -1) := by omega
  have h2 : ¬ ((i : Int) < 0 ∨ (i : Int) ≥ to_int args.length) := by rw [hN]; omega
  have hchild := execute_on_child_respond nc func args (to_string (i : Int)) (i : Int) a
    (to_string_line _) hstoi h1 h2 (by rw [Int.toNat_ofNat]; exact hi)
  have hcb := callback_arguments_ok nc R (some i) (dump nc (to_json (func a))) i (func a)
    (parse_dump_to_json nc R (func a) hres hR) (int_to_size_t_small i hi31)
  refine ⟨?_, ?_, read_from_proc_framed _ (dump_line nc _), hcb⟩
  · rw [hsel, htext]
  · rw [hsel]
    exact hchild
theorem task_result_witness :
    (Ty.vector .long_long).json_native = true ∧
    has_type (.vector .long_long) ((fun (n : Int) => Val.vector [.long_long n, .long_long (-n)]) 20)
      = true ∧
    ([10, 20, 30] : List Int).length < 2 ^ 31 ∧ ([10, 20, 30] : List Int)[1]? = some 20 ∧
    execute_on_child no_double (fun (n : Int) => Val.vector [.long_long n, .long_long (-n)])
      [10, 20, 30] (WriteBuffer.init (to_string (selected_idx (some 1)))).str_buf
      = .respond (WriteBuffer.init (dump no_double (to_json
          ((fun (n : Int) => Val.vector [.long_long n, .long_long (-n)]) 20)))).str_buf ∧
    callback_arguments no_double (.vector .long_long) (some 1)
      (dump no_double (to_json ((fun (n : Int) => Val.vector [.long_long n, .long_long (-n)]) 20)))
      = .ok (1, (fun (n : Int) => Val.vector [.long_long n, .long_long (-n)]) 20) :=
  ⟨by decide, by decide, by decide, by decide,
    (task_result no_double (.vector .long_long)
      (fun (n : Int) => Val.vector [.long_long n, .long_long (-n)]) [10, 20, 30] 1 20
      (by decide) (by decide) (by decide) (by decide)).2.1,
    (task_result no_double (.vector .long_long)
      (fun (n : Int) => Val.vector [.long_long n, .long_long (-n)]) [10, 20, 30] 1 20
      (by decide) (by decide) (by decide) (by decide)).2.2.2⟩

theorem pops_append (l : List Event) (e : Event) : pops (l ++ [e]) = pops l ++ pops [e] := by
  induction l with
  | nil => simp [pops]
  | cons x l ih =>
    cases x with
    | pop w f => cases f <;> simp [pops, ih]
    | callback_begin w f i r => simp [pops, ih]
    | callback_end w => simp [pops, ih]

theorem callback_fronts_append (l : List Event) (e : Event) :
    callback_fronts (l ++ [e]) = callback_fronts l ++ callback_fronts [e] := by
  induction l with
  | nil => simp [callback_fronts]
  | cons x l ih => cases x <;> simp [callback_fronts, ih]

theorem callback_indices_append (l : List Event) (e : Event) :
    callback_indices (l ++ [e]) = callback_indices l ++ callback_indices [e] := by
  induction l with
  | nil => simp [callback_indices]
  | cons x l ih => cases x <;> simp [callback_indices, ih]

theorem callbacks_serial_append (l : List Event) (e : Event) : ∀ (c : Option Nat),
    callbacks_serial (l ++ [e]) c = (callbacks_serial l c).bind (callbacks_serial [e]) := by
  induction l with
  | nil => intro c; simp [callbacks_serial]
  | cons x l ih =>
    intro c
    cases x with
    | pop w f => simp [callbacks_serial, ih]
    | callback_begin w f i r =>
      simp only [List.cons_append, callbacks_serial]
      split
      · exact ih _
      · rfl
    | callback_end w =>
      simp only [List.cons_append, callbacks_serial]
      split
      · exact ih _
      · rfl

theorem to_int_range (n : Nat) : -2 ^ 31 ≤ to_int n ∧ to_int n < 2 ^ 31 := by
  unfold to_int
  omega

theorem execute_on_child_request {α : Type} (nc : NumCast) (func : α → Val) (args : List α)
    (i : Int) (h1 : -2 ^ 31 ≤ i) (h2 : i < 2 ^ 31) :
    execute_on_child nc func args (request_bytes i) =
      if i = -1 then .exit 0
      else if i < 0 ∨ i ≥ to_int args.length then
        .throw (.runtime_error "message can not be decoded")
      else
        match args[i.toNat]? with
        | none => .throw .undefined
        | some a => .respond (WriteBuffer.init (dump nc (to_json (func a)))).str_buf := by
  unfold execute_on_child request_bytes
  rw [read_line_framed _ (to_string_line i)]
  dsimp only
  rw [stoi_to_string i h1 h2]

theorem execute_on_child_cases {α : Type} (nc : NumCast) (func : α → Val) (args : List α)
    (i : Int) (h1 : -2 ^ 31 ≤ i) (h2 : i < 2 ^ 31) :
    (i = -1 ∧ execute_on_child nc func args (request_bytes i) = .exit 0) ∨
    (i ≠ -1 ∧ ∃ e, execute_on_child nc func args (request_bytes i) = .throw e) ∨
    (0 ≤ i ∧ ∃ out, execute_on_child nc func args (request_bytes i) = .respond out) := by
  rw [execute_on_child_request nc func args i h1 h2]
  by_cases h : i = -1
  · exact Or.inl ⟨h, by rw [if_pos h]⟩
  · rw [if_neg h]
    by_cases h3 : i < 0 ∨ i ≥ to_int args.length
    · rw [if_pos h3]
      exact Or.inr (Or.inl ⟨h, _, rfl⟩)
    · rw [if_neg h3]
      cases args[i.toNat]? with
      | none => exact Or.inr (Or.inl ⟨h, _, rfl⟩)
      | some a => exact Or.inr (Or.inr ⟨by omega, _, rfl⟩)

theorem callback_arguments_index (nc : NumCast) (R : Ty) (front : Option Nat) (msg : List Char)
    (index : Nat) (r : Val) (h : callback_arguments nc R front msg = .ok (index, r)) :
    index = int_to_size_t (selected_idx front) := by
  unfold callback_arguments at h
  cases hp : parse nc msg with
  | error e => rw [hp] at h; cases h
  | ok j =>
    rw [hp] at h
    cases hf : from_json nc R j with
    | error e =>
      simp only [bind, Except.bind, hf] at h
      cases h
    | ok v =>
      simp only [bind, Except.bind, hf] at h
      cases h
      rfl

theorem step_cases {α : Type} (cfg : Executor α) (s : Pool) (a : Action) (P : Pool → Prop)
    (stay : P s)
    (lock : ∀ w, w < cfg.num_workers → s.pc w = .idle → s.mutex = none →
      P { s with mutex := some w, pc := Function.update s.pc w .locked })
    (pop_empty : ∀ w, w < cfg.num_workers → s.pc w = .locked → s.queue = [] →
      P { s with mutex := none, pc := Function.update s.pc w (.popped none),
                 log := s.log ++ [.pop w none] })
    (pop_front : ∀ w front rest, w < cfg.num_workers → s.pc w = .locked → s.queue = front :: rest →
      P { s with queue := rest, mutex := none,
                 pc := Function.update s.pc w (.popped (some front)),
                 log := s.log ++ [.pop w (some front)] })
    (keep : ∀ w f, w < cfg.num_workers → s.pc w = .popped f → (s.child w).alive = true →
      P { s with pc := Function.update s.pc w (.ready f) })
    (spawn : ∀ w f, w < cfg.num_workers → s.pc w = .popped f → (s.child w).alive = false →
      P { s with child := Function.update s.child w .waiting,
                 pc := Function.update s.pc w (.ready f) })
    (stop : ∀ w f, w < cfg.num_workers → s.pc w = .ready f → selected_idx f = -1 → (s.child w).alive = true →
      P { s with child := Function.update s.child w (.requested (request_bytes (-1))),
                 pc := Function.update s.pc w (.joining f) })
    (stop_dead : ∀ w f, w < cfg.num_workers → s.pc w = .ready f → selected_idx f = -1 → (s.child w).alive = false →
      P { s with pc := Function.update s.pc w (.joining f) })
    (write : ∀ w i, w < cfg.num_workers → s.pc w = .ready (some i) → to_int i ≠ -1 → (s.child w).alive = true →
      P { s with child := Function.update s.child w (.requested (request_bytes (to_int i))),
                 pc := Function.update s.pc w (.written i true) })
    (write_dead : ∀ w i, w < cfg.num_workers → s.pc w = .ready (some i) → to_int i ≠ -1 →
      (s.child w).alive = false →
      P { s with pc := Function.update s.pc w (.written i false) })
    (fail : ∀ w f ws, w < cfg.num_workers → s.pc w = .written f ws →
      (ws = false ∨ (s.child w).alive = false) →
      P { s with pc := Function.update s.pc w .failed })
    (read : ∀ w f bytes msg, w < cfg.num_workers → s.pc w = .written f true → s.child w = .responded bytes →
      P { s with child := Function.update s.child w .waiting,
                 pc := Function.update s.pc w (.received f msg) })
    (lock_callback : ∀ w f msg, w < cfg.num_workers → s.pc w = .received f msg → s.mutex = none →
      P { s with mutex := some w, pc := Function.update s.pc w (.locked_callback f msg) })
    (throw : ∀ w f msg, w < cfg.num_workers → s.pc w = .locked_callback f msg →
      P { s with mutex := none, pc := Function.update s.pc w .failed })
    (call : ∀ w f msg r, w < cfg.num_workers → s.pc w = .locked_callback f msg →
      P { s with pc := Function.update s.pc w (.in_callback f),
                 log := s.log ++ [.callback_begin w f (int_to_size_t (to_int f)) r] })
    (leave : ∀ w f, w < cfg.num_workers → s.pc w = .in_callback f →
      P { s with mutex := none, pc := Function.update s.pc w .idle,
                 log := s.log ++ [.callback_end w] })
    (join : ∀ w f, w < cfg.num_workers → s.pc w = .joining f → (s.child w).alive = false →
      P { s with pc := Function.update s.pc w (.done f) })
    (child_exit : ∀ w b, w < cfg.num_workers → s.child w = .requested b →
      (∀ f, b = request_bytes (to_int f) → to_int f = -1) →
      P { s with child := Function.update s.child w .exited })
    (child_dead : ∀ w, w < cfg.num_workers → (s.child w).alive = true →
      P { s with child := Function.update s.child w .dead })
    (child_respond : ∀ w b out, w < cfg.num_workers → s.child w = .requested b →
      (∀ f, b = request_bytes (to_int f) → 0 ≤ to_int f) → b ≠ request_bytes (-1) →
      P { s with child := Function.update s.child w (.responded out) }) :
    P (s.step cfg a) := by
  cases a with
  | worker w =>
    simp only [Pool.step]
    split
    swap
    · exact stay
    rename_i hw
    unfold worker_step
    split
    · rename_i hpc
      split
      · exact lock w hw hpc (by assumption)
      · exact stay
    · rename_i hpc
      split
      · exact pop_empty w hw hpc (by assumption)
      · exact pop_front w _ _ hw hpc (by assumption)
    · rename_i f hpc
      split
      · exact keep w f hw hpc (by assumption)
      · exact spawn w f hw hpc (by simpa using (by assumption : ¬ (s.child w).alive = true))
    · rename_i f hpc
      split
      · split
        · exact stop w f hw hpc (by assumption) (by assumption)
        · exact stop_dead w f hw hpc (by assumption)
            (by simpa using (by assumption : ¬ (s.child w).alive = true))
      · rename_i hsel
        split
        · exact stay
        · rename_i i
          have hi : to_int i ≠ -1 := by simpa [selected_idx] using hsel
          split
          · exact write w i hw hpc hi (by assumption)
          · exact write_dead w i hw hpc hi
              (by simpa using (by assumption : ¬ (s.child w).alive = true))
    · rename_i f ws hpc
      split
      · exact fail w f ws hw hpc (Or.inl (by assumption))
      · rename_i hws
        have hws1 : ws = true := by simpa using hws
        subst hws1
        split
        · rename_i bytes hc
          split
          · exact read w f bytes _ hw hpc hc
          · exact stay
        · exact stay
        · exact stay
        · rename_i h1 h2 h3
          refine fail w f true hw hpc (Or.inr ?_)
          cases hc : s.child w with
          | none => rfl
          | waiting => exact absurd hc h2
          | requested b => exact absurd hc (h3 b)
          | responded b => exact absurd hc (h1 b)
          | exited => rfl
          | dead => rfl
    · rename_i f msg hpc
      split
      · exact lock_callback w f msg hw hpc (by assumption)
      · exact stay
    · rename_i f msg hpc
      split
      · exact throw w f msg hw hpc
      · rename_i index r heq
        have e := callback_arguments_index _ _ _ _ _ _ heq
        rw [e]
        exact call w f msg r hw hpc
    · rename_i f hpc
      exact leave w f hw hpc
    · rename_i f hpc
      split
      · exact stay
      · exact join w f hw hpc (by simpa using (by assumption : ¬ (s.child w).alive = true))
    · exact stay
    · exact stay
  | child w =>
    simp only [Pool.step]
    split
    swap
    · exact stay
    rename_i hw
    unfold child_step
    split
    swap
    · exact stay
    rename_i b hc
    split
    · rename_i code heq
      refine child_exit w b hw hc ?_
      intro f hb
      rw [hb] at heq
      rcases execute_on_child_cases cfg.nc cfg.func cfg.args _ (to_int_range f).1
        (to_int_range f).2 with h | ⟨_, e, h⟩ | ⟨_, out, h⟩
      · exact h.1
      · rw [h] at heq
        cases heq
      · rw [h] at heq
        cases heq
    · exact child_dead w hw (by rw [hc]; rfl)
    · rename_i out heq
      refine child_respond w b out hw hc ?_ ?_
      · intro f hb
        rw [hb] at heq
        rcases execute_on_child_cases cfg.nc cfg.func cfg.args _ (to_int_range f).1
          (to_int_range f).2 with h | ⟨_, e, h⟩ | ⟨h0, out, h⟩
        · rw [h.2] at heq
          cases heq
        · rw [h] at heq
          cases heq
        · exact h0
      · intro hb
        rw [hb] at heq
        rcases execute_on_child_cases cfg.nc cfg.func cfg.args (-1) (by norm_num)
          (by norm_num) with h | ⟨h0, e, h⟩ | ⟨h0, out, h⟩
        · rw [h.2] at heq
          cases heq
        · exact h0 rfl
        · omega
  | kill w =>
    simp only [Pool.step]
    split
    swap
    · exact stay
    rename_i hw
    unfold kill_step
    split
    · exact child_dead w hw (by assumption)
    · exact stay

theorem Inv_mutex_step {α : Type} (cfg : Executor α) (s : Pool) (a : Action)
    (h : Inv_mutex s) : Inv_mutex (s.step cfg a) := by
  apply step_cases cfg s a Inv_mutex h
  all_goals
    intro w
    intros
    intro v
    have hv := h v
    have hw := h w
    by_cases e : v = w
    · subst e
      simp_all [Function.update_apply, Pc.holds]
    · have e2 : ¬ w = v := fun h => e h.symm
      simp_all [Function.update_apply, Pc.holds]

theorem Inv_empty_step {α : Type} (cfg : Executor α) (s : Pool) (a : Action)
    (h : Inv_empty s) : Inv_empty (s.step cfg a) := by
  apply step_cases cfg s a Inv_empty h
  all_goals
    intro w
    intros
    intro v
    have hv := h v
    have hw := h w
    by_cases e : v = w
    · subst e
      simp_all [Function.update_apply]
    · have e2 : ¬ w = v := fun h => e h.symm
      simp_all [Function.update_apply]

theorem Inv_idle_step {α : Type} (cfg : Executor α) (s : Pool) (a : Action)
    (h : Inv_idle cfg.num_workers s) : Inv_idle cfg.num_workers (s.step cfg a) := by
  apply step_cases cfg s a (Inv_idle cfg.num_workers) h
  all_goals
    intro w
    intros
    intro v hv
    have hv := h v hv
    have e : v ≠ w := by omega
    simp_all [Function.update_apply]

theorem Inv_queue_step {α : Type} (cfg : Executor α) (s : Pool) (a : Action) (n : Nat)
    (h : Inv_queue n s) : Inv_queue n (s.step cfg a) := by
  apply step_cases cfg s a (Inv_queue n) h
  case pop_front =>
    intro w front rest hw hpc hq
    obtain ⟨m, hm, hqueue, hpops⟩ := h
    rw [hq] at hqueue
    have hlen : n - m ≠ 0 := by
      intro e
      rw [e] at hqueue
      simp at hqueue
    obtain ⟨k, hk⟩ : ∃ k, n - m = k + 1 := ⟨n - m - 1, by omega⟩
    rw [hk, List.range'_succ] at hqueue
    injection hqueue with h1 h2
    refine ⟨m + 1, by omega, ?_, ?_⟩
    · show rest = List.range' (m + 1) (n - (m + 1))
      rw [h2]
      congr 1
      omega
    · show pops (s.log ++ [.pop w (some front)]) = List.range (m + 1)
      rw [pops_append, hpops, h1, List.range_succ]
      rfl
  all_goals
    intro w
    intros
    obtain ⟨m, hm, hqueue, hpops⟩ := h
    exact ⟨m, hm, by simpa using hqueue, by simpa [pops_append, pops] using hpops⟩

theorem Inv_called_step {α : Type} (cfg : Executor α) (s : Pool) (a : Action)
    (hx : Inv_exchange s) (h : Inv_called s) : Inv_called (s.step cfg a) := by
  apply step_cases cfg s a Inv_called h
  case call =>
    intro w f msg r hw hpc
    obtain ⟨h1, h2⟩ := h
    have h0 := hx.1 w f msg (Or.inr hpc)
    refine ⟨?_, ?_⟩
    · show callback_indices (s.log ++ _) = (callback_fronts (s.log ++ _)).map _
      rw [callback_indices_append, callback_fronts_append, h1]
      simp [callback_indices, callback_fronts]
    · intro g hg
      change g ∈ callback_fronts (s.log ++ _) at hg
      rw [callback_fronts_append] at hg
      simp only [callback_fronts, List.mem_append, List.mem_singleton] at hg
      rcases hg with hg | hg
      · exact h2 g hg
      · rw [hg]
        exact h0
  all_goals
    intro w
    intros
    obtain ⟨h1, h2⟩ := h
    exact ⟨by simpa [callback_indices_append, callback_fronts_append, callback_indices,
      callback_fronts] using h1, by simpa [callback_fronts_append, callback_fronts] using h2⟩

theorem Inv_serial_step {α : Type} (cfg : Executor α) (s : Pool) (a : Action)
    (hm : Inv_mutex s) (h : Inv_serial s) : Inv_serial (s.step cfg a) := by
  obtain ⟨cur, hcur, hiff⟩ := h
  apply step_cases cfg s a Inv_serial ⟨cur, hcur, hiff⟩
  case call =>
    intro w f msg r hw hpc
    have hnone : cur = none := by
      cases cur with
      | none => rfl
      | some v =>
        obtain ⟨g, hg⟩ := (hiff v).1 rfl
        have mv := (hm v).1 (by rw [hg]; rfl)
        have mw := (hm w).1 (by rw [hpc]; rfl)
        rw [mv] at mw
        injection mw with e
        rw [e, hpc] at hg
        cases hg
    subst hnone
    refine ⟨some w, ?_, ?_⟩
    · show callbacks_serial (s.log ++ _) none = _
      rw [callbacks_serial_append, hcur]
      rfl
    · intro v
      show some w = some v ↔ ∃ g, Function.update s.pc w (.in_callback f) v = .in_callback g
      by_cases e : v = w
      · subst e
        simp
      · rw [Function.update_noteq e]
        constructor
        · intro h
          injection h with h
          exact absurd h.symm e
        · intro h
          have := (hiff v).2 h
          cases this
  case leave =>
    intro w f hw hpc
    have hc : cur = some w := (hiff w).2 ⟨f, hpc⟩
    subst hc
    refine ⟨none, ?_, ?_⟩
    · show callbacks_serial (s.log ++ _) none = _
      rw [callbacks_serial_append, hcur]
      simp [callbacks_serial]
    · intro v
      show none = some v ↔ ∃ g, Function.update s.pc w .idle v = .in_callback g
      by_cases e : v = w
      · subst e
        simp
      · rw [Function.update_noteq e]
        constructor
        · intro h
          cases h
        · intro h
          have := (hiff v).2 h
          injection this with h
          exact absurd h.symm e
  all_goals
    intro w
    intros
    refine ⟨cur, ?_, ?_⟩
    · first
        | exact hcur
        | (show callbacks_serial (s.log ++ _) none = _
           rw [callbacks_serial_append, hcur]
           rfl)
    · intro v
      have hv := hiff v
      have hw := hiff w
      by_cases e : v = w
      · subst e
        simp_all [Function.update_apply]
      · have e2 : ¬ w = v := fun h => e h.symm
        simp_all [Function.update_apply]

theorem exchange_frame (s t : Pool) (w : Nat) (h : Inv_exchange s)
    (hpc : ∀ v, v ≠ w → t.pc v = s.pc v) (hch : ∀ v, v ≠ w → t.child v = s.child v)
    (a1 : ∀ f msg, t.pc w = .received f msg ∨ t.pc w = .locked_callback f msg → 0 ≤ to_int f)
    (a2 : ∀ b, t.child w = .requested b →
      (∃ f, t.pc w = .written f true ∧ to_int f ≠ -1 ∧ b = request_bytes (to_int f)) ∨
      (∃ f, t.pc w = .joining f ∧ b = request_bytes (-1)) ∨ t.pc w = .failed)
    (a3 : ∀ b, t.child w = .responded b →
      (∃ f, t.pc w = .written f true ∧ 0 ≤ to_int f) ∨ t.pc w = .failed)
    (a4 : ∀ i, t.pc w = .joining (some i) ∨ t.pc w = .done (some i) → to_int i = -1) :
    Inv_exchange t := by
  obtain ⟨h1, h2, h3, h4⟩ := h
  refine ⟨?_, ?_, ?_, ?_⟩
  · intro v
    by_cases e : v = w
    · rw [e]
      exact a1
    · rw [hpc v e]
      exact h1 v
  · intro v
    by_cases e : v = w
    · rw [e]
      exact a2
    · rw [hpc v e, hch v e]
      exact h2 v
  · intro v
    by_cases e : v = w
    · rw [e]
      exact a3
    · rw [hpc v e, hch v e]
      exact h3 v
  · intro v
    by_cases e : v = w
    · rw [e]
      exact a4
    · rw [hpc v e]
      exact h4 v

theorem Inv_exchange_step {α : Type} (cfg : Executor α) (s : Pool) (a : Action)
    (h : Inv_exchange s) : Inv_exchange (s.step cfg a) := by
  apply step_cases cfg s a Inv_exchange h
  case stop =>
    intro w f hw hpc hsel hal
    refine exchange_frame s _ w h
      (fun v e => by first | rfl | simp only [Function.update_noteq e])
      (fun v e => by first | rfl | simp only [Function.update_noteq e]) ?_ ?_ ?_ ?_
    all_goals try simp only [Function.update_same]
    all_goals first
      | (simp only [reduceCtorEq, false_or, or_false, or_self, false_and, and_false,
          exists_false, exists_const, IsEmpty.forall_iff, implies_true, forall_const]; done)
      | exact h.1 w
      | exact h.2.1 w
      | exact h.2.2.1 w
      | exact h.2.2.2 w
      | (intro b hb
         have hb2 : s.child w = Child.requested b := by exact hb
         rcases h.2.1 w b hb2 with ⟨g, hg, _⟩ | ⟨g, hg, _⟩ | hg <;>
           simp_all [Child.alive] <;> done)
      | (intro b hb
         have hb2 : s.child w = Child.responded b := by exact hb
         rcases h.2.2.1 w b hb2 with ⟨g, hg, _⟩ | hg <;> simp_all [Child.alive] <;> done)
      | skip
    case refine_2 =>
      intro b hb
      exact Or.inr (Or.inl ⟨f, rfl, (Child.requested.inj hb).symm⟩)
    case refine_4 =>
      intro i hi
      rcases hi with hi | hi
      · have e := Pc.joining.inj hi
        rw [e] at hsel
        exact hsel
      · exact Pc.noConfusion hi
  case stop_dead =>
    intro w f hw hpc hsel hal
    refine exchange_frame s _ w h
      (fun v e => by first | rfl | simp only [Function.update_noteq e])
      (fun v e => by first | rfl | simp only [Function.update_noteq e]) ?_ ?_ ?_ ?_
    all_goals try simp only [Function.update_same]
    all_goals first
      | (simp only [reduceCtorEq, false_or, or_false, or_self, false_and, and_false,
          exists_false, exists_const, IsEmpty.forall_iff, implies_true, forall_const]; done)
      | exact h.1 w
      | exact h.2.1 w
      | exact h.2.2.1 w
      | exact h.2.2.2 w
      | (intro b hb
         have hb2 : s.child w = Child.requested b := by exact hb
         rcases h.2.1 w b hb2 with ⟨g, hg, _⟩ | ⟨g, hg, _⟩ | hg <;>
           simp_all [Child.alive] <;> done)
      | (intro b hb
         have hb2 : s.child w = Child.responded b := by exact hb
         rcases h.2.2.1 w b hb2 with ⟨g, hg, _⟩ | hg <;> simp_all [Child.alive] <;> done)
      | skip
    case refine_4 =>
      intro i hi
      rcases hi with hi | hi
      · have e := Pc.joining.inj hi
        rw [e] at hsel
        exact hsel
      · exact Pc.noConfusion hi
  case write =>
    intro w i hw hpc hi hal
    refine exchange_frame s _ w h
      (fun v e => by first | rfl | simp only [Function.update_noteq e])
      (fun v e => by first | rfl | simp only [Function.update_noteq e]) ?_ ?_ ?_ ?_
    all_goals try simp only [Function.update_same]
    all_goals first
      | (simp only [reduceCtorEq, false_or, or_false, or_self, false_and, and_false,
          exists_false, exists_const, IsEmpty.forall_iff, implies_true, forall_const]; done)
      | exact h.1 w
      | exact h.2.1 w
      | exact h.2.2.1 w
      | exact h.2.2.2 w
      | (intro b hb
         have hb2 : s.child w = Child.requested b := by exact hb
         rcases h.2.1 w b hb2 with ⟨g, hg, _⟩ | ⟨g, hg, _⟩ | hg <;>
           simp_all [Child.alive] <;> done)
      | (intro b hb
         have hb2 : s.child w = Child.responded b := by exact hb
         rcases h.2.2.1 w b hb2 with ⟨g, hg, _⟩ | hg <;> simp_all [Child.alive] <;> done)
      | skip
    case refine_2 =>
      intro b hb
      exact Or.inl ⟨i, rfl, hi, (Child.requested.inj hb).symm⟩
  case read =>
    intro w f bytes msg hw hpc hc
    refine exchange_frame s _ w h
      (fun v e => by first | rfl | simp only [Function.update_noteq e])
      (fun v e => by first | rfl | simp only [Function.update_noteq e]) ?_ ?_ ?_ ?_
    all_goals try simp only [Function.update_same]
    all_goals first
      | (simp only [reduceCtorEq, false_or, or_false, or_self, false_and, and_false,
          exists_false, exists_const, IsEmpty.forall_iff, implies_true, forall_const]; done)
      | exact h.1 w
      | exact h.2.1 w
      | exact h.2.2.1 w
      | exact h.2.2.2 w
      | (intro b hb
         have hb2 : s.child w = Child.requested b := by exact hb
         rcases h.2.1 w b hb2 with ⟨g, hg, _⟩ | ⟨g, hg, _⟩ | hg <;>
           simp_all [Child.alive] <;> done)
      | (intro b hb
         have hb2 : s.child w = Child.responded b := by exact hb
         rcases h.2.2.1 w b hb2 with ⟨g, hg, _⟩ | hg <;> simp_all [Child.alive] <;> done)
      | skip
    case refine_1 =>
      intro g m hg
      rcases hg with hg | hg
      · have e := (Pc.received.inj hg).1
        rw [← e]
        rcases h.2.2.1 w bytes hc with ⟨k, hk, h0⟩ | hk
        · rw [hpc] at hk
          have e2 := (Pc.written.inj hk).1
          rw [e2]
          exact h0
        · rw [hpc] at hk
          exact Pc.noConfusion hk
      · exact Pc.noConfusion hg
  case lock_callback =>
    intro w f msg hw hpc hmx
    refine exchange_frame s _ w h
      (fun v e => by first | rfl | simp only [Function.update_noteq e])
      (fun v e => by first | rfl | simp only [Function.update_noteq e]) ?_ ?_ ?_ ?_
    all_goals try simp only [Function.update_same]
    all_goals first
      | (simp only [reduceCtorEq, false_or, or_false, or_self, false_and, and_false,
          exists_false, exists_const, IsEmpty.forall_iff, implies_true, forall_const]; done)
      | exact h.1 w
      | exact h.2.1 w
      | exact h.2.2.1 w
      | exact h.2.2.2 w
      | (intro b hb
         have hb2 : s.child w = Child.requested b := by exact hb
         rcases h.2.1 w b hb2 with ⟨g, hg, _⟩ | ⟨g, hg, _⟩ | hg <;>
           simp_all [Child.alive] <;> done)
      | (intro b hb
         have hb2 : s.child w = Child.responded b := by exact hb
         rcases h.2.2.1 w b hb2 with ⟨g, hg, _⟩ | hg <;> simp_all [Child.alive] <;> done)
      | skip
    case refine_1 =>
      intro g m hg
      rcases hg with hg | hg
      · exact Pc.noConfusion hg
      · have e := (Pc.locked_callback.inj hg).1
        rw [← e]
        exact h.1 w f msg (Or.inl hpc)
  case join =>
    intro w f hw hpc hal
    refine exchange_frame s _ w h
      (fun v e => by first | rfl | simp only [Function.update_noteq e])
      (fun v e => by first | rfl | simp only [Function.update_noteq e]) ?_ ?_ ?_ ?_
    all_goals try simp only [Function.update_same]
    all_goals first
      | (simp only [reduceCtorEq, false_or, or_false, or_self, false_and, and_false,
          exists_false, exists_const, IsEmpty.forall_iff, implies_true, forall_const]; done)
      | exact h.1 w
      | exact h.2.1 w
      | exact h.2.2.1 w
      | exact h.2.2.2 w
      | (intro b hb
         have hb2 : s.child w = Child.requested b := by exact hb
         rcases h.2.1 w b hb2 with ⟨g, hg, _⟩ | ⟨g, hg, _⟩ | hg <;>
           simp_all [Child.alive] <;> done)
      | (intro b hb
         have hb2 : s.child w = Child.responded b := by exact hb
         rcases h.2.2.1 w b hb2 with ⟨g, hg, _⟩ | hg <;> simp_all [Child.alive] <;> done)
      | skip
    case refine_4 =>
      intro i hi
      rcases hi with hi | hi
      · exact Pc.noConfusion hi
      · have e := Pc.done.inj hi
        rw [e] at hpc
        exact h.2.2.2 w i (Or.inl hpc)
  case child_respond =>
    intro w b out hw hc hb0 hb1
    refine exchange_frame s _ w h
      (fun v e => by first | rfl | simp only [Function.update_noteq e])
      (fun v e => by first | rfl | simp only [Function.update_noteq e]) ?_ ?_ ?_ ?_
    all_goals try simp only [Function.update_same]
    all_goals first
      | (simp only [reduceCtorEq, false_or, or_false, or_self, false_and, and_false,
          exists_false, exists_const, IsEmpty.forall_iff, implies_true, forall_const]; done)
      | exact h.1 w
      | exact h.2.1 w
      | exact h.2.2.1 w
      | exact h.2.2.2 w
      | (intro b hb
         have hb2 : s.child w = Child.requested b := by exact hb
         rcases h.2.1 w b hb2 with ⟨g, hg, _⟩ | ⟨g, hg, _⟩ | hg <;>
           simp_all [Child.alive] <;> done)
      | (intro b hb
         have hb2 : s.child w = Child.responded b := by exact hb
         rcases h.2.2.1 w b hb2 with ⟨g, hg, _⟩ | hg <;> simp_all [Child.alive] <;> done)
      | skip
    case refine_3 =>
      intro b2 hb2
      rcases h.2.1 w b hc with ⟨g, hg, hne, hb3⟩ | ⟨g, hg, hb3⟩ | hg
      · exact Or.inl ⟨g, hg, hb0 g hb3⟩
      · exact absurd hb3 hb1
      · exact Or.inr hg
  all_goals
    intro w
    intros
    refine exchange_frame s _ w h
      (fun v e => by first | rfl | simp only [Function.update_noteq e])
      (fun v e => by first | rfl | simp only [Function.update_noteq e]) ?_ ?_ ?_ ?_
    all_goals try simp only [Function.update_same]
    all_goals first
      | (simp only [reduceCtorEq, false_or, or_false, or_self, false_and, and_false,
          exists_false, exists_const, IsEmpty.forall_iff, implies_true, forall_const]; done)
      | exact h.1 w
      | exact h.2.1 w
      | exact h.2.2.1 w
      | exact h.2.2.2 w
      | (intro b hb
         have hb2 : s.child w = Child.requested b := by exact hb
         rcases h.2.1 w b hb2 with ⟨g, hg, _⟩ | ⟨g, hg, _⟩ | hg <;>
           simp_all [Child.alive] <;> done)
      | (intro b hb
         have hb2 : s.child w = Child.responded b := by exact hb
         rcases h.2.2.1 w b hb2 with ⟨g, hg, _⟩ | hg <;> simp_all [Child.alive] <;> done)
      | skip

theorem carried_frame (s t : Pool) (w : Nat) (h : Inv_carried s)
    (hpc : ∀ v, v ≠ w → t.pc v = s.pc v) (hf : (t.pc w).front = (s.pc w).front)
    (hfail : s.pc w = .failed → t.pc w = .failed) (hp : pops t.log = pops s.log)
    (hc : callback_fronts t.log = callback_fronts s.log) : Inv_carried t := by
  obtain ⟨h1, h2, h3, h4, h5⟩ := h
  have key : ∀ v, (t.pc v).front = (s.pc v).front := by
    intro v
    by_cases e : v = w
    · rw [e]
      exact hf
    · rw [hpc v e]
  refine ⟨?_, ?_, ?_, ?_, ?_⟩
  · intro v i hv
    rw [key] at hv
    rw [hp, hc]
    exact h1 v i hv
  · intro v u i hv hu
    rw [key] at hv hu
    exact h2 v u i hv hu
  · rw [hc]
    exact h3
  · rw [hc, hp]
    exact h4
  · intro i hi
    rw [hp] at hi
    rw [hc]
    rcases h5 i hi with h | ⟨v, hv⟩ | ⟨v, hv⟩
    · exact Or.inl h
    · exact Or.inr (Or.inl ⟨v, by rw [key]; exact hv⟩)
    · refine Or.inr (Or.inr ⟨v, ?_⟩)
      by_cases e : v = w
      · rw [e] at hv ⊢
        exact hfail hv
      · rw [hpc v e]
        exact hv

theorem carried_fail (s t : Pool) (w : Nat) (h : Inv_carried s)
    (htw : t.pc w = .failed) (hpc : ∀ v, v ≠ w → t.pc v = s.pc v)
    (hp : pops t.log = pops s.log)
    (hc : callback_fronts t.log = callback_fronts s.log) : Inv_carried t := by
  obtain ⟨h1, h2, h3, h4, h5⟩ := h
  have key : ∀ v i, (t.pc v).front = some i → (s.pc v).front = some i := by
    intro v i hv
    by_cases e : v = w
    · rw [e, htw] at hv
      exact Option.noConfusion hv
    · rw [hpc v e] at hv
      exact hv
  refine ⟨?_, ?_, ?_, ?_, ?_⟩
  · intro v i hv
    rw [hp, hc]
    exact h1 v i (key v i hv)
  · intro v u i hv hu
    exact h2 v u i (key v i hv) (key u i hu)
  · rw [hc]
    exact h3
  · rw [hc, hp]
    exact h4
  · intro i _
    exact Or.inr (Or.inr ⟨w, htw⟩)

theorem carried_pop (s t : Pool) (w front : Nat) (h : Inv_carried s)
    (hq : front ∉ pops s.log) (hsw : (s.pc w).front = none) (hsf : s.pc w ≠ .failed)
    (htw : (t.pc w).front = some front) (hpc : ∀ v, v ≠ w → t.pc v = s.pc v)
    (hp : pops t.log = pops s.log ++ [front])
    (hc : callback_fronts t.log = callback_fronts s.log) : Inv_carried t := by
  obtain ⟨h1, h2, h3, h4, h5⟩ := h
  refine ⟨?_, ?_, ?_, ?_, ?_⟩
  · intro v i hv
    rw [hp, hc]
    by_cases e : v = w
    · rw [e, htw] at hv
      have e2 : front = i := Option.some.inj hv
      rw [← e2]
      exact ⟨by simp, fun hmem => hq (h4 front hmem)⟩
    · rw [hpc v e] at hv
      exact ⟨List.mem_append_left _ (h1 v i hv).1, (h1 v i hv).2⟩
  · intro v u i hv hu
    by_cases e : v = w
    · by_cases e2 : u = w
      · rw [e, e2]
      · rw [e, htw] at hv
        rw [hpc u e2] at hu
        have e3 : front = i := Option.some.inj hv
        rw [← e3] at hu
        exact absurd (h1 u front hu).1 hq
    · by_cases e2 : u = w
      · rw [e2, htw] at hu
        rw [hpc v e] at hv
        have e3 : front = i := Option.some.inj hu
        rw [← e3] at hv
        exact absurd (h1 v front hv).1 hq
      · rw [hpc v e] at hv
        rw [hpc u e2] at hu
        exact h2 v u i hv hu
  · rw [hc]
    exact h3
  · intro i hi
    rw [hc] at hi
    rw [hp]
    exact List.mem_append_left _ (h4 i hi)
  · intro i hi
    rw [hp] at hi
    rw [hc]
    rcases List.mem_append.1 hi with hi | hi
    · rcases h5 i hi with h | ⟨v, hv⟩ | ⟨v, hv⟩
      · exact Or.inl h
      · have e : v ≠ w := by
          intro e
          rw [e, hsw] at hv
          exact Option.noConfusion hv
        exact Or.inr (Or.inl ⟨v, by rw [hpc v e]; exact hv⟩)
      · have e : v ≠ w := by
          intro e
          rw [e] at hv
          exact hsf hv
        exact Or.inr (Or.inr ⟨v, by rw [hpc v e]; exact hv⟩)
    · have e : i = front := List.mem_singleton.1 hi
      exact Or.inr (Or.inl ⟨w, by rw [htw, e]⟩)

theorem carried_call (s t : Pool) (w f : Nat) (h : Inv_carried s)
    (hsw : (s.pc w).front = some f) (hsf : s.pc w ≠ .failed)
    (htw : (t.pc w).front = none) (hpc : ∀ v, v ≠ w → t.pc v = s.pc v)
    (hp : pops t.log = pops s.log)
    (hc : callback_fronts t.log = callback_fronts s.log ++ [f]) : Inv_carried t := by
  obtain ⟨h1, h2, h3, h4, h5⟩ := h
  have key : ∀ v i, (t.pc v).front = some i → v ≠ w ∧ (s.pc v).front = some i := by
    intro v i hv
    by_cases e : v = w
    · rw [e, htw] at hv
      exact Option.noConfusion hv
    · rw [hpc v e] at hv
      exact ⟨e, hv⟩
  refine ⟨?_, ?_, ?_, ?_, ?_⟩
  · intro v i hv
    obtain ⟨e, hv⟩ := key v i hv
    rw [hp, hc]
    refine ⟨(h1 v i hv).1, ?_⟩
    intro hmem
    rcases List.mem_append.1 hmem with hm | hm
    · exact (h1 v i hv).2 hm
    · have e2 : i = f := List.mem_singleton.1 hm
      rw [e2] at hv
      exact e (h2 v w f hv hsw)
  · intro v u i hv hu
    exact h2 v u i (key v i hv).2 (key u i hu).2
  · rw [hc]
    refine List.Nodup.append h3 (List.nodup_singleton f) ?_
    intro x hx hx2
    have e := List.mem_singleton.1 hx2
    rw [e] at hx
    exact (h1 w f hsw).2 hx
  · intro i hi
    rw [hc] at hi
    rw [hp]
    rcases List.mem_append.1 hi with hm | hm
    · exact h4 i hm
    · rw [List.mem_singleton.1 hm]
      exact (h1 w f hsw).1
  · intro i hi
    rw [hp] at hi
    rw [hc]
    rcases h5 i hi with h | ⟨v, hv⟩ | ⟨v, hv⟩
    · exact Or.inl (List.mem_append_left _ h)
    · by_cases e : v = w
      · rw [e, hsw] at hv
        have e2 : f = i := Option.some.inj hv
        exact Or.inl (by rw [← e2]; simp)
      · exact Or.inr (Or.inl ⟨v, by rw [hpc v e]; exact hv⟩)
    · have e : v ≠ w := by
        intro e
        rw [e] at hv
        exact hsf hv
      exact Or.inr (Or.inr ⟨v, by rw [hpc v e]; exact hv⟩)

theorem Inv_carried_step {α : Type} (cfg : Executor α) (s : Pool) (a : Action) (n : Nat)
    (hq : Inv_queue n s) (h : Inv_carried s) : Inv_carried (s.step cfg a) := by
  apply step_cases cfg s a Inv_carried h
  case pop_front =>
    intro w front rest hw hpc hqueue
    obtain ⟨m, hm, hq1, hq2⟩ := hq
    have hfront : front ∉ pops s.log := by
      rw [hq2]
      rw [hqueue] at hq1
      have hlen : n - m ≠ 0 := by
        intro e
        rw [e] at hq1
        simp at hq1
      obtain ⟨k, hk⟩ : ∃ k, n - m = k + 1 := ⟨n - m - 1, by omega⟩
      rw [hk, List.range'_succ] at hq1
      rw [(List.cons.inj hq1).1]
      simp
    refine carried_pop s _ w front h hfront (by rw [hpc]; rfl)
      (by rw [hpc]; exact fun e => Pc.noConfusion e) ?_
      (fun v e => by simp only [Function.update_noteq e]) ?_ ?_
    · simp only [Function.update_same]
      rfl
    · show pops (s.log ++ _) = _
      rw [pops_append]
      rfl
    · show callback_fronts (s.log ++ _) = _
      rw [callback_fronts_append]
      simp [callback_fronts]
  case call =>
    intro w f msg r hw hpc
    refine carried_call s _ w f h (by rw [hpc]; rfl)
      (by rw [hpc]; exact fun e => Pc.noConfusion e) ?_
      (fun v e => by simp only [Function.update_noteq e]) ?_ ?_
    · simp only [Function.update_same]
      rfl
    · show pops (s.log ++ _) = _
      rw [pops_append]
      simp [pops]
    · show callback_fronts (s.log ++ _) = _
      rw [callback_fronts_append]
      rfl
  case fail =>
    intro w f ws hw hpc hws
    exact carried_fail s _ w h (by simp only [Function.update_same])
      (fun v e => by simp only [Function.update_noteq e]) rfl rfl
  case throw =>
    intro w f msg hw hpc
    exact carried_fail s _ w h (by simp only [Function.update_same])
      (fun v e => by simp only [Function.update_noteq e]) rfl rfl
  all_goals
    intro w
    intros
    refine carried_frame s _ w h
      (fun v e => by first | rfl | simp only [Function.update_noteq e]) ?_ ?_ ?_ ?_
    · first
        | rfl
        | (simp only [Function.update_same]
           simp_all [Pc.front])
    · first
        | exact id
        | (simp only [Function.update_same]
           simp_all)
    · first
        | rfl
        | (show pops (s.log ++ _) = _
           rw [pops_append]
           simp [pops])
    · first
        | rfl
        | (show callback_fronts (s.log ++ _) = _
           rw [callback_fronts_append]
           simp [callback_fronts])

theorem pool_inv_init {α : Type} (cfg : Executor α) : Pool.Inv cfg (Pool.init cfg) := by
  refine ⟨?_, ?_, ?_, ?_, ?_, ?_, ?_, ?_⟩
  · exact ⟨0, Nat.zero_le _, by simp [Pool.init, List.range_eq_range'], rfl⟩
  · intro w
    simp [Pool.init, Pc.holds]
  · exact ⟨none, rfl, fun w => by simp [Pool.init]⟩
  · refine ⟨?_, ?_, ?_, ?_, ?_⟩ <;> simp [Pool.init, Pc.front, pops, callback_fronts]
  · refine ⟨?_, ?_, ?_, ?_⟩ <;> simp [Pool.init]
  · exact ⟨rfl, by simp [Pool.init, callback_fronts]⟩
  · intro w
    simp [Pool.init]
  · intro w _
    rfl

theorem pool_inv_step {α : Type} (cfg : Executor α) (s : Pool) (a : Action)
    (h : Pool.Inv cfg s) : Pool.Inv cfg (s.step cfg a) :=
  ⟨Inv_queue_step cfg s a _ h.queue, Inv_mutex_step cfg s a h.mutex,
    Inv_serial_step cfg s a h.mutex h.serial, Inv_carried_step cfg s a _ h.queue h.carried,
    Inv_exchange_step cfg s a h.exchange, Inv_called_step cfg s a h.exchange h.called,
    Inv_empty_step cfg s a h.empty, Inv_idle_step cfg s a h.idle⟩

theorem pool_inv_foldl {α : Type} (cfg : Executor α) (schedule : List Action) :
    ∀ s, Pool.Inv cfg s → Pool.Inv cfg (schedule.foldl (Pool.step cfg) s) := by
  induction schedule with
  | nil =>
    intro s h
    exact h
  | cons a l ih =>
    intro s h
    exact ih _ (pool_inv_step cfg s a h)

theorem pool_inv_run {α : Type} (cfg : Executor α) (schedule : List Action) :
    Pool.Inv cfg (Pool.run cfg schedule) :=
  pool_inv_foldl cfg schedule _ (pool_inv_init cfg)

theorem to_int_pow31 : to_int (2 ^ 31) = -2 ^ 31 := by
  unfold to_int
  norm_num

theorem pool_complete {α : Type} (cfg : Executor α) (s : Pool) (h : Pool.Inv cfg s)
    (hW : 1 ≤ cfg.num_workers)
    (hdone : ∀ w, w < cfg.num_workers → (s.pc w).is_done = true) :
    pops s.log = List.range cfg.args.length ∧
    (callback_indices s.log).Perm (List.range cfg.args.length) ∧
    callbacks_serial s.log none = some none := by
  have hpc : ∀ w, (∃ f, s.pc w = .done f) ∨ s.pc w = .idle := by
    intro w
    by_cases hw : w < cfg.num_workers
    · have hd := hdone w hw
      cases hp : s.pc w <;> rw [hp] at hd <;>
        first
          | exact Or.inl ⟨_, rfl⟩
          | exact Bool.noConfusion hd
    · exact Or.inr (h.idle w (by omega))
  have hnofail : ∀ w, s.pc w ≠ .failed := by
    intro w e
    rcases hpc w with ⟨f, hf⟩ | hf <;> rw [hf] at e <;> exact Pc.noConfusion e
  have hfront : ∀ w i, (s.pc w).front = some i → to_int i = -1 := by
    intro w i hi
    rcases hpc w with ⟨f, hf⟩ | hf
    · rw [hf] at hi
      have e : f = some i := hi
      rw [e] at hf
      exact h.exchange.2.2.2 w i (Or.inr hf)
    · rw [hf] at hi
      exact Option.noConfusion hi
  obtain ⟨m, hm, hq, hp⟩ := h.queue
  obtain ⟨h1, h2, h3, h4, h5⟩ := h.carried
  obtain ⟨hc1, hc2⟩ := h.called
  have hpop : ∀ i, i ∈ pops s.log →
      (i ∈ callback_fronts s.log ∧ 0 ≤ to_int i) ∨ to_int i = -1 := by
    intro i hi
    rcases h5 i hi with hcb | ⟨w, hw⟩ | ⟨w, hw⟩
    · exact Or.inl ⟨hcb, hc2 i hcb⟩
    · exact Or.inr (hfront w i hw)
    · exact absurd hw (hnofail w)
  have hm31 : m ≤ 2 ^ 31 := by
    by_contra hlt
    have hmem : 2 ^ 31 ∈ pops s.log := by
      rw [hp]
      exact List.mem_range.2 (by omega)
    rcases hpop _ hmem with ⟨_, h0⟩ | h0
    · rw [to_int_pow31] at h0
      omega
    · rw [to_int_pow31] at h0
      omega
  have hsmall : ∀ i, i ∈ pops s.log → i < 2 ^ 31 := by
    intro i hi
    rw [hp] at hi
    have := List.mem_range.1 hi
    omega
  have hcb : ∀ i, i ∈ pops s.log → i ∈ callback_fronts s.log := by
    intro i hi
    rcases hpop i hi with ⟨hcb, _⟩ | h0
    · exact hcb
    · rw [to_int_small i (hsmall i hi)] at h0
      omega
  have hqe : s.queue = [] := by
    rcases hpc 0 with ⟨f, hf⟩ | hf
    · cases f with
      | none => exact h.empty 0 (Or.inr (Or.inr (Or.inr hf)))
      | some i =>
        have hi := h1 0 i (by rw [hf]; rfl)
        have h0 := h.exchange.2.2.2 0 i (Or.inr hf)
        rw [to_int_small i (hsmall i hi.1)] at h0
        omega
    · have hd := hdone 0 (by omega)
      rw [hf] at hd
      exact Bool.noConfusion hd
  have hmn : m = cfg.args.length := by
    rw [hqe] at hq
    have hl := congrArg List.length hq
    simp at hl
    omega
  rw [hmn] at hp
  refine ⟨hp, ?_, ?_⟩
  · rw [hc1]
    have hmap : (callback_fronts s.log).map (fun f => int_to_size_t (to_int f))
        = callback_fronts s.log := by
      conv_rhs => rw [← List.map_id (callback_fronts s.log)]
      apply List.map_congr_left
      intro f hf
      exact int_to_size_t_small f (hsmall f (h4 f hf))
    rw [hmap]
    apply (List.perm_ext_iff_of_nodup h3 (List.nodup_range _)).2
    intro i
    rw [← hp]
    exact ⟨h4 i, hcb i⟩
  · obtain ⟨cur, hcur, hiff⟩ := h.serial
    cases cur with
    | none => exact hcur
    | some w =>
      obtain ⟨f, hf⟩ := (hiff w).1 rfl
      rcases hpc w with ⟨g, hg⟩ | hg <;> rw [hg] at hf <;> exact Pc.noConfusion hf

/-- C9: in every run of a pool of at least one worker over `N` tasks, under every interleaving
of the steps of the workers and of their children, once every worker has returned, the entries
popped from the shared queue are 0, 1, ..., N - 1, each popped once, the indices the callback
was invoked with are these same `N` indices, each once, in some order, and no invocation of the
callback started while another one was running. -/
theorem pool_exactly_once {α : Type} (cfg : Executor α) (schedule : List Action)
    (hW : 1 ≤ cfg.num_workers)
    (hdone : ∀ w, w < cfg.num_workers → ((Pool.run cfg schedule).pc w).is_done = true) :
    pops (Pool.run cfg schedule).log = List.range cfg.args.length ∧
    (callback_indices (Pool.run cfg schedule).log).Perm (List.range cfg.args.length) ∧
    callbacks_serial (Pool.run cfg schedule).log none = some none :=
  pool_complete cfg _ (pool_inv_run cfg schedule) hW hdone

theorem pool_exactly_once_witness :
    1 ≤ example_executor.num_workers ∧
    (∀ w, w < example_executor.num_workers →
      ((Pool.run example_executor example_schedule).pc w).is_done = true) ∧
    pops (Pool.run example_executor example_schedule).log = List.range 2 ∧
    (callback_indices (Pool.run example_executor example_schedule).log).Perm (List.range 2) ∧
    callbacks_serial (Pool.run example_executor example_schedule).log none = some none :=
  ⟨by decide, by decide,
    pool_exactly_once example_executor example_schedule (by decide) (by decide)⟩

theorem base64_spec_length (data : List Nat) :
    (base64_spec data).length = 4 * ((data.length + 2) / 3) := by
  induction data using base64_spec.induct with
  | case1 => rfl
  | case2 a => simp [base64_spec]
  | case3 a b => simp [base64_spec]
  | case4 a b c rest ih =>
    simp only [base64_spec, List.length_append, List.length_cons, List.length_nil, ih]
    omega

theorem base64_at_alphabet (n : Nat) (h : n < 64) :
    is_base64 (base64_at n) = true ∧ base64_at n ≠ '\n' := by
  have h1 := (base64_at_facts n h).1
  simp only [Bool.and_eq_true] at h1
  refine ⟨h1.2, ?_⟩
  intro e
  rw [e] at h1
  exact absurd h1.2 (by decide)

theorem base64_spec_chars (data : List Nat) : (∀ x ∈ data, x < 256) →
    ∀ c ∈ base64_spec data, (is_base64 c = true ∨ c = '=') ∧ c ≠ '\n' := by
  have pad : (is_base64 '=' = true ∨ '=' = '=') ∧ '=' ≠ '\n' := ⟨Or.inr rfl, by decide⟩
  have at64 : ∀ n, n < 64 →
      (is_base64 (base64_at n) = true ∨ base64_at n = '=') ∧ base64_at n ≠ '\n' :=
    fun n hn => ⟨Or.inl (base64_at_alphabet n hn).1, (base64_at_alphabet n hn).2⟩
  induction data using base64_spec.induct with
  | case1 =>
    intro _ c hc
    simp [base64_spec] at hc
  | case2 a =>
    intro hb c hc
    have ha : a < 256 := hb a (by simp)
    simp only [base64_spec, List.mem_cons, List.mem_singleton, List.not_mem_nil, or_false] at hc
    rcases hc with hc | hc | hc | hc <;> rw [hc]
    · exact at64 _ (by omega)
    · exact at64 _ (by omega)
    · exact pad
    · exact pad
  | case3 a b =>
    intro hb c hc
    have ha : a < 256 := hb a (by simp)
    have hb2 : b < 256 := hb b (by simp)
    simp only [base64_spec, List.mem_cons, List.mem_singleton, List.not_mem_nil, or_false] at hc
    rcases hc with hc | hc | hc | hc <;> rw [hc]
    · exact at64 _ (by omega)
    · exact at64 _ (by omega)
    · exact at64 _ (by omega)
    · exact pad
  | case4 a b c3 rest ih =>
    intro hb c hc
    have ha : a < 256 := hb a (by simp)
    have hb2 : b < 256 := hb b (by simp)
    have hc3 : c3 < 256 := hb c3 (by simp)
    have hr : ∀ x ∈ rest, x < 256 := fun x hx => hb x (by simp [hx])
    simp only [base64_spec, List.cons_append, List.nil_append, List.mem_cons] at hc
    rcases hc with hc | hc | hc | hc | hc
    · rw [hc]
      exact at64 _ (by omega)
    · rw [hc]
      exact at64 _ (by omega)
    · rw [hc]
      exact at64 _ (by omega)
    · rw [hc]
      exact at64 _ (by omega)
    · exact ih hr c hc

theorem base64_encode_data (data : List Nat) (h : ∀ x ∈ data, x < 256) :
    (base64_encode data).data = base64_spec data := by
  unfold base64_encode
  simp only
  rw [encode_loop_spec data _ h rfl]
  rfl

/-- C14: for every sequence of bytes, `base64_encode` returns the standard padded Base64 text:
it is the text `base64_spec` builds group by group (a full group of three bytes gives the four
alphabet characters of its 6-bit slices, most significant first; a last group of one or two
bytes gives two or three alphabet characters, then `==` or `=`), its length is
`4 * ceil(n / 3)`, and each of its characters is a letter, a digit, `+`, `/` or `=`, so none is
a newline. -/
theorem base64_encode_standard (data : List Nat) (h : ∀ x ∈ data, x < 256) :
    (base64_encode data).data = base64_spec data ∧
    (base64_encode data).data.length = 4 * ((data.length + 2) / 3) ∧
    ∀ c ∈ (base64_encode data).data, (is_base64 c = true ∨ c = '=') ∧ c ≠ '\n' := by
  rw [base64_encode_data data h]
  exact ⟨rfl, base64_spec_length data, base64_spec_chars data h⟩

theorem base64_encode_standard_witness :
    (∀ x ∈ [77, 97], x < 256) ∧
    (base64_encode [77, 97]).data = base64_spec [77, 97] ∧
    (base64_encode [77, 97]).data.length = 4 * (([77, 97].length + 2) / 3) ∧
    ∀ c ∈ (base64_encode [77, 97]).data, (is_base64 c = true ∨ c = '=') ∧ c ≠ '\n' :=
  ⟨by decide, base64_encode_standard [77, 97] (by decide)⟩

theorem execute_on_child_line {α : Type} (nc : NumCast) (func : α → Val) (args : List α)
    (line : List Char) (hl : '\n' ∉ line) :
    execute_on_child nc func args (WriteBuffer.init line).str_buf =
      match stoi line with
      | .error e => .throw e
      | .ok idx =>
        if idx = -1 then .exit 0
        else if idx < 0 ∨ idx ≥ to_int args.length then
          .throw (.runtime_error "message can not be decoded")
        else
          match args[idx.toNat]? with
          | none => .throw .undefined
          | some a => .respond (WriteBuffer.init (dump nc (to_json (func a)))).str_buf := by
  unfold execute_on_child
  rw [read_line_framed line hl]
  all_goals rfl

theorem stoi_range (str : List Char) (n : Int) (h : stoi str = .ok n) :
    -2 ^ 31 ≤ n ∧ n < 2 ^ 31 := by
  unfold stoi at h
  dsimp only at h
  split at h
  · exact Except.noConfusion h
  · split at h <;> split at h <;>
      first
        | exact Except.noConfusion h
        | (have e := Except.ok.inj h
           rw [← e]
           omega)

theorem to_string_natCast (i : Nat) : to_string (i : Int) = decimal i := by
  unfold to_string
  simp

/-- The claim C12 fails on a line that starts with an integer and goes on with other text: the
line `-1x` makes the loop return 0, and the line `2abc` is answered like the index 2. -/
theorem trailing_text_is_accepted :
    execute_on_child no_double (fun n : Int => Val.long_long n) [10, 20, 30] "-1x\n".toList
      = .exit 0 ∧
    execute_on_child no_double (fun n : Int => Val.long_long n) [10, 20, 30] "2abc\n".toList
      = .respond "30\n".toList := by
  decide

/-- C12, amended: the child handles a request line as the integer `std::stoi` reads at its
head. The line `-1` makes the loop return 0 with no response; the decimal text of an index
within the arguments (fewer than `2 ^ 31` of them) is answered with one line, the text of
`func(args[i])`; a line `std::stoi` refuses, such as the empty line, is fatal with the
exception of `std::stoi`; a line whose integer is not -1 and is out of bounds is fatal with
`message can not be decoded`, a protocol error; and any line `std::stoi` accepts is handled
exactly like the decimal text of the integer read, whatever follows it on the line. -/
theorem child_dispatch {α : Type} (nc : NumCast) (func : α → Val) (args : List α) :
    execute_on_child nc func args (WriteBuffer.init ['-', '1']).str_buf = .exit 0 ∧
    (∀ (i : Nat) (a : α), args.length < 2 ^ 31 → args[i]? = some a →
      execute_on_child nc func args (WriteBuffer.init (decimal i)).str_buf
        = .respond (WriteBuffer.init (dump nc (to_json (func a)))).str_buf ∧
      '\n' ∉ dump nc (to_json (func a))) ∧
    (∀ (line : List Char) (e : Err), '\n' ∉ line → stoi line = .error e →
      execute_on_child nc func args (WriteBuffer.init line).str_buf = .throw e) ∧
    stoi [] = .error .invalid_argument ∧
    (∀ (line : List Char) (idx : Int), '\n' ∉ line → stoi line = .ok idx → idx ≠ -1 →
      (idx < 0 ∨ idx ≥ to_int args.length) →
      execute_on_child nc func args (WriteBuffer.init line).str_buf
        = .throw (.runtime_error "message can not be decoded")) ∧
    (Err.runtime_error "message can not be decoded").kind = some .ProtocolError ∧
    (∀ (line : List Char) (idx : Int), '\n' ∉ line → stoi line = .ok idx →
      execute_on_child nc func args (WriteBuffer.init line).str_buf
        = execute_on_child nc func args (WriteBuffer.init (to_string idx)).str_buf) := by
  refine ⟨?_, ?_, ?_, rfl, ?_, by decide, ?_⟩
  · rw [execute_on_child_line nc func args _ (by decide)]
    have e : stoi ['-', '1'] = .ok (-1) := rfl
    rw [e]
    rfl
  · intro i a hN hi
    have hlt : i < args.length := by
      rcases List.getElem?_eq_some.1 hi with ⟨h, _⟩
      exact h
    have hs : stoi (decimal i) = .ok (i : Int) := by
      rw [← to_string_natCast]
      exact stoi_to_string _ (by omega) (by omega)
    refine ⟨execute_on_child_respond nc func args (decimal i) i a (decimal_line i) hs
      (by omega) ?_ (by simpa using hi), dump_line nc _⟩
    rw [to_int_small _ hN]
    omega
  · intro line e hl hs
    rw [execute_on_child_line nc func args line hl, hs]
  · intro line idx hl hs h1 h2
    rw [execute_on_child_line nc func args line hl, hs]
    dsimp only
    rw [if_neg h1, if_pos h2]
  · intro line idx hl hs
    rw [execute_on_child_line nc func args line hl, hs,
      execute_on_child_line nc func args _ (to_string_line idx),
      stoi_to_string idx (stoi_range line idx hs).1 (stoi_range line idx hs).2]

theorem child_dispatch_witness :
    ([10, 20, 30] : List Int).length < 2 ^ 31 ∧ ([10, 20, 30] : List Int)[2]? = some 30 ∧
    execute_on_child no_double (fun n : Int => Val.long_long n) [10, 20, 30]
        (WriteBuffer.init (decimal 2)).str_buf
      = .respond (WriteBuffer.init
          (dump no_double (to_json ((fun n : Int => Val.long_long n) 30)))).str_buf :=
  ⟨by decide, by decide,
    ((child_dispatch no_double (fun n : Int => Val.long_long n) [10, 20, 30]).2.1 2 30
      (by decide) (by decide)).1⟩

theorem scan_unicode_error (input : List Char) (e : Err)
    (h : scan_unicode input = .error e) : e = .parse_error := by
  unfold scan_unicode at h
  repeat' split at h
  all_goals
    first
      | exact (Except.error.inj h).symm
      | exact Except.noConfusion h

theorem scan_escape_error (input : List Char) (e : Err)
    (h : scan_escape input = .error e) : e = .parse_error := by
  unfold scan_escape at h
  repeat' split at h
  all_goals
    first
      | exact (Except.error.inj h).symm
      | exact Except.noConfusion h
      | exact scan_unicode_error _ e h

theorem scan_string_error : ∀ (fuel : Nat) (input acc : List Char) (e : Err),
    scan_string fuel input acc = .error e → e = .parse_error := by
  intro fuel
  induction fuel with
  | zero =>
    intro input acc e h
    exact (Except.error.inj h).symm
  | succ n ih =>
    intro input acc e h
    unfold scan_string at h
    repeat' split at h
    all_goals
      first
        | exact (Except.error.inj h).symm
        | exact Except.noConfusion h
        | exact ih _ _ e h
        | (rename_i e2 he
           rw [← Except.error.inj h]
           exact scan_escape_error _ e2 he)

theorem scan_number_error (nc : NumCast) (input : List Char) (e : Err)
    (h : scan_number nc input = .error e) : e = .parse_error := by
  unfold scan_number at h
  dsimp only at h
  repeat' split at h
  all_goals
    first
      | exact (Except.error.inj h).symm
      | exact Except.noConfusion h

theorem parse_value_error (nc : NumCast) : ∀ (fuel : Nat),
    (∀ input e, parse_value nc fuel input = .error e → e = .parse_error) ∧
    (∀ input acc e, parse_elements nc fuel input acc = .error e → e = .parse_error) ∧
    (∀ input acc e, parse_members nc fuel input acc = .error e → e = .parse_error) := by
  intro fuel
  induction fuel with
  | zero =>
    refine ⟨?_, ?_, ?_⟩
    · intro input e h
      unfold parse_value at h
      exact (Except.error.inj h).symm
    · intro input acc e h
      unfold parse_elements at h
      exact (Except.error.inj h).symm
    · intro input acc e h
      unfold parse_members at h
      exact (Except.error.inj h).symm
  | succ n ih =>
    obtain ⟨ih1, ih2, ih3⟩ := ih
    refine ⟨?_, ?_, ?_⟩
    · intro input e h
      unfold parse_value at h
      repeat' split at h
      all_goals
        first
          | exact (Except.error.inj h).symm
          | exact Except.noConfusion h
          | exact ih2 _ _ e h
          | exact ih3 _ _ e h
          | exact scan_number_error nc _ e h
          | (rename_i e2 he
             rw [← Except.error.inj h]
             exact scan_string_error _ _ _ e2 he)
    · intro input acc e h
      unfold parse_elements at h
      repeat' split at h
      all_goals
        first
          | exact (Except.error.inj h).symm
          | exact Except.noConfusion h
          | exact ih2 _ _ e h
          | (rename_i e2 he
             rw [← Except.error.inj h]
             exact ih1 _ e2 he)
    · intro input acc e h
      unfold parse_members at h
      repeat' split at h
      all_goals
        first
          | exact (Except.error.inj h).symm
          | exact Except.noConfusion h
          | exact ih3 _ _ e h
          | (rename_i e2 he
             rw [← Except.error.inj h]
             exact ih1 _ e2 he)
          | (rename_i e2 he
             rw [← Except.error.inj h]
             exact scan_string_error _ _ _ e2 he)

theorem parse_error_only (nc : NumCast) (input : List Char) (e : Err)
    (h : parse nc input = .error e) : e = .parse_error := by
  unfold parse at h
  repeat' split at h
  all_goals
    first
      | exact (Except.error.inj h).symm
      | exact Except.noConfusion h
      | (rename_i e2 he
         rw [← Except.error.inj h]
         exact (parse_value_error nc _).1 _ e2 he)

theorem TupleEncoder_size : ∀ (params : List Val) (js : List Json),
    TupleEncoder params = .ok js → js.length = params.length
  | [], js, h => by
    rw [TupleEncoder] at h
    exact (congrArg List.length (Except.ok.inj h)).symm
  | item :: rest, js, h => by
    rw [TupleEncoder] at h
    cases hx : ParamEncoder item with
    | error e =>
      rw [hx] at h
      exact Except.noConfusion h
    | ok x =>
      cases hxs : TupleEncoder rest with
      | error e =>
        rw [hx, hxs] at h
        exact Except.noConfusion h
      | ok xs =>
        rw [hx, hxs] at h
        have e : x :: xs = js := Except.ok.inj h
        rw [← e, List.length_cons, List.length_cons, TupleEncoder_size rest xs hxs]

theorem ParamEncoder_tuple (params : List Val) (jparams : Json)
    (h : ParamEncoder (.tuple params) = .ok jparams) :
    ∃ js, TupleEncoder params = .ok js ∧ jparams = wire "list" (.array js) := by
  rw [ParamEncoder] at h
  cases hxs : TupleEncoder params with
  | error e =>
    rw [hxs] at h
    exact Except.noConfusion h
  | ok xs =>
    rw [hxs] at h
    exact ⟨xs, rfl, (Except.ok.inj h).symm⟩

/-- The claim C13 fails on an array of three names passed with two values: the request is sent
with three names and two encoded values, and the call returns once the peer has answered. -/
theorem set_vars_sends_unequal_counts :
    set_vars_command ["a", "b", "c"] [.long_long 12, .long_long 34]
      = .ok (.array [.string "set_vars", .array [.string "a", .string "b", .string "c"],
          wire "list" (.array [wire "int" (.number_integer 12),
            wire "int" (.number_integer 34)])]) ∧
    set_vars no_double (fun _ => some "null".toList) ["a", "b", "c"]
      [.long_long 12, .long_long 34] = .ok .void :=
  ⟨rfl, rfl⟩

/-- C13, amended: for every `set_vars` invocation whose parameters encode, the command sent is
the array of `set_vars`, the names in the given order, as many as the array holds, and the
encoded tuple, which holds one encoded value for each parameter; the counts are not compared,
and no error of the invocation is a size mismatch: it fails only when the exchange with the
process fails or when the response does not parse. -/
theorem set_vars_request (nc : NumCast) (communicate : List Char → Option (List Char))
    (param_names : List String) (params : List Val) (jparams : Json)
    (henc : ParamEncoder (.tuple params) = .ok jparams) :
    set_vars_command param_names params
      = .ok (.array [.string "set_vars", .array (param_names.map .string), jparams]) ∧
    (∃ js, jparams = wire "list" (.array js) ∧ js.length = params.length) ∧
    set_vars nc communicate param_names params
      = execute_with_data nc .void communicate
          (.array [.string "set_vars", .array (param_names.map .string), jparams]) ∧
    (∀ e, set_vars nc communicate param_names params = .error e →
      e.kind = some .ProcessDied ∨ e.kind = some .ProtocolError) := by
  have hcmd : set_vars_command param_names params
      = .ok (.array [.string "set_vars", .array (param_names.map .string), jparams]) := by
    unfold set_vars_command
    rw [henc]
    rfl
  have hset : set_vars nc communicate param_names params
      = execute_with_data nc .void communicate
          (.array [.string "set_vars", .array (param_names.map .string), jparams]) := by
    unfold set_vars
    rw [hcmd]
    rfl
  refine ⟨hcmd, ?_, hset, ?_⟩
  · obtain ⟨js, hjs, hj⟩ := ParamEncoder_tuple params jparams henc
    exact ⟨js, hj, TupleEncoder_size params js hjs⟩
  · intro e he
    rw [hset] at he
    unfold execute_with_data at he
    split at he
    · rw [← Except.error.inj he]
      exact Or.inl (by decide)
    · rename_i result hres
      cases hp : parse nc result with
      | error e2 =>
        rw [hp] at he
        have e3 : e2 = e := Except.error.inj he
        rw [← e3, parse_error_only nc result e2 hp]
        exact Or.inr rfl
      | ok j =>
        rw [hp] at he
        exact Except.noConfusion he

theorem set_vars_request_witness :
    ParamEncoder (.tuple [.long_long 12, .long_long 34])
      = .ok (wire "list" (.array [wire "int" (.number_integer 12),
          wire "int" (.number_integer 34)])) ∧
    set_vars_command ["a", "b"] [.long_long 12, .long_long 34]
      = .ok (.array [.string "set_vars", .array (["a", "b"].map .string),
          wire "list" (.array [wire "int" (.number_integer 12),
            wire "int" (.number_integer 34)])]) :=
  ⟨rfl, (set_vars_request no_double (fun _ => none) ["a", "b"]
    [.long_long 12, .long_long 34] _ rfl).1⟩

theorem step_spawn {α : Type} (cfg : Executor α) (s : Pool) (w : Nat) (f : Option Nat)
    (hw : w < cfg.num_workers) (hpc : s.pc w = .popped f) (hal : (s.child w).alive = false) :
    (s.step cfg (.worker w)).pc w = .ready f ∧ (s.step cfg (.worker w)).child w = .waiting := by
  have e : s.step cfg (.worker w) =
      { s with child := Function.update s.child w .waiting,
               pc := Function.update s.pc w (.ready f) } := by
    simp only [Pool.step, if_pos hw]
    unfold worker_step
    rw [hpc]
    simp [hal]
  rw [e]
  exact ⟨Function.update_same _ _ _, Function.update_same _ _ _⟩

theorem step_write {α : Type} (cfg : Executor α) (s : Pool) (w i : Nat)
    (hw : w < cfg.num_workers) (hpc : s.pc w = .ready (some i)) (hi : to_int i ≠ -1)
    (hal : (s.child w).alive = true) :
    (s.step cfg (.worker w)).pc w = .written i true ∧
    (s.step cfg (.worker w)).child w = .requested (request_bytes (to_int i)) := by
  have e : s.step cfg (.worker w) =
      { s with child := Function.update s.child w (.requested (request_bytes (to_int i))),
               pc := Function.update s.pc w (.written i true) } := by
    simp only [Pool.step, if_pos hw]
    unfold worker_step
    rw [hpc]
    simp [hal, selected_idx, hi]
  rw [e]
  exact ⟨Function.update_same _ _ _, Function.update_same _ _ _⟩

theorem step_child_respond {α : Type} (cfg : Executor α) (s : Pool) (w : Nat)
    (b out : List Char) (hw : w < cfg.num_workers) (hc : s.child w = .requested b)
    (hex : execute_on_child cfg.nc cfg.func cfg.args b = .respond out) :
    (s.step cfg (.child w)).pc w = s.pc w ∧ (s.step cfg (.child w)).child w = .responded out := by
  have e : s.step cfg (.child w)
      = { s with child := Function.update s.child w (.responded out) } := by
    simp only [Pool.step, if_pos hw]
    unfold child_step
    rw [hc]
    simp [hex]
  rw [e]
  exact ⟨rfl, Function.update_same _ _ _⟩

theorem step_read {α : Type} (cfg : Executor α) (s : Pool) (w f : Nat)
    (bytes msg : List Char) (hw : w < cfg.num_workers) (hpc : s.pc w = .written f true)
    (hc : s.child w = .responded bytes) (hr : read_from_proc bytes = some msg) :
    (s.step cfg (.worker w)).pc w = .received f msg ∧
    (s.step cfg (.worker w)).child w = .waiting := by
  have e : s.step cfg (.worker w) =
      { s with child := Function.update s.child w .waiting,
               pc := Function.update s.pc w (.received f msg) } := by
    simp only [Pool.step, if_pos hw]
    unfold worker_step
    rw [hpc]
    simp [hc, hr]
  rw [e]
  exact ⟨Function.update_same _ _ _, Function.update_same _ _ _⟩

theorem step_kill {α : Type} (cfg : Executor α) (s : Pool) (w : Nat)
    (hw : w < cfg.num_workers) :
    (s.step cfg (.kill w)).pc = s.pc ∧ ((s.step cfg (.kill w)).child w).alive = false := by
  simp only [Pool.step, if_pos hw]
  unfold kill_step
  by_cases hal : (s.child w).alive = true
  · rw [if_pos hal]
    exact ⟨rfl, by simp [Child.alive]⟩
  · rw [if_neg hal]
    exact ⟨rfl, by simpa using hal⟩

theorem step_fail {α : Type} (cfg : Executor α) (s : Pool) (w f : Nat) (ws : Bool)
    (hw : w < cfg.num_workers) (hpc : s.pc w = .written f ws)
    (hal : (s.child w).alive = false) : (s.step cfg (.worker w)).pc w = .failed := by
  simp only [Pool.step, if_pos hw]
  unfold worker_step
  rw [hpc]
  cases ws with
  | false => simp
  | true =>
    cases hc : s.child w <;> rw [hc] at hal <;> simp_all [Child.alive]

/-- The claim C11 fails on a run of two workers over two tasks in which the child of worker 0
is killed once, between the write of the request for task 0 and the read of its response:
worker 0 leaves `control_worker` by the exception, and when worker 1 has returned and the queue
is empty, the callback has been invoked for task 1 only. -/
theorem kill_during_exchange_fails :
    kill_schedule.count (.kill 0) = 1 ∧ kill_schedule.count (.kill 1) = 0 ∧
    (Pool.run example_executor kill_schedule).pc 0 = .failed ∧
    (Pool.run example_executor kill_schedule).pc 1 = .done none ∧
    (Pool.run example_executor kill_schedule).queue = [] ∧
    callback_indices (Pool.run example_executor kill_schedule).log = [1] := by
  decide

/-- C11, amended: a death of the child that the worker meets at the liveness check at the top
of its loop is healed, and a death during the exchange is fatal. When a worker that has popped
the index `i` of a task (of fewer than `2 ^ 31` tasks) finds its child not alive, it spawns a
replacement, writes the request to it, the replacement answers, and the worker reads the text
of `func(args[i])`, with the replacement alive and waiting. When the child of a worker that has
written a request dies before the worker has read the response, the worker leaves
`control_worker` by the exception `execute task failed`, so the task gets no callback. -/
theorem self_healing {α : Type} (cfg : Executor α) (s : Pool) (w : Nat)
    (hw : w < cfg.num_workers) :
    (∀ (i : Nat) (a : α), cfg.args.length < 2 ^ 31 → cfg.args[i]? = some a →
      s.pc w = .popped (some i) → (s.child w).alive = false →
      ((((s.step cfg (.worker w)).step cfg (.worker w)).step cfg (.child w)).step cfg
          (.worker w)).pc w = .received i (dump cfg.nc (to_json (cfg.func a))) ∧
      ((((s.step cfg (.worker w)).step cfg (.worker w)).step cfg (.child w)).step cfg
          (.worker w)).child w = .waiting) ∧
    (∀ (f : Nat) (ws : Bool), s.pc w = .written f ws →
      ((s.step cfg (.kill w)).step cfg (.worker w)).pc w = .failed) := by
  refine ⟨?_, ?_⟩
  · intro i a hN hi hpc hal
    have hlt : i < cfg.args.length := by
      rcases List.getElem?_eq_some.1 hi with ⟨h, _⟩
      exact h
    have hti : to_int i = (i : Int) := to_int_small i (by omega)
    have hne : to_int i ≠ -1 := by
      rw [hti]
      omega
    have hex : execute_on_child cfg.nc cfg.func cfg.args (request_bytes (to_int i))
        = .respond (WriteBuffer.init (dump cfg.nc (to_json (cfg.func a)))).str_buf := by
      unfold request_bytes
      refine execute_on_child_respond cfg.nc cfg.func cfg.args _ (to_int i) a
        (to_string_line _) (stoi_to_string _ (to_int_range i).1 (to_int_range i).2) hne ?_ ?_
      · rw [hti, to_int_small _ hN]
        omega
      · rw [hti]
        simpa using hi
    have h1 := step_spawn cfg s w (some i) hw hpc hal
    have h2 := step_write cfg (s.step cfg (.worker w)) w i hw h1.1 hne (by rw [h1.2]; rfl)
    have h3 := step_child_respond cfg ((s.step cfg (.worker w)).step cfg (.worker w)) w _ _ hw
      h2.2 hex
    exact step_read cfg _ w i _ (dump cfg.nc (to_json (cfg.func a))) hw
      (by rw [h3.1]; exact h2.1) h3.2 (read_from_proc_framed _ (dump_line cfg.nc _))
  · intro f ws hpc
    have hk := step_kill cfg s w hw
    exact step_fail cfg _ w f ws hw (by rw [hk.1]; exact hpc) hk.2

theorem self_healing_witness :
    (0 : Nat) < example_executor.num_workers ∧
    (Pool.run example_executor [.worker 0, .worker 0]).pc 0 = .popped (some 0) ∧
    ((((((Pool.run example_executor [.worker 0, .worker 0]).step example_executor
      (.worker 0)).step example_executor (.worker 0)).step example_executor
      (.child 0)).step example_executor (.worker 0)).pc 0
        = .received 0 (dump example_executor.nc (to_json (example_executor.func 10)))) :=
  ⟨by decide, by decide,
    ((self_healing example_executor (Pool.run example_executor [.worker 0, .worker 0]) 0
      (by decide)).1 0 10 (by decide) (by decide) (by decide) (by decide)).1⟩

end PyHandler
